import Mathlib

/-!
The OVAL matching engine (`oval/util.go`) and the detection pipeline
(`detector/detector.go`) of vuls.

A shallow embedding of the affectedness evaluator (`isOvalDefAffected`), the
version comparator dispatch (`lessThan`, `centOSVersionToRHEL`), the definition
aggregator (`ovalResult.upsert`), the two fetch strategies
(`getDefsByPackNameViaHTTP`, `getDefsByPackNameFromOvalDB`) with `httpGet`, and
of the detector (`Detect`, `DetectPkgCves`, `DetectCpeURIsCves`,
`fillCvesWithNvdJvn`).

Go strings are modelled by `String`, Go slices by `List`, and Go maps with
string keys by association lists with one pair per key. A function that works
on a value through a pointer gives the value after the call. Logging calls have
no effect on the results and are left out, and the texts of the errors are
shortened where the code formats its arguments into them.
-/

namespace Oval

/-! ## Family constants (package `constant`) -/

/-- The value of `constant.RedHat`. -/
def RedHat : String := "redhat"
/-- The value of `constant.Debian`. -/
def Debian : String := "debian"
/-- The value of `constant.Ubuntu`. -/
def Ubuntu : String := "ubuntu"
/-- The value of `constant.CentOS`. -/
def CentOS : String := "centos"
/-- The value of `constant.Amazon`. -/
def Amazon : String := "amazon"
/-- The value of `constant.Oracle`. -/
def Oracle : String := "oracle"
/-- The value of `constant.Raspbian`. -/
def Raspbian : String := "raspbian"
/-- The value of `constant.SUSEEnterpriseServer`. -/
def SUSEEnterpriseServer : String := "suse.linux.enterprise.server"
/-- The value of `constant.Alpine`. -/
def Alpine : String := "alpine"

/-! ## Data model -/

/-- The fields of `ovalmodels.Package` that `oval/util.go` reads. -/
structure Package where
  Name : String
  Version : String
  Arch : String
  NotFixedYet : Bool
  ModularityLabel : String
deriving DecidableEq, Repr

/-- The type `ovalmodels.Definition`: the identifier, the affected-package
records, and `Title` standing for the descriptive fields that the matching
engine only carries along. -/
structure Definition where
  DefinitionID : String
  Title : String
  AffectedPacks : List Package
deriving DecidableEq, Repr

/-- The type `models.Kernel`. -/
structure Kernel where
  Release : String
  Version : String
  RebootRequired : Bool
deriving DecidableEq, Repr

/-- The type `fixStat`. -/
structure fixStat where
  notFixedYet : Bool
  fixedIn : String
  isSrcPack : Bool
  srcPackName : String
deriving DecidableEq, Repr

/-- The type `defPacks`; the field `def` is named `defn` here. The map is the
one that `upsert` creates with its first pair and assigns into afterwards; a nil
map, which no code of the package creates, has no counterpart here. -/
structure defPacks where
  defn : Definition
  binpkgFixstat : List (String × fixStat)
deriving DecidableEq, Repr

/-- The type `ovalResult`. -/
structure ovalResult where
  entries : List defPacks
deriving DecidableEq, Repr

/-- The type `request`. -/
structure request where
  packName : String
  versionRelease : String
  newVersionRelease : String
  arch : String
  binaryPackNames : List String
  isSrcPack : Bool
  modularityLabel : String
deriving DecidableEq, Repr

/-! ## Go map operations on `binpkgFixstat` -/

/-- The Go assignment `m[k] = v`: overwrite the pair of `k` when there is one,
add a pair otherwise. -/
def mapSet (m : List (String × fixStat)) (k : String) (v : fixStat) :
    List (String × fixStat) :=
  match m with
  | [] => [(k, v)]
  | (k0, v0) :: t => if k0 = k then (k, v) :: t else (k0, v0) :: mapSet t k v

/-- The Go lookup `m[k]` with its presence flag. -/
def mapGet (m : List (String × fixStat)) (k : String) : Option fixStat :=
  match m with
  | [] => none
  | (k0, v0) :: t => if k0 = k then some v0 else mapGet t k

/-! ## `ovalResult.upsert` -/

/-- The search loop of `upsert`: the entries after the assignment into the first
entry whose identifier equals that of `d`, or `none` when the loop ends without
finding one. -/
def upsertLoop (entries : List defPacks) (d : Definition) (packName : String)
    (fstat : fixStat) : Option (List defPacks) :=
  match entries with
  | [] => none
  | entry :: rest =>
    if entry.defn.DefinitionID = d.DefinitionID then
      some ({ entry with binpkgFixstat := mapSet entry.binpkgFixstat packName fstat } :: rest)
    else
      (upsertLoop rest d packName fstat).map (fun es => entry :: es)

/-- The method `(e *ovalResult) upsert`: the returned flag and the receiver
after the call. -/
def upsert (e : ovalResult) (d : Definition) (packName : String) (fstat : fixStat) :
    Bool × ovalResult :=
  let appended : ovalResult :=
    ⟨e.entries ++ [{ defn := d, binpkgFixstat := [(packName, fstat)] }]⟩
  if d.DefinitionID ≠ "" then
    match upsertLoop e.entries d packName fstat with
    | some es => (true, ⟨es⟩)
    | none => (false, appended)
  else
    (false, appended)

/-! ## `centOSVersionToRHEL` -/

/-- The text `s` starts with a digit, so that `\d+` matches at its head. -/
def headIsDigit : List Char → Bool
  | d :: _ => d.isDigit
  | [] => false

/-- The text `s` starts with an underscore and a digit, so that the group
`_\d+` matches at its head. -/
def startsMinor : List Char → Bool
  | c :: t => c == '_' && headIsDigit t
  | [] => false

/-- The optional group `(?:_\d+)?` at the head of `s`: what is left of `s` after
it. The group is taken whenever it matches, and then it takes the underscore and
all the digits that follow. -/
def skipMinor (s : List Char) : List Char :=
  if startsMinor s then (s.drop 1).dropWhile Char.isDigit else s

/-- The literal `.centos`. -/
def centosLit : List Char := ['.', 'c', 'e', 'n', 't', 'o', 's']

/-- The optional group `(?:\.centos)?` at the head of `s`: what is left of `s`
after it. -/
def skipCentos (s : List Char) : List Char :=
  if centosLit.isPrefixOf s then s.drop centosLit.length else s

/-- The text `s` starts with a dot, `e` or `s`, `l` and a digit, so that
`centosVerPattern` matches at its head. -/
def startsMatch : List Char → Bool
  | c0 :: c1 :: c2 :: t => c0 == '.' && (c1 == 'e' || c1 == 's') && c2 == 'l' && headIsDigit t
  | _ => false

/-- A match of `centosVerPattern`, that is of
`\.[es]l(\d+)(?:_\d+)?(?:\.centos)?`, at the head of `s`: the text of group 1
and what is left of `s` after the match. Every quantifier is greedy and nothing
follows the optional groups, so group 1 takes all the digits and each optional
group is taken whenever it matches. -/
def matchAt (s : List Char) : Option (List Char × List Char) :=
  if startsMatch s then
    some ((s.drop 3).takeWhile Char.isDigit,
      skipCentos (skipMinor ((s.drop 3).dropWhile Char.isDigit)))
  else none

/-- The scanning loop of `ReplaceAllString` with a bound on the number of steps
left: at a match the replacement `.el` followed by the text of group 1 is
written and the scan goes on after the match, otherwise one character is copied.
Every step consumes at least one character, so a bound of the length of the text
never runs out (`replaceAllAux_fuel`). -/
def replaceAllAux : Nat → List Char → List Char
  | 0, _ => []
  | _ + 1, [] => []
  | fuel + 1, c :: t =>
    match matchAt (c :: t) with
    | some (n, r) => ['.', 'e', 'l'] ++ n ++ replaceAllAux fuel r
    | none => c :: replaceAllAux fuel t

/-- The call `centosVerPattern.ReplaceAllString(ver, ".el$1")` on the characters
of `ver`. -/
def replaceAll (s : List Char) : List Char :=
  replaceAllAux s.length s

/-- The function `centOSVersionToRHEL`. -/
def centOSVersionToRHEL (ver : String) : String :=
  String.mk (replaceAll ver.data)

/-- The match of `centosVerPattern` at the head of `s`, when there is one, is
not followed, past any further digits, by an underscore and a digit or by
`.centos`. -/
def stableAt (s : List Char) : Bool :=
  match matchAt s with
  | some (_, r) =>
    !startsMinor (r.dropWhile Char.isDigit) && !centosLit.isPrefixOf (r.dropWhile Char.isDigit)
  | none => true

/-- No match of `centosVerPattern` at any position of `s` is followed, past any
further digits, by an underscore and a digit or by `.centos`. -/
def stable : List Char → Bool
  | [] => true
  | c :: t => stableAt (c :: t) && stable t

/-! ## Collaborators outside `oval/util.go` -/

/-- What `oval/util.go` uses and does not declare: the table
`kernelRelatedPackNames` (declared in `oval/redhat.go`), the helper `util.Major`,
and the three version libraries `go-deb-version`, `go-apk-version` and
`go-rpm-version`, each with its parsed-version type, its constructor
`NewVersion` (the Debian and Alpine ones can fail, the RPM one cannot) and its
method `LessThan`. Each of them is taken as a total function. Everything below
is stated for an arbitrary value of this structure. -/
structure Deps where
  kernelRelatedPackNames : String → Bool
  Major : String → String
  DebVersion : Type
  debNewVersion : String → Except String DebVersion
  debLessThan : DebVersion → DebVersion → Bool
  ApkVersion : Type
  apkNewVersion : String → Except String ApkVersion
  apkLessThan : ApkVersion → ApkVersion → Bool
  RpmVersion : Type
  rpmNewVersion : String → RpmVersion
  rpmLessThan : RpmVersion → RpmVersion → Bool

/-! ## `lessThan` -/

/-- The function `lessThan`: the family selects the version grammar; a family
without one is an error. -/
def lessThan (deps : Deps) (family newVer : String) (packInOVAL : Package) :
    Except String Bool :=
  if family = Debian ∨ family = Ubuntu ∨ family = Raspbian then
    match deps.debNewVersion newVer with
    | .error err => .error err
    | .ok vera =>
      match deps.debNewVersion packInOVAL.Version with
      | .error err => .error err
      | .ok verb => .ok (deps.debLessThan vera verb)
  else if family = Alpine then
    match deps.apkNewVersion newVer with
    | .error err => .error err
    | .ok vera =>
      match deps.apkNewVersion packInOVAL.Version with
      | .error err => .error err
      | .ok verb => .ok (deps.apkLessThan vera verb)
  else if family = Oracle ∨ family = SUSEEnterpriseServer ∨ family = Amazon then
    .ok (deps.rpmLessThan (deps.rpmNewVersion newVer) (deps.rpmNewVersion packInOVAL.Version))
  else if family = RedHat ∨ family = CentOS then
    .ok (deps.rpmLessThan (deps.rpmNewVersion (centOSVersionToRHEL newVer))
      (deps.rpmNewVersion (centOSVersionToRHEL packInOVAL.Version)))
  else
    .error ("Not implemented yet: " ++ family)

/-! ## `isOvalDefAffected` -/

/-- The flag `isModularityLabelEmptyOrSame` that `isOvalDefAffected` computes for
a record: the label is empty, or it is one of `enabledMods`. -/
def isModularityLabelEmptyOrSame (ovalPack : Package) (enabledMods : List String) : Bool :=
  if ovalPack.ModularityLabel ≠ "" then enabledMods.contains ovalPack.ModularityLabel
  else true

/-- The kernel test of `isOvalDefAffected` that ends in `continue`: the running
release is known, the family is RedHat or CentOS, the record names a
kernel-related package, and the majors differ. -/
def kernelMajorDiffers (deps : Deps) (family : String) (running : Kernel)
    (ovalPack : Package) : Bool :=
  if running.Release ≠ "" then
    if family = RedHat ∨ family = CentOS then
      if deps.kernelRelatedPackNames ovalPack.Name then
        decide (deps.Major ovalPack.Version ≠ deps.Major running.Release)
      else false
    else false
  else false

/-- The loop of `isOvalDefAffected` over the records that are left. -/
def isOvalDefAffectedLoop (deps : Deps) (packs : List Package) (req : request)
    (family : String) (running : Kernel) (enabledMods : List String) :
    Bool × Bool × String :=
  match packs with
  | [] => (false, false, "")
  | ovalPack :: rest =>
    if req.packName ≠ ovalPack.Name then
      isOvalDefAffectedLoop deps rest req family running enabledMods
    else if !isModularityLabelEmptyOrSame ovalPack enabledMods then
      isOvalDefAffectedLoop deps rest req family running enabledMods
    else if kernelMajorDiffers deps family running ovalPack then
      isOvalDefAffectedLoop deps rest req family running enabledMods
    else if ovalPack.NotFixedYet then
      (true, true, ovalPack.Version)
    else
      match lessThan deps family req.versionRelease ovalPack with
      | .error _ => (false, false, ovalPack.Version)
      | .ok less =>
        if less then
          if req.isSrcPack then
            (true, false, ovalPack.Version)
          else if family = RedHat ∨ family = Amazon ∨ family = SUSEEnterpriseServer ∨
              family = Debian ∨ family = Ubuntu ∨ family = Raspbian then
            (true, false, ovalPack.Version)
          else if req.newVersionRelease = "" then
            (true, false, ovalPack.Version)
          else
            match lessThan deps family req.newVersionRelease ovalPack with
            | .error _ => (false, false, ovalPack.Version)
            | .ok less2 => (true, less2, ovalPack.Version)
        else
          isOvalDefAffectedLoop deps rest req family running enabledMods

/-- The function `isOvalDefAffected`: the triple `(affected, notFixedYet, fixedIn)`. -/
def isOvalDefAffected (deps : Deps) (d : Definition) (req : request) (family : String)
    (running : Kernel) (enabledMods : List String) : Bool × Bool × String :=
  isOvalDefAffectedLoop deps d.AffectedPacks req family running enabledMods

/-- A record gets past the three `continue` tests at the head of the loop body:
it names the package of the request, its modularity label is empty or enabled,
and the kernel test does not skip it. -/
def passesChecks (deps : Deps) (req : request) (family : String) (running : Kernel)
    (enabledMods : List String) (ovalPack : Package) : Bool :=
  decide (req.packName = ovalPack.Name) && isModularityLabelEmptyOrSame ovalPack enabledMods &&
    !kernelMajorDiffers deps family running ovalPack

/-! ## The body of the loop over the definitions of one response -/

/-- The body of `for _, def := range res.defs` in `getDefsByPackNameViaHTTP`. -/
def viaHTTPStep (deps : Deps) (family : String) (running : Kernel)
    (enabledMods : List String) (req : request) (relatedDefs : ovalResult)
    (d : Definition) : ovalResult :=
  match isOvalDefAffected deps d req family running enabledMods with
  | (affected, notFixedYet, fixedIn) =>
    if !affected then relatedDefs
    else if req.isSrcPack then
      req.binaryPackNames.foldl
        (fun r n => (upsert r d n
          { srcPackName := req.packName, isSrcPack := true,
            notFixedYet := notFixedYet, fixedIn := fixedIn }).2)
        relatedDefs
    else
      (upsert relatedDefs d req.packName
        { notFixedYet := notFixedYet, fixedIn := fixedIn,
          isSrcPack := false, srcPackName := "" }).2

/-- The body of `for _, def := range definitions` in `getDefsByPackNameFromOvalDB`. -/
def fromOvalDBStep (deps : Deps) (family : String) (running : Kernel)
    (enabledMods : List String) (req : request) (relatedDefs : ovalResult)
    (d : Definition) : ovalResult :=
  match isOvalDefAffected deps d req family running enabledMods with
  | (affected, notFixedYet, fixedIn) =>
    if !affected then relatedDefs
    else if req.isSrcPack then
      req.binaryPackNames.foldl
        (fun r binName => (upsert r d binName
          { notFixedYet := false, isSrcPack := true,
            fixedIn := fixedIn, srcPackName := req.packName }).2)
        relatedDefs
    else
      (upsert relatedDefs d req.packName
        { notFixedYet := notFixedYet, fixedIn := fixedIn,
          isSrcPack := false, srcPackName := "" }).2

/-- The entry that the search loop of `upsert` stops at for the identifier `id`:
the first entry carrying it. -/
def firstEntry (entries : List defPacks) (id : String) : Option defPacks :=
  entries.find? (fun entry => decide (entry.defn.DefinitionID = id))

/-! ## A sample of the collaborators, for concrete evaluations -/

/-- The key of a version text under the sample ordering: every run of digits
becomes its number, every other character its code point. -/
def sampleKeyAux : Option Nat → List Char → List Nat
  | acc, [] => acc.toList
  | acc, c :: t =>
    if c.isDigit then sampleKeyAux (some (acc.getD 0 * 10 + (c.toNat - 48))) t
    else acc.toList ++ c.toNat :: sampleKeyAux none t

/-- Lexicographic order on keys. -/
def sampleKeyLess : List Nat → List Nat → Bool
  | _, [] => false
  | [], _ :: _ => true
  | a :: as, b :: bs => decide (a < b) || (decide (a = b) && sampleKeyLess as bs)

/-- The sample parser of the grammars that can fail: a version has to start with
a digit. -/
def sampleParse (s : String) : Except String (List Nat) :=
  match s.data with
  | [] => .error "version is empty"
  | c :: t => if c.isDigit then .ok (sampleKeyAux none (c :: t))
    else .error "version must start with a digit"

/-- The sample of `util.Major`: the text up to the first dot, after the epoch
when there is one. -/
def sampleMajor (s : String) : String :=
  let ver := if s.data.contains ':' then (s.data.dropWhile (fun c => c ≠ ':')).drop 1 else s.data
  String.mk (ver.takeWhile (fun c => c ≠ '.'))

/-- A sample of the collaborators: a table of kernel-related names, a major that
reads up to the first dot, and one ordering by runs of digits for the three
grammars. It serves to evaluate the functions above on concrete inputs; the
theorems are about every value of `Deps`. -/
def sampleDeps : Deps where
  kernelRelatedPackNames := fun n =>
    ["kernel", "kernel-devel", "kernel-headers", "kernel-tools", "perf"].contains n
  Major := sampleMajor
  DebVersion := List Nat
  debNewVersion := sampleParse
  debLessThan := sampleKeyLess
  ApkVersion := List Nat
  apkNewVersion := sampleParse
  apkLessThan := sampleKeyLess
  RpmVersion := List Nat
  rpmNewVersion := fun s => sampleKeyAux none s.data
  rpmLessThan := sampleKeyLess

/-- A finite sequence of `upsert` calls on a result, each call given by its three
arguments; the returned flags are dropped. -/
def upsertAll (e : ovalResult) (calls : List (Definition × String × fixStat)) : ovalResult :=
  calls.foldl (fun r c => (upsert r c.1 c.2.1 c.2.2).2) e

/-! ## The scan result (package `models`) -/

/-- A generic Go map with string keys, as the list of its pairs, one pair per
key: the assignment `m[k] = v`. -/
def goMapSet {α : Type} (m : List (String × α)) (k : String) (v : α) : List (String × α) :=
  match m with
  | [] => [(k, v)]
  | (k0, v0) :: t => if k0 = k then (k, v) :: t else (k0, v0) :: goMapSet t k v

/-- The lookup `m[k]` with its presence flag. -/
def goMapGet {α : Type} (m : List (String × α)) (k : String) : Option α :=
  match m with
  | [] => none
  | (k0, v0) :: t => if k0 = k then some v0 else goMapGet t k

/-- The type `models.PortStat`. -/
structure models.PortStat where
  BindAddress : String := ""
  Port : String := ""
  PortReachableTo : List String := []
deriving DecidableEq, Repr

/-- The type `models.AffectedProcess`. -/
structure models.AffectedProcess where
  PID : String := ""
  Name : String := ""
  ListenPorts : List String := []
  ListenPortStats : List models.PortStat := []
deriving DecidableEq, Repr

/-- The type `models.Package`, as far as `oval/util.go` and
`detector/detector.go` read it: the name, the architecture, the values of the
methods `FormatVer()` (the installed version and release) and `FormatNewVer()`
(the candidate version and release, empty when none is known), and the affected
processes. -/
structure models.Package where
  Name : String := ""
  Arch : String := ""
  FormatVer : String := ""
  FormatNewVer : String := ""
  AffectedProcs : List models.AffectedProcess := []
deriving DecidableEq, Repr

/-- The type `models.SrcPackage`. -/
structure models.SrcPackage where
  Name : String := ""
  Version : String := ""
  Arch : String := ""
  BinaryNames : List String := []
deriving DecidableEq, Repr

/-- The type `models.PackageFixStatus`. -/
structure models.PackageFixStatus where
  Name : String := ""
  NotFixedYet : Bool := false
  FixState : String := ""
  FixedIn : String := ""
deriving DecidableEq, Repr

/-- The type `models.Confidence`. -/
structure models.Confidence where
  Score : Nat := 0
  DetectionMethod : String := ""
  SortOrder : Nat := 0
deriving DecidableEq, Repr

/-- The value `models.CpeNameMatch`. -/
def models.CpeNameMatch : models.Confidence := ⟨100, "CpeNameMatch", 1⟩

/-- The type `models.CveContent`: its field `Type`, named `Type_` here, and the
fields that stand for its text. -/
structure models.CveContent where
  Type_ : String := ""
  CveID : String := ""
  Title : String := ""
  Summary : String := ""
  CweIDs : List String := []
deriving DecidableEq, Repr

/-- The type `models.Exploit`. -/
structure models.Exploit where
  ExploitType : String := ""
  ID : String := ""
  URL : String := ""
deriving DecidableEq, Repr

/-- The type `models.Mitigation`. -/
structure models.Mitigation where
  CveContentType : String := ""
  MitigationText : String := ""
  URL : String := ""
deriving DecidableEq, Repr

/-- The type `models.Alert`. -/
structure models.Alert where
  URL : String := ""
  Title : String := ""
  Team : String := ""
deriving DecidableEq, Repr

/-- The type `models.AlertDict`. -/
structure models.AlertDict where
  Ja : List models.Alert := []
  En : List models.Alert := []
deriving DecidableEq, Repr

/-- The type `models.VulnInfo`. The fields that `detector/detector.go` does not
name (the alerts of the code host, the statuses of WordPress packages and of
libraries, the type of the vulnerability) are left out; `DistroAdvisories` and
`Metasploits` stand for the fields that are only carried along. -/
structure models.VulnInfo where
  CveID : String := ""
  Confidences : List models.Confidence := []
  AffectedPackages : List models.PackageFixStatus := []
  DistroAdvisories : List String := []
  CveContents : List (String × models.CveContent) := []
  Exploits : List models.Exploit := []
  Metasploits : List String := []
  Mitigations : List models.Mitigation := []
  AlertDict : models.AlertDict := {}
  CpeURIs : List String := []
deriving DecidableEq, Repr

/-- The type `models.Container`. -/
structure models.Container where
  ContainerID : String := ""
  Name : String := ""
deriving DecidableEq, Repr

/-- The type `models.ScanResult`, as far as `oval/util.go` and
`detector/detector.go` read it. The maps `Packages`, `SrcPackages` and
`ScannedCves` are given as lists in the order in which the `range` loops visit
them, `ScannedCves` with its keys. -/
structure models.ScanResult where
  Family : String := ""
  Release : String := ""
  RunningKernel : Kernel := ⟨"", "", false⟩
  EnabledDnfModules : List String := []
  Packages : List models.Package := []
  SrcPackages : List models.SrcPackage := []
  ServerName : String := ""
  Container : models.Container := {}
  ScannedCves : List (String × models.VulnInfo) := []
  WordPressPackages : List String := []
  ReportedBy : String := ""
  Lang : String := ""
  ReportedAt : Nat := 0
  ReportedVersion : String := ""
  ReportedRevision : String := ""
deriving DecidableEq, Repr

/-! ## The two fetch strategies -/

/-- The type `response`. -/
structure response where
  request : request
  defs : List Definition
deriving DecidableEq, Repr

/-- The requests that the goroutine of `getDefsByPackNameViaHTTP` sends to
`reqChan`, in order. -/
def viaHTTPRequests (r : models.ScanResult) : List request :=
  r.Packages.map (fun pack =>
    { packName := pack.Name, versionRelease := pack.FormatVer,
      newVersionRelease := pack.FormatVer, isSrcPack := false, arch := pack.Arch,
      binaryPackNames := [], modularityLabel := "" }) ++
  r.SrcPackages.map (fun pack =>
    { packName := pack.Name, binaryPackNames := pack.BinaryNames,
      versionRelease := pack.Version, isSrcPack := true,
      newVersionRelease := "", arch := "", modularityLabel := "" })

/-- The slice `requests` that `getDefsByPackNameFromOvalDB` builds. -/
def fromOvalDBRequests (r : models.ScanResult) : List request :=
  r.Packages.map (fun pack =>
    { packName := pack.Name, versionRelease := pack.FormatVer,
      newVersionRelease := pack.FormatNewVer, arch := pack.Arch, isSrcPack := false,
      binaryPackNames := [], modularityLabel := "" }) ++
  r.SrcPackages.map (fun pack =>
    { packName := pack.Name, binaryPackNames := pack.BinaryNames,
      versionRelease := pack.Version, arch := pack.Arch, isSrcPack := true,
      newVersionRelease := "", modularityLabel := "" })

/-- What the collector loop of `getDefsByPackNameViaHTTP` can receive in one
turn of its `select`: a response from `resChan`, an error from `errChan`, or the
firing of the deadline. -/
inductive event where
  | res (r : response)
  | err (e : String)
  | timeout
deriving DecidableEq, Repr

/-- The errors of `getDefsByPackNameViaHTTP`. `timeout` is
`xerrors.New("Timeout Fetching OVAL")`. `failed n` is the value of
`xerrors.Errorf("Failed to fetch OVAL. err: %w", errs)` for a slice `errs` of
`n` errors: the operand of `%w` is a `[]error` and not an error, so nothing is
wrapped, and the text is `Failed to fetch OVAL. err: %!w([]error=[...])` with
one address between the brackets for each of the `n` errors and none of their
texts. -/
inductive fetchError where
  | timeout
  | failed (n : Nat)
deriving DecidableEq, Repr

/-- The case `res := <-resChan` of the collector loop: the loop over `res.defs`. -/
def collectResponse (deps : Deps) (r : models.ScanResult) (relatedDefs : ovalResult)
    (res : response) : ovalResult :=
  res.defs.foldl
    (viaHTTPStep deps r.Family r.RunningKernel r.EnabledDnfModules res.request) relatedDefs

/-- The collector loop `for i := 0; i < nReq; i++` of `getDefsByPackNameViaHTTP`
on the events that its `select` receives, with the turns that are left, and the
test of `errs` after it; `errs` holds the texts of the errors received, of which
the error returned keeps the number. When no message is left to receive, the
deadline is what fires. -/
def collectLoop (deps : Deps) (r : models.ScanResult) :
    Nat → List event → ovalResult → List String → ovalResult × Option fetchError
  | 0, _, relatedDefs, errs =>
    if errs.length ≠ 0 then (relatedDefs, some (fetchError.failed errs.length))
    else (relatedDefs, none)
  | _ + 1, [], relatedDefs, _ => (relatedDefs, some fetchError.timeout)
  | n + 1, event.res res :: es, relatedDefs, errs =>
    collectLoop deps r n es (collectResponse deps r relatedDefs res) errs
  | n + 1, event.err e :: es, relatedDefs, errs =>
    collectLoop deps r n es relatedDefs (errs ++ [e])
  | _ + 1, event.timeout :: _, relatedDefs, _ => (relatedDefs, some fetchError.timeout)

/-- The function `getDefsByPackNameViaHTTP`, on the events that the collector
loop receives from the workers and the timer: the pair `(relatedDefs, err)`. -/
def getDefsByPackNameViaHTTP (deps : Deps) (r : models.ScanResult) (events : List event) :
    ovalResult × Option fetchError :=
  collectLoop deps r (r.Packages.length + r.SrcPackages.length) events ⟨[]⟩ []

/-- The aggregation of a list of responses alone, each handled as the collector
loop handles it. -/
def aggregate (deps : Deps) (r : models.ScanResult) (rs : List response) : ovalResult :=
  rs.foldl (collectResponse deps r) ⟨[]⟩

/-- The responses among the events. -/
def responsesOf : List event → List response
  | [] => []
  | event.res x :: es => x :: responsesOf es
  | _ :: es => responsesOf es

/-- The errors among the events. -/
def errorsOf : List event → List String
  | [] => []
  | event.err e :: es => e :: errorsOf es
  | _ :: es => errorsOf es

/-- The loop `for _, req := range requests` of `getDefsByPackNameFromOvalDB`;
`GetByPackName` is the method of the driver, given the family, the release, the
package name and the architecture. -/
def fromOvalDBLoop (deps : Deps)
    (GetByPackName : String → String → String → String → Except String (List Definition))
    (r : models.ScanResult) : List request → ovalResult → ovalResult × Option String
  | [], relatedDefs => (relatedDefs, none)
  | req :: rest, relatedDefs =>
    match GetByPackName r.Family r.Release req.packName req.arch with
    | .error err =>
      (relatedDefs, some ("Failed to get " ++ r.Family ++ " OVAL info by package: " ++ err))
    | .ok definitions =>
      fromOvalDBLoop deps GetByPackName r rest
        (definitions.foldl
          (fromOvalDBStep deps r.Family r.RunningKernel r.EnabledDnfModules req) relatedDefs)

/-- The function `getDefsByPackNameFromOvalDB`: the pair `(relatedDefs, err)`. -/
def getDefsByPackNameFromOvalDB (deps : Deps)
    (GetByPackName : String → String → String → String → Except String (List Definition))
    (r : models.ScanResult) : ovalResult × Option String :=
  fromOvalDBLoop deps GetByPackName r (fromOvalDBRequests r) ⟨[]⟩

/-! ## `httpGet` -/

/-- The outcome of one call of `gorequest ... Get(url).End()`: the errors, the
status code of the response when there is a response, and the body. -/
structure getOutcome where
  errs : List String
  resp : Option Nat
  body : String
deriving DecidableEq, Repr

/-- The test `0 < len(errs) || resp == nil || resp.StatusCode != 200` of the
closure `f` in `httpGet`. -/
def getFailed (o : getOutcome) : Bool :=
  decide (0 < o.errs.length) || decide (o.resp = none) || decide (o.resp ≠ some 200)

/-- The end of `backoff.RetryNotify(f, ...)` in `httpGet`: the policy gave up and
returned the last error, or `f` returned nil; with the value of `count`, the
body of the last attempt, and the number of attempts made. -/
structure retryEnd where
  gaveUp : Bool
  count : Nat
  body : String
  attempts : Nat
deriving DecidableEq, Repr

/-- The calls that `backoff.RetryNotify` makes of the closure `f` of `httpGet`.
`outcome i` is the outcome of attempt `i`, `patience` the number of calls that
the backoff policy still allows before it gives up by itself, `count` the
counter of `f`, and `attempts` the number of attempts made so far. -/
def retryNotify (outcome : Nat → getOutcome) (retryMax : Nat) :
    Nat → Nat → Nat → String → retryEnd
  | 0, count, attempts, body => ⟨true, count, body, attempts⟩
  | patience + 1, count, attempts, _ =>
    if getFailed (outcome attempts) then
      if count + 1 = retryMax then
        ⟨false, count + 1, (outcome attempts).body, attempts + 1⟩
      else
        retryNotify outcome retryMax patience (count + 1) (attempts + 1)
          (outcome attempts).body
    else
      ⟨false, count, (outcome attempts).body, attempts + 1⟩

/-- The function `httpGet`: the messages that it sends, to `resChan` or to
`errChan`, and the number of GET attempts that it makes. `Unmarshal` is
`json.Unmarshal` into a slice of definitions. -/
def httpGet (Unmarshal : String → Except String (List Definition))
    (outcome : Nat → getOutcome) (patience : Nat) (req : request) : List event × Nat :=
  let e := retryNotify outcome 3 patience 0 0 ""
  if e.gaveUp then ([event.err "HTTP Error"], e.attempts)
  else if e.count = 3 then ([event.err "HRetry count exceeded"], e.attempts)
  else
    match Unmarshal e.body with
    | .error err => ([event.err ("Failed to Unmarshal. body: " ++ e.body ++ ", err: " ++ err)],
        e.attempts)
    | .ok defs => ([event.res ⟨req, defs⟩], e.attempts)

/-- The text `s` holds a match of `centosVerPattern`. -/
def hasMatch : List Char → Bool
  | [] => false
  | c :: t => startsMatch (c :: t) || hasMatch t

/-- A CentOS 8 host with openssl 1.2-3.el8 installed, whose update 1.2-5.el8 is
known to the scan. -/
def sampleCentOSHost : models.ScanResult :=
  { Family := "centos", Release := "8",
    RunningKernel := ⟨"4.18.0-240.el8.x86_64", "", false⟩,
    Packages := [
      { Name := "openssl", Arch := "x86_64", FormatVer := "1.2-3.el8",
        FormatNewVer := "1.2-5.el8" }] }

/-- A RedHat 8 host with openssl 1.2-3.el8 and glibc 2.28-151.el8 installed. -/
def sampleRedHatHost : models.ScanResult :=
  { Family := "redhat", Release := "8",
    Packages := [
      { Name := "openssl", Arch := "x86_64", FormatVer := "1.2-3.el8" },
      { Name := "glibc", Arch := "x86_64", FormatVer := "2.28-151.el8" }] }

end Oval

/-! ## The detection pipeline (`detector/detector.go`) -/

namespace Detector

open Oval

/-- The value of `constant.FreeBSD`. -/
def FreeBSD : String := "freebsd"
/-- The value of `constant.Windows`. -/
def Windows : String := "windows"
/-- The value of `constant.ServerTypePseudo`. -/
def ServerTypePseudo : String := "pseudo"

/-! ### `DetectPkgCves` -/

/-- The interface `oval.Client` with the driver applied: the three methods that
`detectPkgsCvesWithOval` calls. `FillWithOval` works on the scan result in
place, so it gives the scan result after the call together with its error. -/
structure ovalClient where
  CheckIfOvalFetched : String → String → Except String Bool
  CheckIfOvalFresh : String → String → Except String Bool
  FillWithOval : models.ScanResult → models.ScanResult × Option String

/-- What `detectPkgsCvesWithOval` uses and `detector/detector.go` does not
declare: the clients of package `oval`, the configuration flag
`c.Conf.OvalDict.IsFetchViaHTTP()`, whether the driver is nil, and the method
`NewOvalDB` of the driver. -/
structure ovalEnv where
  NewDebian : ovalClient
  NewUbuntu : ovalClient
  NewRedhat : ovalClient
  NewCentOS : ovalClient
  NewOracle : ovalClient
  NewSUSE : ovalClient
  NewAlpine : ovalClient
  NewAmazon : ovalClient
  IsFetchViaHTTP : Bool
  driverIsNil : Bool
  NewOvalDB : String → Option String

/-- The part of `detectPkgsCvesWithOval` after the `switch`, for the client and
the OVAL family chosen. -/
def fetchWithOval (env : ovalEnv) (client : ovalClient) (ovalFamily : String)
    (r : models.ScanResult) : models.ScanResult × Option String :=
  let checked : Option String :=
    if !env.IsFetchViaHTTP then
      if env.driverIsNil then
        some ("You have to fetch OVAL data for " ++ r.Family ++ " before reporting.")
      else
        match env.NewOvalDB ovalFamily with
        | some err => some ("Failed to New Oval DB. err: " ++ err)
        | none => none
    else none
  match checked with
  | some err => (r, some err)
  | none =>
    match client.CheckIfOvalFetched ovalFamily r.Release with
    | .error err => (r, some err)
    | .ok ok =>
      if !ok then
        (r, some ("OVAL entries of " ++ ovalFamily ++ " " ++ r.Release ++
          " are not found. Fetch OVAL before reporting."))
      else
        match client.CheckIfOvalFresh ovalFamily r.Release with
        | .error err => (r, some err)
        | .ok _ => client.FillWithOval r

/-- The function `detectPkgsCvesWithOval`: the scan result after the call and
the error. -/
def detectPkgsCvesWithOval (env : ovalEnv) (r : models.ScanResult) :
    models.ScanResult × Option String :=
  if r.Family = Debian ∨ r.Family = Raspbian then fetchWithOval env env.NewDebian Debian r
  else if r.Family = Ubuntu then fetchWithOval env env.NewUbuntu Ubuntu r
  else if r.Family = RedHat then fetchWithOval env env.NewRedhat RedHat r
  else if r.Family = CentOS then fetchWithOval env env.NewCentOS RedHat r
  else if r.Family = Oracle then fetchWithOval env env.NewOracle Oracle r
  else if r.Family = SUSEEnterpriseServer then
    fetchWithOval env env.NewSUSE SUSEEnterpriseServer r
  else if r.Family = Alpine then fetchWithOval env env.NewAlpine Alpine r
  else if r.Family = Amazon then fetchWithOval env env.NewAmazon Amazon r
  else if r.Family = FreeBSD ∨ r.Family = Windows then (r, none)
  else if r.Family = ServerTypePseudo then (r, none)
  else if r.Family = "" then
    (r, some "Probably an error occurred during scanning. Check the error message")
  else (r, some ("OVAL for " ++ r.Family ++ " is not implemented yet"))

/-- What `DetectPkgCves` uses and `detector/detector.go` does not declare: the
collaborators of the OVAL detection, the method `DetectUnfixed` of the gost
client of the family (with the driver applied), the helper `reuseScannedCves`,
and `models.NewPortStat`. -/
structure pkgEnv where
  oval : ovalEnv
  DetectUnfixed : models.ScanResult → models.ScanResult × Option String
  reuseScannedCves : models.ScanResult → Bool
  NewPortStat : String → Except String models.PortStat

/-- The function `detectPkgsCvesWithGost`. -/
def detectPkgsCvesWithGost (env : pkgEnv) (r : models.ScanResult) :
    models.ScanResult × Option String :=
  env.DetectUnfixed r

/-- The two detections that `DetectPkgCves` can run. -/
inductive detection where
  | oval
  | gost
deriving DecidableEq, Repr

/-- The loop of `DetectPkgCves` over the affected packages of one `VulnInfo`:
a package that is not fixed yet and has no fix state gets the state
`Not fixed yet`. -/
def fillFixState (v : models.VulnInfo) : models.VulnInfo :=
  { v with AffectedPackages := v.AffectedPackages.map (fun p =>
      if p.NotFixedYet ∧ p.FixState = "" then { p with FixState := "Not fixed yet" } else p) }

/-- The loop of `DetectPkgCves` over the listen ports of one process: every
port that `NewPortStat` parses is appended to `ListenPortStats`. -/
def fillListenPortStats (env : pkgEnv) (proc : models.AffectedProcess) :
    models.AffectedProcess :=
  { proc with ListenPortStats := proc.ListenPortStats ++
      proc.ListenPorts.filterMap (fun ipPort =>
        match env.NewPortStat ipPort with
        | .ok ps => some ps
        | .error _ => none) }

/-- The two loops at the end of `DetectPkgCves`. -/
def finishPkgCves (env : pkgEnv) (r : models.ScanResult) : models.ScanResult :=
  { r with
    ScannedCves := r.ScannedCves.map (fun kv => (kv.1, fillFixState kv.2))
    Packages := r.Packages.map (fun pkg =>
      { pkg with AffectedProcs := pkg.AffectedProcs.map (fillListenPortStats env) }) }

/-- What a call of `DetectPkgCves` leaves: the scan result, the error, and the
detections that were run, in order. -/
structure pkgOutcome where
  r : models.ScanResult
  err : Option String
  ran : List detection

/-- The function `DetectPkgCves`. -/
def DetectPkgCves (env : pkgEnv) (r : models.ScanResult) : pkgOutcome :=
  if r.Release ≠ "" then
    match detectPkgsCvesWithOval env.oval r with
    | (r1, some err) =>
      ⟨r1, some ("Failed to detect CVE with OVAL: " ++ err), [detection.oval]⟩
    | (r1, none) =>
      match detectPkgsCvesWithGost env r1 with
      | (r2, some err) =>
        ⟨r2, some ("Failed to detect CVE with gost: " ++ err), [detection.oval, detection.gost]⟩
      | (r2, none) => ⟨finishPkgCves env r2, none, [detection.oval, detection.gost]⟩
  else if env.reuseScannedCves r then ⟨finishPkgCves env r, none, []⟩
  else if r.Family = ServerTypePseudo then ⟨finishPkgCves env r, none, []⟩
  else ⟨r, some "Failed to fill CVEs. r.Release is empty", []⟩

/-! ### `DetectCpeURIsCves` -/

/-- The certificate alerts of a CVE detail (`Certs` of `cvemodels`). -/
structure Cert where
  Title : String := ""
  Link : String := ""
deriving DecidableEq, Repr

/-- The type `cvemodels.NvdJSON`: its alerts, and `Summary` standing for the
rest of the record. -/
structure NvdJSON where
  Certs : List Cert := []
  Summary : String := ""
deriving DecidableEq, Repr

/-- The type `cvemodels.Jvn`: its alerts, and `Summary` standing for the rest of
the record. -/
structure Jvn where
  Certs : List Cert := []
  Summary : String := ""
deriving DecidableEq, Repr

/-- The type `cvemodels.CveDetail`; a nil pointer is `none`. -/
structure CveDetail where
  CveID : String := ""
  NvdJSON : Option NvdJSON := none
  Jvn : Option Jvn := none
deriving DecidableEq, Repr

/-- Modelled from the spec: `util.AppendIfMissing`, which `detector/detector.go`
calls and does not declare. The spec has the CPE name appended without
duplication: the slice is returned as it is when it holds the text, and with the
text appended otherwise. -/
def AppendIfMissing (slice : List String) (s : String) : List String :=
  if s ∈ slice then slice else slice ++ [s]

/-- Modelled from the spec: the method `AppendIfMissing` of `models.Confidences`,
which `detector/detector.go` calls and does not declare. As for the CPE names,
the confidence is appended unless the slice holds it. -/
def ConfidencesAppendIfMissing (cs : List models.Confidence) (c : models.Confidence) :
    List models.Confidence :=
  if c ∈ cs then cs else cs ++ [c]

/-- The body of the loop `for _, detail := range details` of
`DetectCpeURIsCves`, on the map `r.ScannedCves`. -/
def cpeDetail (name : String) (cves : List (String × models.VulnInfo)) (detail : CveDetail) :
    List (String × models.VulnInfo) :=
  match goMapGet cves detail.CveID with
  | some val =>
    goMapSet cves detail.CveID
      { val with
        CpeURIs := AppendIfMissing val.CpeURIs name
        Confidences := ConfidencesAppendIfMissing val.Confidences models.CpeNameMatch }
  | none =>
    goMapSet cves detail.CveID
      { CveID := detail.CveID, CpeURIs := [name], Confidences := [models.CpeNameMatch] }

/-- The loop `for _, name := range cpeURIs` of `DetectCpeURIsCves`;
`FetchCveDetailsByCpeName` is the method of `CveClient` with the driver
applied. -/
def cpeLoop (FetchCveDetailsByCpeName : String → Except String (List CveDetail)) :
    List String → List (String × models.VulnInfo) →
      List (String × models.VulnInfo) × Option String
  | [], cves => (cves, none)
  | name :: rest, cves =>
    match FetchCveDetailsByCpeName name with
    | .error err => (cves, some err)
    | .ok details =>
      cpeLoop FetchCveDetailsByCpeName rest (details.foldl (cpeDetail name) cves)

/-- The function `DetectCpeURIsCves`: the scan result after the call and the
error. The counter `nCVEs` is only logged. -/
def DetectCpeURIsCves (driverIsNil : Bool) (IsFetchViaHTTP : Bool)
    (FetchCveDetailsByCpeName : String → Except String (List CveDetail))
    (r : models.ScanResult) (cpeURIs : List String) : models.ScanResult × Option String :=
  if cpeURIs.length ≠ 0 ∧ driverIsNil ∧ ¬ IsFetchViaHTTP then
    (r, some "cpeURIs specified, but cve-dictionary DB not found.")
  else
    match cpeLoop FetchCveDetailsByCpeName cpeURIs r.ScannedCves with
    | (cves, err) => ({ r with ScannedCves := cves }, err)

/-! ### `fillCvesWithNvdJvn` -/

/-- What `fillCvesWithNvdJvn` uses and `detector/detector.go` does not declare:
the method `FetchCveDetails` of `CveClient` with the driver applied, the two
converters of package `models`, and the method `Empty` of `models.CveContent`.
A nil content is `none`. -/
structure cveEnv where
  FetchCveDetails : List String → Except String (List CveDetail)
  ConvertNvdJSONToModel : String → Option NvdJSON →
    Option models.CveContent × List models.Exploit × List models.Mitigation
  ConvertJvnToModel : String → Option Jvn → Option models.CveContent
  Empty : models.CveContent → Bool

/-- The function `fillCertAlerts`. -/
def fillCertAlerts (cvedetail : CveDetail) : models.AlertDict :=
  { En :=
      match cvedetail.NvdJSON with
      | some nvd => nvd.Certs.map (fun cert => ⟨cert.Link, cert.Title, "us"⟩)
      | none => []
    Ja :=
      match cvedetail.Jvn with
      | some jvn => jvn.Certs.map (fun cert => ⟨cert.Link, cert.Title, "jp"⟩)
      | none => [] }

/-- The loop `for _, con := range []*models.CveContent{nvd, jvn}` on the map
`vinfo.CveContents`. -/
def setContents (env : cveEnv) (contents : List (String × models.CveContent))
    (cons : List (Option models.CveContent)) : List (String × models.CveContent) :=
  cons.foldl (fun m con =>
    match con with
    | some c => if !env.Empty c then goMapSet m c.Type_ c else m
    | none => m) contents

/-- What `fillCvesWithNvdJvn` does to the `VulnInfo` that matches the detail
`d`. -/
def enrich (env : cveEnv) (d : CveDetail) (vinfo : models.VulnInfo) : models.VulnInfo :=
  { vinfo with
    CveContents := setContents env vinfo.CveContents
      [(env.ConvertNvdJSONToModel d.CveID d.NvdJSON).1, env.ConvertJvnToModel d.CveID d.Jvn]
    AlertDict := fillCertAlerts d
    Exploits := vinfo.Exploits ++ (env.ConvertNvdJSONToModel d.CveID d.NvdJSON).2.1
    Mitigations := vinfo.Mitigations ++ (env.ConvertNvdJSONToModel d.CveID d.NvdJSON).2.2 }

/-- The loop `for cveID, vinfo := range r.ScannedCves` of `fillCvesWithNvdJvn`
for one detail: the first `VulnInfo` visited whose identifier is that of the
detail is enriched and stored under its key, and the loop ends. -/
def fillDetail (env : cveEnv) (d : CveDetail) :
    List (String × models.VulnInfo) → List (String × models.VulnInfo)
  | [] => []
  | (cveID, vinfo) :: rest =>
    if vinfo.CveID = d.CveID then (cveID, enrich env d vinfo) :: rest
    else (cveID, vinfo) :: fillDetail env d rest

/-- The function `fillCvesWithNvdJvn`: the scan result after the call and the
error. -/
def fillCvesWithNvdJvn (env : cveEnv) (r : models.ScanResult) :
    models.ScanResult × Option String :=
  match env.FetchCveDetails (r.ScannedCves.map (fun kv => kv.2.CveID)) with
  | .error err => (r, some err)
  | .ok ds =>
    ({ r with ScannedCves := ds.foldl (fun cves d => fillDetail env d cves) r.ScannedCves },
      none)

/-! ### `Detect` -/

/-- The type `config.ContainerSetting`, as far as `Detect` reads it. -/
structure ContainerSetting where
  Cpes : List String := []
  OwaspDCXMLPath : String := ""
  IgnoreCves : List String := []
  IgnorePkgsRegexp : List String := []
deriving DecidableEq, Repr

/-- The type `config.GitHubConf`. -/
structure GitHubConf where
  Token : String := ""
deriving DecidableEq, Repr

/-- The type `config.ServerInfo`, as far as `Detect` reads it; the maps are
given as the lists of their pairs. -/
structure ServerInfo where
  CpeNames : List String := []
  OwaspDCXMLPath : String := ""
  Containers : List (String × ContainerSetting) := []
  GitHubRepos : List (String × GitHubConf) := []
  IgnoreCves : List String := []
  IgnorePkgsRegexp : List String := []
  IgnoredJSONKeys : List String := []
deriving DecidableEq, Repr

/-- The fields of `c.Conf` that `Detect` reads itself; the thresholds that it
only hands to the filters are part of the filters in `detectEnv`. -/
structure Config where
  RefreshCve : Bool := false
  Servers : List (String × ServerInfo) := []
  IgnoreGitHubDismissed : Bool := false
  Lang : String := ""
  DiffPlus : Bool := false
  DiffMinus : Bool := false
  IgnoreUnscoredCves : Bool := false
deriving DecidableEq, Repr

/-- What `Detect` and the functions that it calls use and `detector/detector.go`
does not declare: the configuration, the version and revision of the program,
the clock and the host name, the helpers of package `detector` in other files,
the clients of the databases with their drivers applied, the writer of the JSON
files, and the filters of package `models` with their thresholds applied. A
function that works on the scan result in place gives the scan result after the
call together with its error. -/
structure detectEnv where
  Conf : Config
  Version : String
  Revision : String
  Now : Nat
  Hostname : String
  needToRefreshCve : models.ScanResult → Bool
  Parse : String → Except String (List String)
  DetectLibsCves : models.ScanResult → models.ScanResult × Option String
  pkg : pkgEnv
  cveDriverIsNil : Bool
  CveDictIsFetchViaHTTP : Bool
  FetchCveDetailsByCpeName : String → Except String (List CveDetail)
  DetectGitHubSecurityAlerts :
    models.ScanResult → String → String → String → Bool → models.ScanResult × Option String
  detectWordPressCves : models.ScanResult → models.ScanResult × Option String
  FillCVEsWithRedHat : models.ScanResult → models.ScanResult × Option String
  cve : cveEnv
  FillWithExploit : models.ScanResult → models.ScanResult × Option String
  FillWithMetasploit : models.ScanResult → models.ScanResult × Option String
  ClearFields : models.ScanResult → List String → models.ScanResult
  OverwriteJSONFile : models.ScanResult → Option String
  loadPrevious : List models.ScanResult → Except String (List models.ScanResult)
  diff : List models.ScanResult → List models.ScanResult → Bool → Bool → List models.ScanResult
  FilterByCvssOver : List (String × models.VulnInfo) → List (String × models.VulnInfo)
  FilterUnfixed : List (String × models.VulnInfo) → List (String × models.VulnInfo)
  FilterIgnoreCves :
    List (String × models.VulnInfo) → List String → List (String × models.VulnInfo)
  FilterIgnorePkgs :
    List (String × models.VulnInfo) → List String → List (String × models.VulnInfo)
  FindScoredVulns : List (String × models.VulnInfo) → List (String × models.VulnInfo)
  FilterInactiveWordPressLibs : models.ScanResult → models.ScanResult

/-- The lookup `c.Conf.Servers[name]`, which gives the zero value for a name
that is not configured. -/
def serverOf (conf : Config) (name : String) : ServerInfo :=
  (goMapGet conf.Servers name).getD {}

/-- The loop of `DetectGitHubCves` over the configured repositories. -/
def gitHubLoop (env : detectEnv) (ignoreDismissed : Bool) :
    List (String × GitHubConf) → models.ScanResult → models.ScanResult × Option String
  | [], r => (r, none)
  | (ownerRepo, setting) :: rest, r =>
    match ownerRepo.splitOn "/" with
    | [owner, repo] =>
      match env.DetectGitHubSecurityAlerts r owner repo setting.Token ignoreDismissed with
      | (r1, some err) => (r1, some ("Failed to access GitHub Security Alerts: " ++ err))
      | (r1, none) => gitHubLoop env ignoreDismissed rest r1
    | _ => (r, some ("Failed to parse GitHub owner/repo: " ++ ownerRepo))

/-- The function `DetectGitHubCves`. -/
def DetectGitHubCves (env : detectEnv) (r : models.ScanResult)
    (githubConfs : List (String × GitHubConf)) (ignoreDismissed : Bool) :
    models.ScanResult × Option String :=
  if githubConfs.length = 0 then (r, none)
  else gitHubLoop env ignoreDismissed githubConfs r

/-- The function `DetectWordPressCves`. -/
def DetectWordPressCves (env : detectEnv) (r : models.ScanResult) :
    models.ScanResult × Option String :=
  if r.WordPressPackages.length = 0 then (r, none)
  else
    match env.detectWordPressCves r with
    | (r1, some err) => (r1, some ("Failed to detect WordPress CVE: " ++ err))
    | (r1, none) => (r1, none)

/-- The function `FillCveInfo`. Its last step `fillCweDict` writes `r.CweDict`
only, a field that `models.ScanResult` leaves out here. -/
def FillCveInfo (env : detectEnv) (r : models.ScanResult) :
    models.ScanResult × Option String :=
  match env.FillCVEsWithRedHat r with
  | (r1, some err) => (r1, some ("Failed to fill with gost: " ++ err))
  | (r1, none) =>
    match fillCvesWithNvdJvn env.cve r1 with
    | (r2, some err) => (r2, some ("Failed to fill with CVE: " ++ err))
    | (r2, none) =>
      match env.FillWithExploit r2 with
      | (r3, some err) => (r3, some ("Failed to fill with exploit: " ++ err))
      | (r3, none) =>
        match env.FillWithMetasploit r3 with
        | (r4, some err) => (r4, some ("Failed to fill with metasploit: " ++ err))
        | (r4, none) => (r4, none)

/-- The CPE names and the path of the dependency report that `Detect` takes from
the configuration for a scan result. -/
def cpeSettings (env : detectEnv) (r : models.ScanResult) : List String × String :=
  if r.Container.ContainerID.length = 0 then
    ((serverOf env.Conf r.ServerName).CpeNames, (serverOf env.Conf r.ServerName).OwaspDCXMLPath)
  else
    match goMapGet env.Conf.Servers r.ServerName with
    | some s =>
      match goMapGet s.Containers r.Container.Name with
      | some con => (con.Cpes, con.OwaspDCXMLPath)
      | none => ([], "")
    | none => ([], "")

/-- A step of `Detect` that works on the scan result in place: the scan result
after it, or its error behind the text that `Detect` puts before it. -/
def step (wrap : String) (out : models.ScanResult × Option String) :
    Except String models.ScanResult :=
  match out.2 with
  | some err => .error (wrap ++ err)
  | none => .ok out.1

/-- The body of the first loop of `Detect` for a scan result that is to be
refreshed: the scan result that the loop stores in `rs[i]`, or the error with
which `Detect` returns. -/
def detectResult (env : detectEnv) (r0 : models.ScanResult) :
    Except String models.ScanResult :=
  let r := if !env.pkg.reuseScannedCves r0 then { r0 with ScannedCves := [] } else r0
  let owaspDCXMLPath := (cpeSettings env r).2
  let parsed : Except String (List String) :=
    if owaspDCXMLPath ≠ "" then
      match env.Parse owaspDCXMLPath with
      | .error err => .error ("Failed to read OWASP Dependency Check XML: " ++ err)
      | .ok cpes => .ok ((cpeSettings env r).1 ++ cpes)
    else .ok (cpeSettings env r).1
  match parsed with
  | .error err => .error err
  | .ok cpeURIs =>
    match step "Failed to fill with Library dependency: " (env.DetectLibsCves r) with
    | .error err => .error err
    | .ok r1 =>
      match step "Failed to detect Pkg CVE: "
          ((DetectPkgCves env.pkg r1).r, (DetectPkgCves env.pkg r1).err) with
      | .error err => .error err
      | .ok r2 =>
        match step "Failed to detect CVE of CPE names: "
            (DetectCpeURIsCves env.cveDriverIsNil env.CveDictIsFetchViaHTTP
              env.FetchCveDetailsByCpeName r2 cpeURIs) with
        | .error err => .error err
        | .ok r3 =>
          match step "Failed to detect GitHub Cves: "
              (DetectGitHubCves env r3 (serverOf env.Conf r3.ServerName).GitHubRepos
                env.Conf.IgnoreGitHubDismissed) with
          | .error err => .error err
          | .ok r4 =>
            match step "Failed to detect WordPress Cves: " (DetectWordPressCves env r4) with
            | .error err => .error err
            | .ok r5 =>
              match step "" (FillCveInfo env r5) with
              | .error err => .error err
              | .ok r6 =>
                .ok { r6 with
                  ReportedBy := env.Hostname
                  Lang := env.Conf.Lang
                  ReportedAt := env.Now
                  ReportedVersion := env.Version
                  ReportedRevision := env.Revision }

/-- The first loop of `Detect`: the slice `rs` after it, or the error with which
`Detect` returns. -/
def detectLoop (env : detectEnv) : List models.ScanResult →
    Except String (List models.ScanResult)
  | [] => .ok []
  | r :: rs =>
    if !env.Conf.RefreshCve && !env.needToRefreshCve r then
      match detectLoop env rs with
      | .error err => .error err
      | .ok out => .ok (r :: out)
    else
      match detectResult env r with
      | .error err => .error err
      | .ok r1 =>
        match detectLoop env rs with
        | .error err => .error err
        | .ok out => .ok (r1 :: out)

/-- The second loop of `Detect`, which writes the JSON files. -/
def overwriteLoop (env : detectEnv) : List models.ScanResult → Option String
  | [] => none
  | r :: rs =>
    match env.OverwriteJSONFile
        (match goMapGet env.Conf.Servers r.ServerName with
          | some s => env.ClearFields r s.IgnoredJSONKeys
          | none => r) with
    | some err => some ("Failed to write JSON: " ++ err)
    | none => overwriteLoop env rs

/-- The body of the last loop of `Detect`: the filters. -/
def filterResult (env : detectEnv) (r : models.ScanResult) : models.ScanResult :=
  let ignoreCves : List String :=
    if r.Container.Name = "" then (serverOf env.Conf r.ServerName).IgnoreCves
    else
      match goMapGet (serverOf env.Conf r.ServerName).Containers r.Container.Name with
      | some con => con.IgnoreCves
      | none => []
  let ignorePkgsRegexps : List String :=
    if r.Container.Name = "" then (serverOf env.Conf r.ServerName).IgnorePkgsRegexp
    else
      match goMapGet (serverOf env.Conf r.ServerName).Containers r.Container.Name with
      | some con => con.IgnorePkgsRegexp
      | none => []
  let cves := env.FilterIgnorePkgs
    (env.FilterIgnoreCves (env.FilterUnfixed (env.FilterByCvssOver r.ScannedCves)) ignoreCves)
    ignorePkgsRegexps
  env.FilterInactiveWordPressLibs
    { r with ScannedCves := if env.Conf.IgnoreUnscoredCves then env.FindScoredVulns cves else cves }

/-- The function `Detect`: the scan results that it returns, or its error, in
which case it returns no scan result. -/
def Detect (env : detectEnv) (rs : List models.ScanResult) :
    Except String (List models.ScanResult) :=
  match detectLoop env rs with
  | .error err => .error err
  | .ok rs1 =>
    match overwriteLoop env rs1 with
    | some err => .error err
    | none =>
      if env.Conf.DiffPlus || env.Conf.DiffMinus then
        match env.loadPrevious rs1 with
        | .error err => .error err
        | .ok prevs =>
          .ok ((env.diff rs1 prevs env.Conf.DiffPlus env.Conf.DiffMinus).map (filterResult env))
      else .ok (rs1.map (filterResult env))

/-! ### A sample of the collaborators of the detector -/

/-- A client of package `oval` that finds its data fetched and detects
nothing. -/
def sampleOvalClient : ovalClient where
  CheckIfOvalFetched := fun _ _ => .ok true
  CheckIfOvalFresh := fun _ _ => .ok true
  FillWithOval := fun r => (r, none)

/-- A sample of the collaborators of `DetectPkgCves`: the OVAL data are fetched
over HTTP, gost detects nothing, no scan result is reused as it is, and a listen
port is parsed at its last colon. -/
def samplePkgEnv : pkgEnv where
  oval :=
    { NewDebian := sampleOvalClient, NewUbuntu := sampleOvalClient,
      NewRedhat := sampleOvalClient, NewCentOS := sampleOvalClient,
      NewOracle := sampleOvalClient, NewSUSE := sampleOvalClient,
      NewAlpine := sampleOvalClient, NewAmazon := sampleOvalClient,
      IsFetchViaHTTP := true, driverIsNil := true, NewOvalDB := fun _ => none }
  DetectUnfixed := fun r => (r, none)
  reuseScannedCves := fun _ => false
  NewPortStat := fun ipPort =>
    if ipPort.data.contains ':' then .ok { BindAddress := ipPort, Port := ipPort }
    else .error "Failed to parse ip:port"

/-- A sample of the collaborators of `fillCvesWithNvdJvn`: every identifier asked
for is answered with a detail without records, and the converters give a
content of type `nvd` when there is an NVD record and of type `jvn` when there
is a JVN record. -/
def sampleCveEnv : cveEnv where
  FetchCveDetails := fun ids => .ok (ids.map (fun id => { CveID := id }))
  ConvertNvdJSONToModel := fun id nvd =>
    match nvd with
    | some n => (some { Type_ := "nvd", CveID := id, Summary := n.Summary }, [], [])
    | none => (none, [], [])
  ConvertJvnToModel := fun id jvn =>
    match jvn with
    | some j => some { Type_ := "jvn", CveID := id, Summary := j.Summary }
    | none => none
  Empty := fun c => decide (c.Summary = "")

/-- A sample of the collaborators of `Detect`: every scan result is refreshed,
the library detection fails on the server `web02` and succeeds elsewhere, and
every other step succeeds without changing the scan result. -/
def sampleDetectEnv : detectEnv where
  Conf := { RefreshCve := true }
  Version := "v0.15.9"
  Revision := "build-1"
  Now := 1620000000
  Hostname := "reporter"
  needToRefreshCve := fun _ => true
  Parse := fun _ => .ok []
  DetectLibsCves := fun r =>
    if r.ServerName = "web02" then (r, some "trivy DB is not found") else (r, none)
  pkg := samplePkgEnv
  cveDriverIsNil := false
  CveDictIsFetchViaHTTP := false
  FetchCveDetailsByCpeName := fun _ => .ok []
  DetectGitHubSecurityAlerts := fun r _ _ _ _ => (r, none)
  detectWordPressCves := fun r => (r, none)
  FillCVEsWithRedHat := fun r => (r, none)
  cve := sampleCveEnv
  FillWithExploit := fun r => (r, none)
  FillWithMetasploit := fun r => (r, none)
  ClearFields := fun r _ => r
  OverwriteJSONFile := fun _ => none
  loadPrevious := fun _ => .ok []
  diff := fun rs _ _ _ => rs
  FilterByCvssOver := fun v => v
  FilterUnfixed := fun v => v
  FilterIgnoreCves := fun v _ => v
  FilterIgnorePkgs := fun v _ => v
  FindScoredVulns := fun v => v
  FilterInactiveWordPressLibs := fun r => r

/-! ### The relations between a `VulnInfo` before and after a step -/

/-- The keys of `CveContents` at which `enrich` can write for the detail `d`:
the types of the contents that the two converters give. -/
def contentTypes (env : cveEnv) (d : CveDetail) : List String :=
  ([(env.ConvertNvdJSONToModel d.CveID d.NvdJSON).1,
    env.ConvertJvnToModel d.CveID d.Jvn].filterMap id).map (fun c => c.Type_)

/-- What `fillCvesWithNvdJvn` can have done to a `VulnInfo` `v` when `v2` is what
it left, `ds` being the details fetched: the identifier, the confidences, the
affected packages, the advisories, the modules and the CPE names are the same;
the exploits and the mitigations are extended; the contents are the same at
every key that is not a type of a content converted from a detail of the
identifier; the alerts are the same or are those of a detail of the identifier;
and nothing changes when no detail has the identifier. -/
def enriched (env : cveEnv) (ds : List CveDetail) (v v2 : models.VulnInfo) : Prop :=
  v2.CveID = v.CveID ∧ v2.Confidences = v.Confidences ∧
  v2.AffectedPackages = v.AffectedPackages ∧ v2.DistroAdvisories = v.DistroAdvisories ∧
  v2.Metasploits = v.Metasploits ∧ v2.CpeURIs = v.CpeURIs ∧
  v.Exploits <+: v2.Exploits ∧ v.Mitigations <+: v2.Mitigations ∧
  (∀ k, (∀ d ∈ ds, d.CveID = v.CveID → k ∉ contentTypes env d) →
    goMapGet v2.CveContents k = goMapGet v.CveContents k) ∧
  (v2.AlertDict = v.AlertDict ∨
    ∃ d ∈ ds, d.CveID = v.CveID ∧ v2.AlertDict = fillCertAlerts d) ∧
  ((∀ d ∈ ds, d.CveID ≠ v.CveID) → v2 = v)

/-- What `DetectCpeURIsCves` can have done to a `VulnInfo` `v0` that was there
before the call when `v` is what it left: only the CPE names and the confidences
can differ; the CPE names are extended, no name being added that was there and
none being added twice; the confidences are the same, or `CpeNameMatch` was not
among them and is appended. -/
def grown (v0 v : models.VulnInfo) : Prop :=
  v = { v0 with CpeURIs := v.CpeURIs, Confidences := v.Confidences } ∧
  v0.CpeURIs <+: v.CpeURIs ∧
  (v.Confidences = v0.Confidences ∨
    (models.CpeNameMatch ∉ v0.Confidences ∧
      v.Confidences = v0.Confidences ++ [models.CpeNameMatch])) ∧
  ∀ n, v.CpeURIs.count n = v0.CpeURIs.count n ∨ (n ∉ v0.CpeURIs ∧ v.CpeURIs.count n = 1)

/-- What `DetectCpeURIsCves` leaves for an identifier that was not there before
the call: a `VulnInfo` with the identifier, `CpeNameMatch` as its one
confidence, CPE names without a repetition, and nothing else. -/
def fresh (id : String) (v : models.VulnInfo) : Prop :=
  v = { CveID := id, CpeURIs := v.CpeURIs, Confidences := [models.CpeNameMatch] } ∧
  v.CpeURIs ≠ [] ∧ v.CpeURIs.Nodup

/-- The map `cves` comes from the map `cves0` by steps of `DetectCpeURIsCves`:
every `VulnInfo` of `cves0` is there, grown, and every other one is fresh. -/
def cpeExtends (cves0 cves : List (String × models.VulnInfo)) : Prop :=
  ∀ id, (∀ v0, goMapGet cves0 id = some v0 → ∃ v, goMapGet cves id = some v ∧ grown v0 v) ∧
    (goMapGet cves0 id = none → ∀ v, goMapGet cves id = some v → fresh id v)

end Detector

namespace Oval

/-! ## Lemmas on the loop of `isOvalDefAffected` -/

/-- A record that fails one of the three tests is skipped. -/
theorem loop_cons_skip (deps : Deps) (p : Package) (rest : List Package) (req : request)
    (family : String) (running : Kernel) (enabledMods : List String)
    (h : passesChecks deps req family running enabledMods p = false) :
    isOvalDefAffectedLoop deps (p :: rest) req family running enabledMods =
      isOvalDefAffectedLoop deps rest req family running enabledMods := by
  rw [isOvalDefAffectedLoop]
  by_cases h1 : req.packName = p.Name
  · by_cases h2 : isModularityLabelEmptyOrSame p enabledMods = true
    · by_cases h3 : kernelMajorDiffers deps family running p = true
      · simp [h1, h2, h3]
      · simp [passesChecks, h1, h2, h3] at h
    · simp [h1, h2]
  · simp [h1]

/-- The loop reaches the first record that passes the three tests. -/
theorem loop_reaches_first (deps : Deps) (packs : List Package) (p : Package) (req : request)
    (family : String) (running : Kernel) (enabledMods : List String)
    (h : packs.find? (passesChecks deps req family running enabledMods) = some p) :
    ∃ rest, isOvalDefAffectedLoop deps packs req family running enabledMods =
      isOvalDefAffectedLoop deps (p :: rest) req family running enabledMods := by
  induction packs with
  | nil => simp at h
  | cons q qs ih =>
    by_cases hq : passesChecks deps req family running enabledMods q = true
    · rw [List.find?_cons_of_pos _ hq] at h
      cases h
      exact ⟨qs, rfl⟩
    · rw [List.find?_cons_of_neg _ hq] at h
      obtain ⟨rest, hrest⟩ := ih h
      exact ⟨rest, by rw [loop_cons_skip deps q qs req family running enabledMods (by simpa using hq), hrest]⟩

/-- The loop body at a record that passes the three tests. -/
theorem loop_cons_pass (deps : Deps) (p : Package) (rest : List Package) (req : request)
    (family : String) (running : Kernel) (enabledMods : List String)
    (h : passesChecks deps req family running enabledMods p = true) :
    isOvalDefAffectedLoop deps (p :: rest) req family running enabledMods =
      if p.NotFixedYet then (true, true, p.Version)
      else
        match lessThan deps family req.versionRelease p with
        | .error _ => (false, false, p.Version)
        | .ok less =>
          if less then
            if req.isSrcPack then (true, false, p.Version)
            else if family = RedHat ∨ family = Amazon ∨ family = SUSEEnterpriseServer ∨
                family = Debian ∨ family = Ubuntu ∨ family = Raspbian then
              (true, false, p.Version)
            else if req.newVersionRelease = "" then (true, false, p.Version)
            else
              match lessThan deps family req.newVersionRelease p with
              | .error _ => (false, false, p.Version)
              | .ok less2 => (true, less2, p.Version)
          else isOvalDefAffectedLoop deps rest req family running enabledMods := by
  simp only [passesChecks, Bool.and_eq_true, decide_eq_true_eq, Bool.not_eq_true'] at h
  obtain ⟨⟨h1, h2⟩, h3⟩ := h
  rw [isOvalDefAffectedLoop]
  simp [h1, h2, h3]

/-- When `find?` returns a record, the record satisfies the test. -/
theorem passes_of_find (deps : Deps) (packs : List Package) (p : Package) (req : request)
    (family : String) (running : Kernel) (enabledMods : List String)
    (h : packs.find? (passesChecks deps req family running enabledMods) = some p) :
    passesChecks deps req family running enabledMods p = true :=
  List.find?_some h

/-! ## Claims -/

/-- C1: for a family among Debian, Ubuntu, Raspbian, RedHat, Amazon and SUSE
Enterprise Server and a request that is not a source package, when the first
record that names the package and passes the modularity and kernel checks is not
flagged NotFixedYet and `lessThan` reports the installed version below its
version, `isOvalDefAffected` returns affected, not notFixedYet, and that
record's version as fixedIn. -/
theorem isOvalDefAffected_trusts_feed (deps : Deps) (d : Definition) (req : request)
    (family : String) (running : Kernel) (enabledMods : List String) (p : Package)
    (hfam : family = Debian ∨ family = Ubuntu ∨ family = Raspbian ∨ family = RedHat ∨
      family = Amazon ∨ family = SUSEEnterpriseServer)
    (hsrc : req.isSrcPack = false)
    (hfirst : d.AffectedPacks.find? (passesChecks deps req family running enabledMods) = some p)
    (hnfy : p.NotFixedYet = false)
    (hless : lessThan deps family req.versionRelease p = .ok true) :
    isOvalDefAffected deps d req family running enabledMods = (true, false, p.Version) := by
  obtain ⟨rest, hrest⟩ := loop_reaches_first deps _ p req family running enabledMods hfirst
  have hp := passes_of_find deps _ p req family running enabledMods hfirst
  rw [isOvalDefAffected, hrest, loop_cons_pass deps p rest req family running enabledMods hp]
  have hfam2 : family = RedHat ∨ family = Amazon ∨ family = SUSEEnterpriseServer ∨
      family = Debian ∨ family = Ubuntu ∨ family = Raspbian := by tauto
  simp [hnfy, hless, hsrc, hfam2]

/-- The scenario of C1: family debian, openssl installed at 1.1.1d-0+deb10u3, a
record of openssl at 1.1.1d-0+deb10u6. -/
theorem isOvalDefAffected_trusts_feed_witness :
    isOvalDefAffected sampleDeps
      ⟨"oval:org.debian:def:1", "openssl", [⟨"openssl", "1.1.1d-0+deb10u6", "", false, ""⟩]⟩
      ⟨"openssl", "1.1.1d-0+deb10u3", "", "amd64", [], false, ""⟩
      "debian" ⟨"4.19.0-9-amd64", "", false⟩ [] = (true, false, "1.1.1d-0+deb10u6") :=
  isOvalDefAffected_trusts_feed sampleDeps
    ⟨"oval:org.debian:def:1", "openssl", [⟨"openssl", "1.1.1d-0+deb10u6", "", false, ""⟩]⟩
    ⟨"openssl", "1.1.1d-0+deb10u3", "", "amd64", [], false, ""⟩
    "debian" ⟨"4.19.0-9-amd64", "", false⟩ [] ⟨"openssl", "1.1.1d-0+deb10u6", "", false, ""⟩
    (Or.inl rfl) rfl (by decide) rfl rfl

/-- C2: for family RedHat or CentOS, a known running kernel release and a
kernel-related package name, when every record that names the package has a
major other than that of the running release, `isOvalDefAffected` returns not
affected, whatever the installed version and the NotFixedYet flags. -/
theorem isOvalDefAffected_kernel_major (deps : Deps) (d : Definition) (req : request)
    (family : String) (running : Kernel) (enabledMods : List String)
    (hfam : family = RedHat ∨ family = CentOS)
    (hrun : running.Release ≠ "")
    (hkernel : deps.kernelRelatedPackNames req.packName = true)
    (hmajor : ∀ p ∈ d.AffectedPacks, p.Name = req.packName →
      deps.Major p.Version ≠ deps.Major running.Release) :
    isOvalDefAffected deps d req family running enabledMods = (false, false, "") := by
  rw [isOvalDefAffected]
  generalize d.AffectedPacks = packs at hmajor
  induction packs with
  | nil => rfl
  | cons q qs ih =>
    have hq : passesChecks deps req family running enabledMods q = false := by
      by_cases hn : req.packName = q.Name
      · have hm := hmajor q (List.mem_cons_self _ _) hn.symm
        have hk : deps.kernelRelatedPackNames q.Name = true := hn ▸ hkernel
        simp [passesChecks, kernelMajorDiffers, hrun, hfam, hk, hm]
      · simp [passesChecks, hn]
    rw [loop_cons_skip deps q qs req family running enabledMods hq]
    exact ih (fun p hp => hmajor p (List.mem_cons_of_mem _ hp))

/-- The scenario of C2: family centos, kernel 4.18.0-240.el8 installed, running
release 4.18.0-240.el8.x86_64, records of kernel with major 5, one of them
flagged NotFixedYet. -/
theorem isOvalDefAffected_kernel_major_witness :
    isOvalDefAffected sampleDeps
      ⟨"oval:com.redhat.rhsa:def:20221", "kernel",
        [⟨"kernel", "5.14.0-70.el9", "", true, ""⟩, ⟨"kernel", "5.14.0-162.el9", "", false, ""⟩]⟩
      ⟨"kernel", "4.18.0-240.el8", "", "x86_64", [], false, ""⟩
      "centos" ⟨"4.18.0-240.el8.x86_64", "", false⟩ [] = (false, false, "") :=
  isOvalDefAffected_kernel_major sampleDeps
    ⟨"oval:com.redhat.rhsa:def:20221", "kernel",
      [⟨"kernel", "5.14.0-70.el9", "", true, ""⟩, ⟨"kernel", "5.14.0-162.el9", "", false, ""⟩]⟩
    ⟨"kernel", "4.18.0-240.el8", "", "x86_64", [], false, ""⟩
    "centos" ⟨"4.18.0-240.el8.x86_64", "", false⟩ [] (Or.inr rfl) (by decide) (by decide)
    (by decide)

/-! ## Lemmas on `upsert` -/

theorem mapGet_mapSet_self (m : List (String × fixStat)) (k : String) (v : fixStat) :
    mapGet (mapSet m k v) k = some v := by
  induction m with
  | nil => simp [mapSet, mapGet]
  | cons a t ih =>
    obtain ⟨k0, v0⟩ := a
    by_cases h : k0 = k
    · simp [mapSet, mapGet, h]
    · simp [mapSet, mapGet, h, ih]

theorem mapSet_ne_nil (m : List (String × fixStat)) (k : String) (v : fixStat) :
    mapSet m k v ≠ [] := by
  cases m with
  | nil => simp [mapSet]
  | cons a t =>
    obtain ⟨k0, v0⟩ := a
    by_cases h : k0 = k <;> simp [mapSet, h]

/-- The search loop fails exactly when no entry carries the identifier. -/
theorem upsertLoop_eq_none_iff (es : List defPacks) (d : Definition) (p : String) (s : fixStat) :
    upsertLoop es d p s = none ↔ ∀ x ∈ es, x.defn.DefinitionID ≠ d.DefinitionID := by
  induction es with
  | nil => simp [upsertLoop]
  | cons a t ih =>
    by_cases h : a.defn.DefinitionID = d.DefinitionID
    · simp [upsertLoop, h]
    · simp [upsertLoop, h, ih]

/-- What the search loop leaves when it succeeds: as many entries, with the same
identifiers in the same order, the first entry of the identifier mapping the
package to the status, and no empty map where there was none. -/
theorem upsertLoop_some (es es2 : List defPacks) (d : Definition) (p : String) (s : fixStat)
    (h : upsertLoop es d p s = some es2) :
    es2.length = es.length ∧
    es2.map (fun x => x.defn.DefinitionID) = es.map (fun x => x.defn.DefinitionID) ∧
    (∃ x, firstEntry es2 d.DefinitionID = some x ∧ mapGet x.binpkgFixstat p = some s) ∧
    ((∀ x ∈ es, x.binpkgFixstat ≠ []) → ∀ x ∈ es2, x.binpkgFixstat ≠ []) := by
  induction es generalizing es2 with
  | nil => simp [upsertLoop] at h
  | cons a t ih =>
    by_cases ha : a.defn.DefinitionID = d.DefinitionID
    · simp only [upsertLoop, ha, if_true, Option.some.injEq] at h
      subst h
      refine ⟨by simp, by simp,
        ⟨{ a with binpkgFixstat := mapSet a.binpkgFixstat p s }, ?_,
          mapGet_mapSet_self a.binpkgFixstat p s⟩, ?_⟩
      · simp [firstEntry, ha]
      · intro hne x hx
        rcases List.mem_cons.1 hx with rfl | hx
        · exact mapSet_ne_nil _ _ _
        · exact hne x (List.mem_cons_of_mem _ hx)
    · simp only [upsertLoop, ha, if_false, Option.map_eq_some'] at h
      obtain ⟨t2, ht2, rfl⟩ := h
      obtain ⟨h1, h2, ⟨x, hx1, hx2⟩, h4⟩ := ih t2 ht2
      refine ⟨by simp [h1], by simp [h2], ⟨x, ?_, hx2⟩, ?_⟩
      · simp only [firstEntry] at hx1 ⊢
        rw [List.find?_cons_of_neg _ (by simpa using ha)]
        exact hx1
      · intro hne y hy
        rcases List.mem_cons.1 hy with rfl | hy
        · exact hne _ (List.mem_cons_self _ _)
        · exact h4 (fun z hz => hne z (List.mem_cons_of_mem _ hz)) y hy

/-- The two outcomes of `upsert`. -/
theorem upsert_cases (e : ovalResult) (d : Definition) (p : String) (s : fixStat) :
    (d.DefinitionID ≠ "" ∧ ∃ es2, upsertLoop e.entries d p s = some es2 ∧
        upsert e d p s = (true, ⟨es2⟩)) ∨
    ((d.DefinitionID = "" ∨ upsertLoop e.entries d p s = none) ∧
        upsert e d p s = (false, ⟨e.entries ++ [⟨d, [(p, s)]⟩]⟩)) := by
  by_cases hid : d.DefinitionID = ""
  · right
    exact ⟨Or.inl hid, by simp [upsert, hid]⟩
  · cases hl : upsertLoop e.entries d p s with
    | none => right; exact ⟨Or.inr rfl, by simp [upsert, hid, hl]⟩
    | some es2 => left; exact ⟨hid, es2, rfl, by simp [upsert, hid, hl]⟩

/-- The invariant of the aggregation: no two entries share a non-empty
identifier, and no entry has an empty map. -/
theorem upsert_preserves (e : ovalResult) (d : Definition) (p : String) (s : fixStat)
    (h1 : e.entries.Pairwise
      (fun a b => a.defn.DefinitionID ≠ "" → a.defn.DefinitionID ≠ b.defn.DefinitionID))
    (h2 : ∀ x ∈ e.entries, x.binpkgFixstat ≠ []) :
    (upsert e d p s).2.entries.Pairwise
      (fun a b => a.defn.DefinitionID ≠ "" → a.defn.DefinitionID ≠ b.defn.DefinitionID) ∧
    ∀ x ∈ (upsert e d p s).2.entries, x.binpkgFixstat ≠ [] := by
  have key : ∀ l : List defPacks,
      l.Pairwise (fun a b => a.defn.DefinitionID ≠ "" → a.defn.DefinitionID ≠ b.defn.DefinitionID) ↔
      (l.map (fun x => x.defn.DefinitionID)).Pairwise (fun a b => a ≠ "" → a ≠ b) := by
    intro l
    rw [List.pairwise_map]
  rcases upsert_cases e d p s with ⟨_, es2, hl, hu⟩ | ⟨hc, hu⟩
  · obtain ⟨_, hids, _, hne⟩ := upsertLoop_some _ _ d p s hl
    rw [hu]
    refine ⟨?_, hne h2⟩
    rw [key, hids, ← key]
    exact h1
  · rw [hu]
    constructor
    · rw [List.pairwise_append]
      refine ⟨h1, by simp, ?_⟩
      intro a ha b hb hane
      rw [List.mem_singleton.1 hb]
      rcases hc with hc | hc
      · simpa [hc] using hane
      · exact (upsertLoop_eq_none_iff _ d p s).1 hc a ha
    · intro x hx
      rcases List.mem_append.1 hx with hx | hx
      · exact h2 x hx
      · rw [List.mem_singleton.1 hx]; simp

/-- C4: `upsert` returns true exactly when the identifier of the definition is
non-empty and some entry already carries it; then the number of entries is
unchanged and the first entry of that identifier maps the package to the
status. In every other case it returns false and appends one entry that holds
the definition and the single pair of the package and the status. -/
theorem upsert_spec (e : ovalResult) (d : Definition) (p : String) (s : fixStat) :
    ((upsert e d p s).1 = true ↔
      (d.DefinitionID ≠ "" ∧ ∃ x ∈ e.entries, x.defn.DefinitionID = d.DefinitionID)) ∧
    ((upsert e d p s).1 = true →
      (upsert e d p s).2.entries.length = e.entries.length ∧
      ∃ x, firstEntry (upsert e d p s).2.entries d.DefinitionID = some x ∧
        mapGet x.binpkgFixstat p = some s) ∧
    ((upsert e d p s).1 = false →
      (upsert e d p s).2.entries = e.entries ++ [⟨d, [(p, s)]⟩]) := by
  rcases upsert_cases e d p s with ⟨hid, es2, hl, hu⟩ | ⟨hc, hu⟩
  · obtain ⟨hlen, _, hx, _⟩ := upsertLoop_some _ _ d p s hl
    have hex : ∃ x ∈ e.entries, x.defn.DefinitionID = d.DefinitionID := by
      by_contra hcon
      have := (upsertLoop_eq_none_iff e.entries d p s).2 (by
        intro x hx heq; exact hcon ⟨x, hx, heq⟩)
      rw [this] at hl
      cases hl
    rw [hu]
    exact ⟨⟨fun _ => ⟨hid, hex⟩, fun _ => rfl⟩, fun _ => ⟨hlen, hx⟩, fun h => (by simp at h)⟩
  · rw [hu]
    refine ⟨⟨fun h => (by simp at h), ?_⟩, fun h => (by simp at h), fun _ => rfl⟩
    rintro ⟨hid, x, hx, heq⟩
    rcases hc with hc | hc
    · exact absurd hc hid
    · exact absurd heq ((upsertLoop_eq_none_iff _ d p s).1 hc x hx)

/-- C5: from the empty result, after every finite sequence of `upsert` calls no
two entries carry the same non-empty identifier and no entry has an empty
package map. -/
theorem upsertAll_invariant (calls : List (Definition × String × fixStat)) :
    (upsertAll ⟨[]⟩ calls).entries.Pairwise
      (fun a b => a.defn.DefinitionID ≠ "" → a.defn.DefinitionID ≠ b.defn.DefinitionID) ∧
    ∀ x ∈ (upsertAll ⟨[]⟩ calls).entries, x.binpkgFixstat ≠ [] := by
  have gen : ∀ (cs : List (Definition × String × fixStat)) (e : ovalResult),
      e.entries.Pairwise
        (fun a b => a.defn.DefinitionID ≠ "" → a.defn.DefinitionID ≠ b.defn.DefinitionID) →
      (∀ x ∈ e.entries, x.binpkgFixstat ≠ []) →
      (upsertAll e cs).entries.Pairwise
        (fun a b => a.defn.DefinitionID ≠ "" → a.defn.DefinitionID ≠ b.defn.DefinitionID) ∧
      ∀ x ∈ (upsertAll e cs).entries, x.binpkgFixstat ≠ [] := by
    intro cs
    induction cs with
    | nil => intro e h1 h2; exact ⟨h1, h2⟩
    | cons c cs ih =>
      intro e h1 h2
      have hp := upsert_preserves e c.1 c.2.1 c.2.2 h1 h2
      exact ih _ hp.1 hp.2
  exact gen calls ⟨[]⟩ List.Pairwise.nil (by simp)

/-- The scenario of C4: from the empty result, two calls with one non-empty
identifier and two package names leave one entry holding both statuses, the
second call returning true; two calls with empty identifiers leave two
entries. -/
theorem upsert_spec_witness :
    (upsert (upsert ⟨[]⟩ ⟨"RHSA-2021:1585", "glibc", []⟩ "glibc" ⟨false, "2.28-155.el8", false, ""⟩).2
        ⟨"RHSA-2021:1585", "glibc", []⟩ "glibc-common" ⟨true, "", false, ""⟩).1 = true ∧
    (upsert (upsert ⟨[]⟩ ⟨"RHSA-2021:1585", "glibc", []⟩ "glibc" ⟨false, "2.28-155.el8", false, ""⟩).2
        ⟨"RHSA-2021:1585", "glibc", []⟩ "glibc-common" ⟨true, "", false, ""⟩).2 =
      ⟨[⟨⟨"RHSA-2021:1585", "glibc", []⟩,
          [("glibc", ⟨false, "2.28-155.el8", false, ""⟩),
           ("glibc-common", ⟨true, "", false, ""⟩)]⟩]⟩ ∧
    (upsert (upsert ⟨[]⟩ ⟨"", "musl", []⟩ "musl" ⟨false, "1.1.24-r3", false, ""⟩).2
        ⟨"", "musl", []⟩ "musl-utils" ⟨false, "1.1.24-r3", false, ""⟩).2.entries.length = 2 :=
  ⟨(upsert_spec
      (upsert ⟨[]⟩ ⟨"RHSA-2021:1585", "glibc", []⟩ "glibc" ⟨false, "2.28-155.el8", false, ""⟩).2
      ⟨"RHSA-2021:1585", "glibc", []⟩ "glibc-common" ⟨true, "", false, ""⟩).1.2
      ⟨by decide, ⟨⟨"RHSA-2021:1585", "glibc", []⟩,
        [("glibc", ⟨false, "2.28-155.el8", false, ""⟩)]⟩, by decide, rfl⟩,
    by decide, by decide⟩

/-! ## Lemmas on the fan-out of a source package -/

theorem mapGet_mapSet (m : List (String × fixStat)) (k n : String) (v : fixStat) :
    mapGet (mapSet m k v) n = if k = n then some v else mapGet m n := by
  induction m with
  | nil => simp [mapSet, mapGet]
  | cons a t ih =>
    obtain ⟨k0, v0⟩ := a
    by_cases h : k0 = k
    · subst h
      by_cases hn : k0 = n <;> simp [mapSet, mapGet, hn]
    · by_cases hn : k0 = n
      · subst hn
        have h2 : ¬ k = k0 := fun hk => h hk.symm
        simp [mapSet, mapGet, h, h2]
      · simp [mapSet, mapGet, h, hn, ih]

/-- A status that a map holds for a name is still there after the same status
is assigned to any name. -/
theorem mapGet_mapSet_keep (m : List (String × fixStat)) (k n : String) (v : fixStat)
    (h : mapGet m n = some v) : mapGet (mapSet m k v) n = some v := by
  rw [mapGet_mapSet]
  split
  · rfl
  · exact h

/-- The search loop of `upsert` changes the first entry of the identifier, by
the assignment into its map. -/
theorem upsertLoop_first (es es2 : List defPacks) (d : Definition) (p : String) (s : fixStat)
    (h : upsertLoop es d p s = some es2) :
    ∃ x, firstEntry es d.DefinitionID = some x ∧
      firstEntry es2 d.DefinitionID =
        some { x with binpkgFixstat := mapSet x.binpkgFixstat p s } := by
  induction es generalizing es2 with
  | nil => simp [upsertLoop] at h
  | cons a t ih =>
    by_cases ha : a.defn.DefinitionID = d.DefinitionID
    · simp only [upsertLoop, ha, if_true, Option.some.injEq] at h
      subst h
      exact ⟨a, by simp [firstEntry, ha], by simp [firstEntry, ha]⟩
    · simp only [upsertLoop, ha, if_false, Option.map_eq_some'] at h
      obtain ⟨t2, ht2, rfl⟩ := h
      obtain ⟨x, hx1, hx2⟩ := ih t2 ht2
      refine ⟨x, ?_, ?_⟩
      · simp only [firstEntry] at hx1 ⊢
        rw [List.find?_cons_of_neg _ (by simpa using ha)]
        exact hx1
      · simp only [firstEntry] at hx2 ⊢
        rw [List.find?_cons_of_neg _ (by simpa using ha)]
        exact hx2

/-- Every entry is still there after the search loop of `upsert`, unchanged or
with the assignment made into its map. -/
theorem upsertLoop_mem (es es2 : List defPacks) (d : Definition) (p : String) (s : fixStat)
    (h : upsertLoop es d p s = some es2) (x : defPacks) (hx : x ∈ es) :
    x ∈ es2 ∨ ({ x with binpkgFixstat := mapSet x.binpkgFixstat p s } : defPacks) ∈ es2 := by
  induction es generalizing es2 with
  | nil => simp [upsertLoop] at h
  | cons a t ih =>
    by_cases ha : a.defn.DefinitionID = d.DefinitionID
    · simp only [upsertLoop, ha, if_true, Option.some.injEq] at h
      subst h
      rcases List.mem_cons.1 hx with rfl | hx
      · right; exact List.mem_cons_self _ _
      · left; exact List.mem_cons_of_mem _ hx
    · simp only [upsertLoop, ha, if_false, Option.map_eq_some'] at h
      obtain ⟨t2, ht2, rfl⟩ := h
      rcases List.mem_cons.1 hx with rfl | hx
      · left; exact List.mem_cons_self _ _
      · rcases ih t2 ht2 hx with h1 | h1
        · left; exact List.mem_cons_of_mem _ h1
        · right; exact List.mem_cons_of_mem _ h1

/-- After `upsert`, some entry of the identifier holds the status for the
package. -/
theorem upsert_holds (e : ovalResult) (d : Definition) (p : String) (s : fixStat) :
    ∃ x ∈ (upsert e d p s).2.entries,
      x.defn.DefinitionID = d.DefinitionID ∧ mapGet x.binpkgFixstat p = some s := by
  rcases upsert_cases e d p s with ⟨_, es2, hl, hu⟩ | ⟨_, hu⟩
  · obtain ⟨_, _, ⟨x, hx1, hx2⟩, _⟩ := upsertLoop_some _ _ d p s hl
    rw [hu]
    refine ⟨x, List.mem_of_find?_eq_some hx1, ?_, hx2⟩
    simpa using List.find?_some hx1
  · rw [hu]
    exact ⟨⟨d, [(p, s)]⟩, by simp, rfl, by simp [mapGet]⟩

/-- An entry of the identifier that holds the status for a name still does
after `upsert` of the same definition and status for any name. -/
theorem upsert_keeps (e : ovalResult) (d : Definition) (p n : String) (s : fixStat)
    (h : ∃ x ∈ e.entries, x.defn.DefinitionID = d.DefinitionID ∧
      mapGet x.binpkgFixstat n = some s) :
    ∃ x ∈ (upsert e d p s).2.entries,
      x.defn.DefinitionID = d.DefinitionID ∧ mapGet x.binpkgFixstat n = some s := by
  obtain ⟨x, hx, hid, hget⟩ := h
  rcases upsert_cases e d p s with ⟨_, es2, hl, hu⟩ | ⟨_, hu⟩
  · rw [hu]
    rcases upsertLoop_mem _ _ d p s hl x hx with h1 | h1
    · exact ⟨x, h1, hid, hget⟩
    · exact ⟨_, h1, hid, mapGet_mapSet_keep _ _ _ _ hget⟩
  · rw [hu]
    exact ⟨x, by simp [hx], hid, hget⟩

/-- After `upsert` of a definition with a non-empty identifier, the first entry
of the identifier holds the status for the package. -/
theorem upsert_first_holds (e : ovalResult) (d : Definition) (p : String) (s : fixStat)
    (hid : d.DefinitionID ≠ "") :
    ∃ x, firstEntry (upsert e d p s).2.entries d.DefinitionID = some x ∧
      mapGet x.binpkgFixstat p = some s := by
  rcases upsert_cases e d p s with ⟨_, es2, hl, hu⟩ | ⟨hc, hu⟩
  · obtain ⟨_, _, hx, _⟩ := upsertLoop_some _ _ d p s hl
    rw [hu]
    exact hx
  · rw [hu]
    rcases hc with hc | hc
    · exact absurd hc hid
    · refine ⟨⟨d, [(p, s)]⟩, ?_, by simp [mapGet]⟩
      have hnone : e.entries.find? (fun entry => decide (entry.defn.DefinitionID = d.DefinitionID))
          = none := by
        rw [List.find?_eq_none]
        intro x hx
        simpa using (upsertLoop_eq_none_iff _ d p s).1 hc x hx
      simp [firstEntry, List.find?_append, hnone]

/-- The first entry of the identifier, once it holds the status for a name,
still does after `upsert` of the same definition and status for any name. -/
theorem upsert_first_keeps (e : ovalResult) (d : Definition) (p n : String) (s : fixStat)
    (h : ∃ x, firstEntry e.entries d.DefinitionID = some x ∧
      mapGet x.binpkgFixstat n = some s) :
    ∃ x, firstEntry (upsert e d p s).2.entries d.DefinitionID = some x ∧
      mapGet x.binpkgFixstat n = some s := by
  obtain ⟨x, hx, hget⟩ := h
  rcases upsert_cases e d p s with ⟨_, es2, hl, hu⟩ | ⟨hc, hu⟩
  · obtain ⟨y, hy1, hy2⟩ := upsertLoop_first _ _ d p s hl
    rw [hu]
    rw [hx] at hy1
    cases hy1
    exact ⟨_, hy2, mapGet_mapSet_keep _ _ _ _ hget⟩
  · rw [hu]
    refine ⟨x, ?_, hget⟩
    simp only [firstEntry] at hx ⊢
    rw [List.find?_append, hx]
    rfl

/-- The fan-out loop over the binary names of a source package: every name ends
with an entry of the identifier that holds the status for it, and when the
identifier is non-empty that entry is the first one carrying it. -/
theorem fanOut_holds (d : Definition) (s : fixStat) (names : List String) (e : ovalResult)
    (n : String) (hn : n ∈ names) :
    (∃ x ∈ (names.foldl (fun r k => (upsert r d k s).2) e).entries,
      x.defn.DefinitionID = d.DefinitionID ∧ mapGet x.binpkgFixstat n = some s) ∧
    (d.DefinitionID ≠ "" →
      ∃ x, firstEntry (names.foldl (fun r k => (upsert r d k s).2) e).entries d.DefinitionID
          = some x ∧ mapGet x.binpkgFixstat n = some s) := by
  have keep : ∀ (ks : List String) (r : ovalResult),
      ((∃ x ∈ r.entries, x.defn.DefinitionID = d.DefinitionID ∧
          mapGet x.binpkgFixstat n = some s) →
        ∃ x ∈ (ks.foldl (fun r k => (upsert r d k s).2) r).entries,
          x.defn.DefinitionID = d.DefinitionID ∧ mapGet x.binpkgFixstat n = some s) ∧
      (d.DefinitionID ≠ "" →
        (∃ x, firstEntry r.entries d.DefinitionID = some x ∧
          mapGet x.binpkgFixstat n = some s) →
        ∃ x, firstEntry (ks.foldl (fun r k => (upsert r d k s).2) r).entries d.DefinitionID
            = some x ∧ mapGet x.binpkgFixstat n = some s) := by
    intro ks
    induction ks with
    | nil => intro r; exact ⟨fun h => h, fun _ h => h⟩
    | cons k ks ih =>
      intro r
      refine ⟨fun h => ?_, fun hid h => ?_⟩
      · exact (ih _).1 (upsert_keeps r d k n s h)
      · exact (ih _).2 hid (upsert_first_keeps r d k n s h)
  induction names generalizing e with
  | nil => cases hn
  | cons k ks ih =>
    rcases List.mem_cons.1 hn with rfl | hmem
    · exact ⟨(keep ks _).1 (upsert_holds e d n s),
        fun hid => (keep ks _).2 hid (upsert_first_holds e d n s hid)⟩
    · exact ih _ hmem

/-- The two loop bodies on a source-package request that the definition
affects are the fan-out loop over the binary names. -/
theorem steps_of_affected_source (deps : Deps) (family : String) (running : Kernel)
    (enabledMods : List String) (req : request) (acc : ovalResult) (d : Definition)
    (nfy : Bool) (f : String) (hsrc : req.isSrcPack = true)
    (haff : isOvalDefAffected deps d req family running enabledMods = (true, nfy, f)) :
    viaHTTPStep deps family running enabledMods req acc d =
      req.binaryPackNames.foldl
        (fun r k => (upsert r d k ⟨nfy, f, true, req.packName⟩).2) acc ∧
    fromOvalDBStep deps family running enabledMods req acc d =
      req.binaryPackNames.foldl
        (fun r k => (upsert r d k ⟨false, f, true, req.packName⟩).2) acc := by
  simp [viaHTTPStep, fromOvalDBStep, haff, hsrc]

/-- C3, as the code has it: for a source-package request and a definition on
which `isOvalDefAffected` reports affected, after the loop body of either
strategy every binary name of the request has an entry carrying the identifier
of the definition that holds for it a status with isSrcPack set, the name of
the source package and the returned version (notFixedYet as returned in the
HTTP strategy, false in the local-database strategy); when the identifier is
non-empty that entry is one and the same for all names, the first entry
carrying the identifier. -/
theorem source_fanOut_statuses (deps : Deps) (family : String) (running : Kernel)
    (enabledMods : List String) (req : request) (acc : ovalResult) (d : Definition)
    (nfy : Bool) (f : String) (n : String) (hsrc : req.isSrcPack = true)
    (haff : isOvalDefAffected deps d req family running enabledMods = (true, nfy, f))
    (hn : n ∈ req.binaryPackNames) :
    ((∃ x ∈ (viaHTTPStep deps family running enabledMods req acc d).entries,
        x.defn.DefinitionID = d.DefinitionID ∧
        mapGet x.binpkgFixstat n = some ⟨nfy, f, true, req.packName⟩) ∧
     (∃ x ∈ (fromOvalDBStep deps family running enabledMods req acc d).entries,
        x.defn.DefinitionID = d.DefinitionID ∧
        mapGet x.binpkgFixstat n = some ⟨false, f, true, req.packName⟩)) ∧
    (d.DefinitionID ≠ "" →
      (∃ x, firstEntry (viaHTTPStep deps family running enabledMods req acc d).entries
          d.DefinitionID = some x ∧
        mapGet x.binpkgFixstat n = some ⟨nfy, f, true, req.packName⟩) ∧
      (∃ x, firstEntry (fromOvalDBStep deps family running enabledMods req acc d).entries
          d.DefinitionID = some x ∧
        mapGet x.binpkgFixstat n = some ⟨false, f, true, req.packName⟩)) := by
  obtain ⟨h1, h2⟩ :=
    steps_of_affected_source deps family running enabledMods req acc d nfy f hsrc haff
  rw [h1, h2]
  have a := fanOut_holds d ⟨nfy, f, true, req.packName⟩ req.binaryPackNames acc n hn
  have b := fanOut_holds d ⟨false, f, true, req.packName⟩ req.binaryPackNames acc n hn
  exact ⟨⟨a.1, b.1⟩, fun hid => ⟨a.2 hid, b.2 hid⟩⟩

/-- The scenario of C3: source package glibc 2.28-151.el8 with the binaries glibc
and glibc-common, an advisory fixed in 2.28-155.el8; the status of
glibc-common. -/
theorem source_fanOut_statuses_witness :
    ((∃ x ∈ (viaHTTPStep sampleDeps "redhat" ⟨"4.18.0-240.el8.x86_64", "", false⟩ []
          ⟨"glibc", "2.28-151.el8", "", "", ["glibc", "glibc-common"], true, ""⟩ ⟨[]⟩
          ⟨"RHSA-2021:1585", "glibc", [⟨"glibc", "2.28-155.el8", "", false, ""⟩]⟩).entries,
        x.defn.DefinitionID = "RHSA-2021:1585" ∧
        mapGet x.binpkgFixstat "glibc-common" = some ⟨false, "2.28-155.el8", true, "glibc"⟩) ∧
     (∃ x ∈ (fromOvalDBStep sampleDeps "redhat" ⟨"4.18.0-240.el8.x86_64", "", false⟩ []
          ⟨"glibc", "2.28-151.el8", "", "", ["glibc", "glibc-common"], true, ""⟩ ⟨[]⟩
          ⟨"RHSA-2021:1585", "glibc", [⟨"glibc", "2.28-155.el8", "", false, ""⟩]⟩).entries,
        x.defn.DefinitionID = "RHSA-2021:1585" ∧
        mapGet x.binpkgFixstat "glibc-common" = some ⟨false, "2.28-155.el8", true, "glibc"⟩)) ∧
    ("RHSA-2021:1585" ≠ "" →
      (∃ x, firstEntry (viaHTTPStep sampleDeps "redhat" ⟨"4.18.0-240.el8.x86_64", "", false⟩ []
          ⟨"glibc", "2.28-151.el8", "", "", ["glibc", "glibc-common"], true, ""⟩ ⟨[]⟩
          ⟨"RHSA-2021:1585", "glibc", [⟨"glibc", "2.28-155.el8", "", false, ""⟩]⟩).entries
          "RHSA-2021:1585" = some x ∧
        mapGet x.binpkgFixstat "glibc-common" = some ⟨false, "2.28-155.el8", true, "glibc"⟩) ∧
      (∃ x, firstEntry (fromOvalDBStep sampleDeps "redhat" ⟨"4.18.0-240.el8.x86_64", "", false⟩ []
          ⟨"glibc", "2.28-151.el8", "", "", ["glibc", "glibc-common"], true, ""⟩ ⟨[]⟩
          ⟨"RHSA-2021:1585", "glibc", [⟨"glibc", "2.28-155.el8", "", false, ""⟩]⟩).entries
          "RHSA-2021:1585" = some x ∧
        mapGet x.binpkgFixstat "glibc-common" = some ⟨false, "2.28-155.el8", true, "glibc"⟩)) :=
  source_fanOut_statuses sampleDeps "redhat" ⟨"4.18.0-240.el8.x86_64", "", false⟩ []
    ⟨"glibc", "2.28-151.el8", "", "", ["glibc", "glibc-common"], true, ""⟩ ⟨[]⟩
    ⟨"RHSA-2021:1585", "glibc", [⟨"glibc", "2.28-155.el8", "", false, ""⟩]⟩
    false "2.28-155.el8" "glibc-common" rfl (by decide) (by decide)

/-- C3 fails as stated on a definition with an empty identifier: the source
package glibc 2.28-151.el8 with the binaries glibc and glibc-common is affected
by the advisory fixed in 2.28-155.el8, and after the loop body of either
strategy there are two entries, one per binary name, none of which holds a
status for both names. -/
theorem source_fanOut_empty_identifier :
    isOvalDefAffected sampleDeps ⟨"", "glibc", [⟨"glibc", "2.28-155.el8", "", false, ""⟩]⟩
      ⟨"glibc", "2.28-151.el8", "", "", ["glibc", "glibc-common"], true, ""⟩
      "redhat" ⟨"4.18.0-240.el8.x86_64", "", false⟩ [] = (true, false, "2.28-155.el8") ∧
    (viaHTTPStep sampleDeps "redhat" ⟨"4.18.0-240.el8.x86_64", "", false⟩ []
      ⟨"glibc", "2.28-151.el8", "", "", ["glibc", "glibc-common"], true, ""⟩ ⟨[]⟩
      ⟨"", "glibc", [⟨"glibc", "2.28-155.el8", "", false, ""⟩]⟩).entries =
      [⟨⟨"", "glibc", [⟨"glibc", "2.28-155.el8", "", false, ""⟩]⟩,
          [("glibc", ⟨false, "2.28-155.el8", true, "glibc"⟩)]⟩,
       ⟨⟨"", "glibc", [⟨"glibc", "2.28-155.el8", "", false, ""⟩]⟩,
          [("glibc-common", ⟨false, "2.28-155.el8", true, "glibc"⟩)]⟩] ∧
    (¬ ∃ x ∈ (viaHTTPStep sampleDeps "redhat" ⟨"4.18.0-240.el8.x86_64", "", false⟩ []
        ⟨"glibc", "2.28-151.el8", "", "", ["glibc", "glibc-common"], true, ""⟩ ⟨[]⟩
        ⟨"", "glibc", [⟨"glibc", "2.28-155.el8", "", false, ""⟩]⟩).entries,
      ∀ n ∈ ["glibc", "glibc-common"], (mapGet x.binpkgFixstat n).isSome = true) ∧
    (¬ ∃ x ∈ (fromOvalDBStep sampleDeps "redhat" ⟨"4.18.0-240.el8.x86_64", "", false⟩ []
        ⟨"glibc", "2.28-151.el8", "", "", ["glibc", "glibc-common"], true, ""⟩ ⟨[]⟩
        ⟨"", "glibc", [⟨"glibc", "2.28-155.el8", "", false, ""⟩]⟩).entries,
      ∀ n ∈ ["glibc", "glibc-common"], (mapGet x.binpkgFixstat n).isSome = true) := by
  refine ⟨by decide, by decide, by decide, by decide⟩

/-- C6, as the code has it: for family CentOS, a request that is not a source
package and has an empty newVersionRelease, when the first record that names the
package and passes the checks is not flagged NotFixedYet and `lessThan` reports
the installed version below its version, `isOvalDefAffected` returns affected
with notFixedYet false and that record's version as fixedIn. -/
theorem isOvalDefAffected_centos_no_candidate (deps : Deps) (d : Definition) (req : request)
    (running : Kernel) (enabledMods : List String) (p : Package)
    (hsrc : req.isSrcPack = false)
    (hnew : req.newVersionRelease = "")
    (hfirst : d.AffectedPacks.find? (passesChecks deps req CentOS running enabledMods) = some p)
    (hnfy : p.NotFixedYet = false)
    (hless : lessThan deps CentOS req.versionRelease p = .ok true) :
    isOvalDefAffected deps d req CentOS running enabledMods = (true, false, p.Version) := by
  obtain ⟨rest, hrest⟩ := loop_reaches_first deps _ p req CentOS running enabledMods hfirst
  have hp := passes_of_find deps _ p req CentOS running enabledMods hfirst
  rw [isOvalDefAffected, hrest, loop_cons_pass deps p rest req CentOS running enabledMods hp]
  simp [hnfy, hless, hsrc, hnew]

/-- A CentOS host with openssl 1.2-3.el8 and no candidate version, against a
record of openssl at 1.2-4.el8. -/
theorem isOvalDefAffected_centos_no_candidate_witness :
    isOvalDefAffected sampleDeps
      ⟨"RHSA-2021:0001", "openssl", [⟨"openssl", "1.2-4.el8", "", false, ""⟩]⟩
      ⟨"openssl", "1.2-3.el8", "", "x86_64", [], false, ""⟩
      CentOS ⟨"4.18.0-240.el8.x86_64", "", false⟩ [] = (true, false, "1.2-4.el8") :=
  isOvalDefAffected_centos_no_candidate sampleDeps
    ⟨"RHSA-2021:0001", "openssl", [⟨"openssl", "1.2-4.el8", "", false, ""⟩]⟩
    ⟨"openssl", "1.2-3.el8", "", "x86_64", [], false, ""⟩
    ⟨"4.18.0-240.el8.x86_64", "", false⟩ [] ⟨"openssl", "1.2-4.el8", "", false, ""⟩
    rfl rfl (by decide) rfl rfl

/-- C6 fails as stated: on family centos, openssl installed at 1.2-3.el8 with an
empty newVersionRelease and a record of openssl at 1.2-4.el8 that is not
flagged, the comparison reports the installed version below the record, and
`isOvalDefAffected` returns notFixedYet false, not true. -/
theorem isOvalDefAffected_centos_no_candidate_not_unfixed :
    lessThan sampleDeps "centos" "1.2-3.el8" ⟨"openssl", "1.2-4.el8", "", false, ""⟩
      = .ok true ∧
    isOvalDefAffected sampleDeps
      ⟨"RHSA-2021:0001", "openssl", [⟨"openssl", "1.2-4.el8", "", false, ""⟩]⟩
      ⟨"openssl", "1.2-3.el8", "", "x86_64", [], false, ""⟩
      "centos" ⟨"4.18.0-240.el8.x86_64", "", false⟩ [] = (true, false, "1.2-4.el8") ∧
    isOvalDefAffected sampleDeps
      ⟨"RHSA-2021:0001", "openssl", [⟨"openssl", "1.2-4.el8", "", false, ""⟩]⟩
      ⟨"openssl", "1.2-3.el8", "", "x86_64", [], false, ""⟩
      "centos" ⟨"4.18.0-240.el8.x86_64", "", false⟩ [] ≠ (true, true, "1.2-4.el8") := by
  refine ⟨rfl, by decide, by decide⟩

/-! ## Lemmas for the claims on notFixedYet, modularity and comparison errors -/

/-- The sample ordering never puts a key below itself. -/
theorem sampleKeyLess_irrefl (k : List Nat) : sampleKeyLess k k = false := by
  induction k with
  | nil => rfl
  | cons a t ih => simp [sampleKeyLess, ih]

/-- With orderings that never put a version below itself, `lessThan` does not
report a version below a record that carries it. -/
theorem lessThan_self (deps : Deps)
    (hdeb : ∀ x, deps.debLessThan x x = false)
    (hapk : ∀ x, deps.apkLessThan x x = false)
    (hrpm : ∀ x, deps.rpmLessThan x x = false)
    (family : String) (p : Package) :
    lessThan deps family p.Version p ≠ .ok true := by
  unfold lessThan
  split
  · cases deps.debNewVersion p.Version with
    | error e => simp
    | ok x => simp [hdeb]
  · split
    · cases deps.apkNewVersion p.Version with
      | error e => simp
      | ok x => simp [hapk]
    · split
      · simp [hrpm]
      · split
        · simp [hrpm]
        · simp

/-- The loop body depends on the records that follow only through the result of
the loop on them. -/
theorem loop_cons_congr (deps : Deps) (p : Package) (rest1 rest2 : List Package)
    (req : request) (family : String) (running : Kernel) (enabledMods : List String)
    (h : isOvalDefAffectedLoop deps rest1 req family running enabledMods =
      isOvalDefAffectedLoop deps rest2 req family running enabledMods) :
    isOvalDefAffectedLoop deps (p :: rest1) req family running enabledMods =
      isOvalDefAffectedLoop deps (p :: rest2) req family running enabledMods := by
  rw [isOvalDefAffectedLoop, isOvalDefAffectedLoop, h]

/-- The loop reads the enabled modules only through the flag
`isModularityLabelEmptyOrSame` of the records. -/
theorem loop_congr_mods (deps : Deps) (packs : List Package) (req : request)
    (family : String) (running : Kernel) (mods1 mods2 : List String)
    (h : ∀ p ∈ packs, isModularityLabelEmptyOrSame p mods1 =
      isModularityLabelEmptyOrSame p mods2) :
    isOvalDefAffectedLoop deps packs req family running mods1 =
      isOvalDefAffectedLoop deps packs req family running mods2 := by
  induction packs with
  | nil => rfl
  | cons q qs ih =>
    have hq := h q (List.mem_cons_self _ _)
    have hrest := ih (fun p hp => h p (List.mem_cons_of_mem _ hp))
    rw [isOvalDefAffectedLoop, isOvalDefAffectedLoop, hq, hrest]

/-- C7, as the code has it: with version orderings that never put a version
below itself, and a definition in which no record that names the package and
passes the modularity and kernel checks is flagged NotFixedYet while carrying
the installed version, `isOvalDefAffected` never returns notFixedYet true
together with a fixedIn equal to the installed version. -/
theorem isOvalDefAffected_unfixed_not_installed (deps : Deps) (d : Definition)
    (req : request) (family : String) (running : Kernel) (enabledMods : List String)
    (hdeb : ∀ x, deps.debLessThan x x = false)
    (hapk : ∀ x, deps.apkLessThan x x = false)
    (hrpm : ∀ x, deps.rpmLessThan x x = false)
    (hrec : ∀ p ∈ d.AffectedPacks,
      passesChecks deps req family running enabledMods p = true → p.NotFixedYet = true →
      p.Version ≠ req.versionRelease) :
    ¬ ((isOvalDefAffected deps d req family running enabledMods).2.1 = true ∧
       (isOvalDefAffected deps d req family running enabledMods).2.2 = req.versionRelease) := by
  rw [isOvalDefAffected]
  generalize d.AffectedPacks = packs at hrec
  induction packs with
  | nil => simp [isOvalDefAffectedLoop]
  | cons q qs ih =>
    have ih2 := ih (fun p hp => hrec p (List.mem_cons_of_mem _ hp))
    by_cases hq : passesChecks deps req family running enabledMods q = true
    · rw [loop_cons_pass deps q qs req family running enabledMods hq]
      by_cases hn : q.NotFixedYet = true
      · have := hrec q (List.mem_cons_self _ _) hq hn
        simp [hn, this]
      · cases hl : lessThan deps family req.versionRelease q with
        | error e => simp [hn]
        | ok less =>
          cases less with
          | false => simpa [hn] using ih2
          | true =>
            have hne : q.Version ≠ req.versionRelease := by
              intro hv
              rw [← hv] at hl
              exact lessThan_self deps hdeb hapk hrpm family q hl
            simp only [hn]
            cases lessThan deps family req.newVersionRelease q with
            | error e => split_ifs <;> simp [hne]
            | ok less2 => split_ifs <;> simp [hne]
    · rw [loop_cons_skip deps q qs req family running enabledMods (by simpa using hq)]
      exact ih2

/-- A CentOS host whose candidate version is below the record: notFixedYet is
returned true, with the version of the record, which is not the installed one. -/
theorem isOvalDefAffected_unfixed_not_installed_witness :
    isOvalDefAffected sampleDeps
        ⟨"RHSA-2021:0001", "openssl", [⟨"openssl", "1.2-5.el8", "", false, ""⟩]⟩
        ⟨"openssl", "1.2-3.el8", "1.2-4.el8", "x86_64", [], false, ""⟩
        "centos" ⟨"4.18.0-240.el8.x86_64", "", false⟩ [] = (true, true, "1.2-5.el8") ∧
    ¬ ((isOvalDefAffected sampleDeps
        ⟨"RHSA-2021:0001", "openssl", [⟨"openssl", "1.2-5.el8", "", false, ""⟩]⟩
        ⟨"openssl", "1.2-3.el8", "1.2-4.el8", "x86_64", [], false, ""⟩
        "centos" ⟨"4.18.0-240.el8.x86_64", "", false⟩ []).2.1 = true ∧
      (isOvalDefAffected sampleDeps
        ⟨"RHSA-2021:0001", "openssl", [⟨"openssl", "1.2-5.el8", "", false, ""⟩]⟩
        ⟨"openssl", "1.2-3.el8", "1.2-4.el8", "x86_64", [], false, ""⟩
        "centos" ⟨"4.18.0-240.el8.x86_64", "", false⟩ []).2.2 = "1.2-3.el8") :=
  ⟨by decide,
    isOvalDefAffected_unfixed_not_installed sampleDeps
      ⟨"RHSA-2021:0001", "openssl", [⟨"openssl", "1.2-5.el8", "", false, ""⟩]⟩
      ⟨"openssl", "1.2-3.el8", "1.2-4.el8", "x86_64", [], false, ""⟩
      "centos" ⟨"4.18.0-240.el8.x86_64", "", false⟩ []
      sampleKeyLess_irrefl sampleKeyLess_irrefl sampleKeyLess_irrefl (by decide)⟩

/-- C7 fails as stated: a record flagged NotFixedYet whose version is the
installed version makes `isOvalDefAffected` return notFixedYet true with
fixedIn equal to the installed version. -/
theorem isOvalDefAffected_unfixed_at_installed :
    isOvalDefAffected sampleDeps
      ⟨"oval:org.debian:def:2", "openssl", [⟨"openssl", "1.1.1d-0+deb10u3", "", true, ""⟩]⟩
      ⟨"openssl", "1.1.1d-0+deb10u3", "", "amd64", [], false, ""⟩
      "debian" ⟨"4.19.0-9-amd64", "", false⟩ [] = (true, true, "1.1.1d-0+deb10u3") := by
  decide

/-- C8: `isOvalDefAffected` returns the same triple on a definition as on the
definition without the records whose modularity label is non-empty and not among
the enabled modules, and when every label is empty the triple is the same for
every list of enabled modules. -/
theorem isOvalDefAffected_modularity (deps : Deps) (d : Definition) (req : request)
    (family : String) (running : Kernel) (enabledMods : List String) :
    isOvalDefAffected deps d req family running enabledMods =
      isOvalDefAffected deps
        { d with AffectedPacks := d.AffectedPacks.filter (fun p =>
            decide (¬ (p.ModularityLabel ≠ "" ∧ p.ModularityLabel ∉ enabledMods))) }
        req family running enabledMods ∧
    ((∀ p ∈ d.AffectedPacks, p.ModularityLabel = "") →
      ∀ mods2 : List String,
        isOvalDefAffected deps d req family running enabledMods =
          isOvalDefAffected deps d req family running mods2) := by
  constructor
  · simp only [isOvalDefAffected]
    generalize d.AffectedPacks = packs
    induction packs with
    | nil => rfl
    | cons q qs ih =>
      by_cases hk : q.ModularityLabel ≠ "" ∧ q.ModularityLabel ∉ enabledMods
      · have hq : passesChecks deps req family running enabledMods q = false := by
          simp [passesChecks, isModularityLabelEmptyOrSame, hk.1, hk.2]
        rw [loop_cons_skip deps q qs req family running enabledMods hq,
          List.filter_cons_of_neg (by simpa using hk)]
        exact ih
      · rw [List.filter_cons_of_pos (by simp only [decide_eq_true_eq]; exact hk)]
        exact loop_cons_congr deps q _ _ req family running enabledMods ih
  · intro hall mods2
    simp only [isOvalDefAffected]
    apply loop_congr_mods
    intro p hp
    simp [isModularityLabelEmptyOrSame, hall p hp]

/-- A record of the module stream postgresql:12 counts when the stream is
enabled and not otherwise, and a definition whose labels are all empty gives the
same triple with and without enabled modules. -/
theorem isOvalDefAffected_modularity_witness :
    isOvalDefAffected sampleDeps
      ⟨"RHSA-2021:0002", "postgresql", [⟨"postgresql", "12.5-1", "", false, "postgresql:12"⟩]⟩
      ⟨"postgresql", "12.1-2", "", "x86_64", [], false, ""⟩
      "redhat" ⟨"", "", false⟩ ["postgresql:10"] = (false, false, "") ∧
    isOvalDefAffected sampleDeps
      ⟨"RHSA-2021:0002", "postgresql", [⟨"postgresql", "12.5-1", "", false, "postgresql:12"⟩]⟩
      ⟨"postgresql", "12.1-2", "", "x86_64", [], false, ""⟩
      "redhat" ⟨"", "", false⟩ ["postgresql:12"] = (true, false, "12.5-1") ∧
    isOvalDefAffected sampleDeps
      ⟨"RHSA-2021:0003", "openssl", [⟨"openssl", "1.2-4.el8", "", false, ""⟩]⟩
      ⟨"openssl", "1.2-3.el8", "", "x86_64", [], false, ""⟩
      "redhat" ⟨"", "", false⟩ [] =
    isOvalDefAffected sampleDeps
      ⟨"RHSA-2021:0003", "openssl", [⟨"openssl", "1.2-4.el8", "", false, ""⟩]⟩
      ⟨"openssl", "1.2-3.el8", "", "x86_64", [], false, ""⟩
      "redhat" ⟨"", "", false⟩ ["postgresql:12"] :=
  ⟨by decide, by decide,
    (isOvalDefAffected_modularity sampleDeps
      ⟨"RHSA-2021:0003", "openssl", [⟨"openssl", "1.2-4.el8", "", false, ""⟩]⟩
      ⟨"openssl", "1.2-3.el8", "", "x86_64", [], false, ""⟩
      "redhat" ⟨"", "", false⟩ []).2 (by decide) ["postgresql:12"]⟩

/-- C9, as the code has it: when the first record that names the package and
passes the modularity and kernel checks is not flagged NotFixedYet and `lessThan`
returns an error on it, `isOvalDefAffected` returns not affected and not
notFixedYet, with that record's version, whatever records follow; and `lessThan`
returns an error for every family outside Debian, Ubuntu, Raspbian, Alpine,
Oracle, SUSE Enterprise Server, Amazon, RedHat and CentOS. -/
theorem isOvalDefAffected_comparison_error (deps : Deps) (d : Definition) (req : request)
    (family : String) (running : Kernel) (enabledMods : List String) (p : Package)
    (err : String)
    (hfirst : d.AffectedPacks.find? (passesChecks deps req family running enabledMods) = some p)
    (hnfy : p.NotFixedYet = false)
    (herr : lessThan deps family req.versionRelease p = .error err) :
    isOvalDefAffected deps d req family running enabledMods = (false, false, p.Version) ∧
    ∀ (fam ver : String) (q : Package),
      fam ∉ [Debian, Ubuntu, Raspbian, Alpine, Oracle, SUSEEnterpriseServer, Amazon,
        RedHat, CentOS] →
      lessThan deps fam ver q = .error ("Not implemented yet: " ++ fam) := by
  constructor
  · obtain ⟨rest, hrest⟩ := loop_reaches_first deps _ p req family running enabledMods hfirst
    have hp := passes_of_find deps _ p req family running enabledMods hfirst
    rw [isOvalDefAffected, hrest, loop_cons_pass deps p rest req family running enabledMods hp]
    simp [hnfy, herr]
  · intro fam ver q hfam
    simp only [List.mem_cons, List.mem_singleton, List.not_mem_nil, or_false, not_or] at hfam
    obtain ⟨h1, h2, h3, h4, h5, h6, h7, h8, h9⟩ := hfam
    simp [lessThan, h1, h2, h3, h4, h5, h6, h7, h8, h9]

/-- A FreeBSD host: the family has no grammar, the comparison fails on the
record, and the definition is reported as not affecting the package although a
record follows. -/
theorem isOvalDefAffected_comparison_error_witness :
    isOvalDefAffected sampleDeps
      ⟨"", "openssl", [⟨"openssl", "1.1.1k", "", false, ""⟩, ⟨"openssl", "1.1.1l", "", true, ""⟩]⟩
      ⟨"openssl", "1.1.1d", "", "amd64", [], false, ""⟩
      "freebsd" ⟨"", "", false⟩ [] = (false, false, "1.1.1k") ∧
    ∀ (fam ver : String) (q : Package),
      fam ∉ [Debian, Ubuntu, Raspbian, Alpine, Oracle, SUSEEnterpriseServer, Amazon,
        RedHat, CentOS] →
      lessThan sampleDeps fam ver q = .error ("Not implemented yet: " ++ fam) :=
  isOvalDefAffected_comparison_error sampleDeps
    ⟨"", "openssl", [⟨"openssl", "1.1.1k", "", false, ""⟩, ⟨"openssl", "1.1.1l", "", true, ""⟩]⟩
    ⟨"openssl", "1.1.1d", "", "amd64", [], false, ""⟩
    "freebsd" ⟨"", "", false⟩ [] ⟨"openssl", "1.1.1k", "", false, ""⟩
    "Not implemented yet: freebsd" (by decide) rfl rfl

/-- C9 fails as stated: on a family without a grammar the comparison fails on
the first record that names the package, passes the checks and is not flagged
NotFixedYet, yet a flagged record before it makes `isOvalDefAffected` return
affected and notFixedYet. -/
theorem isOvalDefAffected_error_after_unfixed :
    [(⟨"openssl", "1.1.1l", "", true, ""⟩ : Package), ⟨"openssl", "1.1.1k", "", false, ""⟩].find?
      (fun q => passesChecks sampleDeps ⟨"openssl", "1.1.1d", "", "amd64", [], false, ""⟩
        "freebsd" ⟨"", "", false⟩ [] q && !q.NotFixedYet)
      = some ⟨"openssl", "1.1.1k", "", false, ""⟩ ∧
    lessThan sampleDeps "freebsd" "1.1.1d" ⟨"openssl", "1.1.1k", "", false, ""⟩
      = .error "Not implemented yet: freebsd" ∧
    isOvalDefAffected sampleDeps
      ⟨"", "openssl", [⟨"openssl", "1.1.1l", "", true, ""⟩, ⟨"openssl", "1.1.1k", "", false, ""⟩]⟩
      ⟨"openssl", "1.1.1d", "", "amd64", [], false, ""⟩
      "freebsd" ⟨"", "", false⟩ [] = (true, true, "1.1.1l") := by
  refine ⟨by decide, rfl, by decide⟩


/-! ## Lemmas on `centOSVersionToRHEL` -/

theorem skipMinor_suffix (s : List Char) : skipMinor s <:+ s := by
  unfold skipMinor
  split
  · exact (List.dropWhile_suffix _).trans (List.drop_suffix 1 s)
  · exact List.suffix_refl s

theorem skipCentos_suffix (s : List Char) : skipCentos s <:+ s := by
  unfold skipCentos
  split
  · exact List.drop_suffix _ s
  · exact List.suffix_refl s

/-- The parts of a match. -/
theorem matchAt_some (s n r : List Char) (h : matchAt s = some (n, r)) :
    startsMatch s = true ∧ n = (s.drop 3).takeWhile Char.isDigit ∧
      r = skipCentos (skipMinor ((s.drop 3).dropWhile Char.isDigit)) := by
  unfold matchAt at h
  split at h
  · rename_i hs
    simp only [Option.some.injEq, Prod.mk.injEq] at h
    exact ⟨hs, h.1.symm, h.2.symm⟩
  · simp at h

theorem matchAt_none (s : List Char) : matchAt s = none ↔ startsMatch s = false := by
  unfold matchAt
  split <;> simp_all

/-- A text at whose head the pattern matches: a dot, `e` or `s`, `l`, a digit. -/
theorem startsMatch_shape (s : List Char) (h : startsMatch s = true) :
    ∃ c1 d t, s = '.' :: c1 :: 'l' :: d :: t ∧ (c1 = 'e' ∨ c1 = 's') ∧ d.isDigit = true := by
  match s, h with
  | c0 :: c1 :: c2 :: [], h => simp [startsMatch, headIsDigit] at h
  | c0 :: c1 :: c2 :: d :: t, h =>
    simp only [startsMatch, headIsDigit, Bool.and_eq_true, beq_iff_eq, Bool.or_eq_true] at h
    obtain ⟨⟨⟨h0, h1⟩, h2⟩, h3⟩ := h
    subst h0 h2
    exact ⟨c1, d, t, rfl, h1, h3⟩

/-- What is left after a match is a suffix of the text past the first four
characters. -/
theorem matchAt_suffix (s n r : List Char) (h : matchAt s = some (n, r)) :
    r <:+ s.drop 4 := by
  obtain ⟨hs, -, hr⟩ := matchAt_some s n r h
  obtain ⟨c1, d, t, rfl, -, hd⟩ := startsMatch_shape s hs
  rw [hr]
  refine (skipCentos_suffix _).trans ((skipMinor_suffix _).trans ?_)
  simp only [List.drop_succ_cons, List.drop_zero, List.dropWhile_cons, hd, if_true]
  exact List.dropWhile_suffix _

theorem matchAt_length (s n r : List Char) (h : matchAt s = some (n, r)) :
    r.length < s.length := by
  have h1 := (matchAt_suffix s n r h).length_le
  obtain ⟨hs, -, -⟩ := matchAt_some s n r h
  obtain ⟨c1, d, t, rfl, -, -⟩ := startsMatch_shape s hs
  simp only [List.drop_succ_cons, List.drop_zero] at h1
  simp only [List.length_cons]
  omega

/-- The bound on the number of steps does not matter once it is at least the
length of the text. -/
theorem replaceAllAux_congr (f1 : Nat) : ∀ (f2 : Nat) (s : List Char),
    s.length ≤ f1 → s.length ≤ f2 → replaceAllAux f1 s = replaceAllAux f2 s := by
  induction f1 with
  | zero =>
    intro f2 s h1 _
    have : s = [] := List.length_eq_zero.1 (Nat.le_zero.1 h1)
    subst this
    cases f2 <;> rfl
  | succ f1 ih =>
    intro f2 s h1 h2
    cases s with
    | nil => cases f2 <;> rfl
    | cons c t =>
      cases f2 with
      | zero => simp at h2
      | succ f2 =>
        simp only [replaceAllAux]
        simp only [List.length_cons, Nat.add_le_add_iff_right] at h1 h2
        cases hm : matchAt (c :: t) with
        | none => simp only [ih f2 t h1 h2]
        | some nr =>
          obtain ⟨n, r⟩ := nr
          have hl := matchAt_length (c :: t) n r hm
          simp only [List.length_cons] at hl
          simp only [ih f2 r (by omega) (by omega)]

theorem replaceAllAux_fuel (fuel : Nat) (s : List Char) (h : s.length ≤ fuel) :
    replaceAllAux fuel s = replaceAll s :=
  replaceAllAux_congr fuel s.length s h (le_refl _)

theorem replaceAll_nil : replaceAll [] = [] := rfl

/-- The step of the scan at a match. -/
theorem replaceAll_cons_some (c : Char) (t n r : List Char)
    (h : matchAt (c :: t) = some (n, r)) :
    replaceAll (c :: t) = '.' :: 'e' :: 'l' :: (n ++ replaceAll r) := by
  have hl := matchAt_length (c :: t) n r h
  simp only [List.length_cons] at hl
  simp only [replaceAll, List.length_cons, replaceAllAux, h]
  rw [replaceAllAux_congr t.length r.length r (by omega) (le_refl _)]
  rfl

/-- The step of the scan where there is no match. -/
theorem replaceAll_cons_none (c : Char) (t : List Char) (h : matchAt (c :: t) = none) :
    replaceAll (c :: t) = c :: replaceAll t := by
  simp only [replaceAll, List.length_cons, replaceAllAux, h]

theorem startsMatch_of_ne_dot (c : Char) (t : List Char) (h : c ≠ '.') :
    startsMatch (c :: t) = false := by
  match t with
  | [] => rfl
  | [_] => rfl
  | c1 :: c2 :: t2 => simp [startsMatch, h]

/-- A character other than the dot is copied. -/
theorem replaceAll_cons_of_ne_dot (c : Char) (t : List Char) (h : c ≠ '.') :
    replaceAll (c :: t) = c :: replaceAll t :=
  replaceAll_cons_none c t ((matchAt_none _).2 (startsMatch_of_ne_dot c t h))

/-- The scan keeps the first character. -/
theorem replaceAll_head (c : Char) (t : List Char) : ∃ y, replaceAll (c :: t) = c :: y := by
  cases hm : matchAt (c :: t) with
  | none => exact ⟨_, replaceAll_cons_none c t hm⟩
  | some nr =>
    obtain ⟨n, r⟩ := nr
    obtain ⟨hs, -, -⟩ := matchAt_some _ n r hm
    obtain ⟨c1, d, t2, heq, -, -⟩ := startsMatch_shape _ hs
    have hc : c = '.' := by injection heq
    rw [replaceAll_cons_some c t n r hm, hc]
    exact ⟨_, rfl⟩

theorem headIsDigit_replaceAll (s : List Char) :
    headIsDigit (replaceAll s) = headIsDigit s := by
  cases s with
  | nil => rfl
  | cons c t =>
    obtain ⟨y, hy⟩ := replaceAll_head c t
    rw [hy]
    rfl

theorem isDigit_ne_dot (c : Char) (h : c.isDigit = true) : c ≠ '.' := by
  intro hc
  subst hc
  exact absurd h (by decide)

/-- The digits at the head of a text are copied. -/
theorem replaceAll_digits (s : List Char) :
    replaceAll s = s.takeWhile Char.isDigit ++ replaceAll (s.dropWhile Char.isDigit) := by
  induction s with
  | nil => rfl
  | cons c t ih =>
    by_cases hd : c.isDigit = true
    · rw [replaceAll_cons_of_ne_dot c t (isDigit_ne_dot c hd), List.takeWhile_cons_of_pos hd,
        List.dropWhile_cons_of_pos hd, ih]
      rfl
    · rw [List.takeWhile_cons_of_neg hd, List.dropWhile_cons_of_neg hd]
      rfl

theorem startsMinor_replaceAll (s : List Char) :
    startsMinor (replaceAll s) = startsMinor s := by
  cases s with
  | nil => rfl
  | cons c t =>
    by_cases hc : c = '_'
    · subst hc
      rw [replaceAll_cons_of_ne_dot _ t (by decide)]
      simp only [startsMinor, headIsDigit_replaceAll]
    · obtain ⟨y, hy⟩ := replaceAll_head c t
      rw [hy]
      have hb : (c == '_') = false := by simpa using hc
      simp only [startsMinor, hb, Bool.false_and]

/-- A text without a dot is at the head of the result exactly when it is at the
head of the text scanned. -/
theorem isPrefixOf_replaceAll (a : List Char) (ha : ∀ x ∈ a, x ≠ '.') :
    ∀ s : List Char, a.isPrefixOf (replaceAll s) = a.isPrefixOf s := by
  induction a with
  | nil => intro s; simp
  | cons x a ih =>
    intro s
    cases s with
    | nil => rfl
    | cons c t =>
      by_cases hx : x = c
      · subst hx
        rw [replaceAll_cons_of_ne_dot x t (ha x (List.mem_cons_self _ _))]
        simp only [List.isPrefixOf, ih (fun y hy => ha y (List.mem_cons_of_mem _ hy)) t]
      · obtain ⟨y, hy⟩ := replaceAll_head c t
        rw [hy]
        have hb : (x == c) = false := by simpa using hx
        simp only [List.isPrefixOf, hb, Bool.false_and]

theorem centos_replaceAll (s : List Char) :
    centosLit.isPrefixOf (replaceAll s) = centosLit.isPrefixOf s := by
  cases s with
  | nil => rfl
  | cons c t =>
    cases hm : matchAt (c :: t) with
    | none =>
      rw [replaceAll_cons_none c t hm]
      have h := isPrefixOf_replaceAll ['c', 'e', 'n', 't', 'o', 's'] (by decide) t
      simp only [centosLit, List.isPrefixOf] at h ⊢
      rw [h]
    | some nr =>
      obtain ⟨n, r⟩ := nr
      obtain ⟨hs, -, -⟩ := matchAt_some _ n r hm
      obtain ⟨c1, d, t2, heq, hc1, -⟩ := startsMatch_shape _ hs
      rw [replaceAll_cons_some c t n r hm, heq]
      rcases hc1 with rfl | rfl <;> simp [centosLit, List.isPrefixOf]

/-- Where the pattern does not match, it does not match after the scan of the
text that follows the first character. -/
theorem startsMatch_cons_replaceAll (c : Char) (t : List Char)
    (h : startsMatch (c :: t) = false) : startsMatch (c :: replaceAll t) = false := by
  by_cases hc : c = '.'
  · subst hc
    match t, h with
    | [], _ => rfl
    | c1 :: t1, h =>
      by_cases h1 : c1 = 'e' ∨ c1 = 's'
      · have hdot : c1 ≠ '.' := by rcases h1 with rfl | rfl <;> decide
        rw [replaceAll_cons_of_ne_dot c1 t1 hdot]
        match t1, h with
        | [], _ => rfl
        | c2 :: t2, h =>
          by_cases h2 : c2 = 'l'
          · subst h2
            rw [replaceAll_cons_of_ne_dot _ t2 (by decide)]
            simp only [startsMatch, headIsDigit_replaceAll] at h ⊢
            exact h
          · obtain ⟨y, hy⟩ := replaceAll_head c2 t2
            rw [hy]
            simp [startsMatch, h2]
      · obtain ⟨y, hy⟩ := replaceAll_head c1 t1
        rw [hy]
        match y with
        | [] => rfl
        | c2 :: y2 =>
          simp only [not_or] at h1
          simp [startsMatch, h1.1, h1.2]
  · exact startsMatch_of_ne_dot c _ hc

theorem headIsDigit_dropWhile (s : List Char) :
    headIsDigit (s.dropWhile Char.isDigit) = false := by
  induction s with
  | nil => rfl
  | cons c t ih =>
    by_cases hd : c.isDigit = true
    · rw [List.dropWhile_cons_of_pos hd]
      exact ih
    · rw [List.dropWhile_cons_of_neg hd]
      simpa [headIsDigit] using hd

/-- Digits followed by a text that does not start with a digit: the digits are
what `\d+` takes. -/
theorem takeWhile_append_digits (a b : List Char) (ha : ∀ x ∈ a, x.isDigit = true)
    (hb : headIsDigit b = false) :
    (a ++ b).takeWhile Char.isDigit = a ∧ (a ++ b).dropWhile Char.isDigit = b := by
  induction a with
  | nil =>
    cases b with
    | nil => exact ⟨rfl, rfl⟩
    | cons x b2 =>
      have hx : ¬ x.isDigit = true := by simpa [headIsDigit] using hb
      exact ⟨List.takeWhile_cons_of_neg hx, List.dropWhile_cons_of_neg hx⟩
  | cons x a ih =>
    have hx := ha x (List.mem_cons_self _ _)
    obtain ⟨h1, h2⟩ := ih (fun y hy => ha y (List.mem_cons_of_mem _ hy))
    constructor
    · rw [List.cons_append, List.takeWhile_cons_of_pos hx, h1]
    · rw [List.cons_append, List.dropWhile_cons_of_pos hx, h2]

theorem stable_suffix (s t : List Char) (h : stable s = true) (hs : t <:+ s) :
    stable t = true := by
  induction s with
  | nil =>
    have : t = [] := List.suffix_nil.1 hs
    subst this
    rfl
  | cons c s2 ih =>
    rcases List.suffix_cons_iff.1 hs with rfl | h2
    · exact h
    · simp only [stable, Bool.and_eq_true] at h
      exact ih h.2 h2

/-- The match that the second scan finds where the first one wrote a
replacement: group 1 takes the digits written and the digits copied after them,
and the optional groups are tried on the scan of what follows these digits. -/
theorem matchAt_rescan (n r : List Char) (hn : n ≠ [])
    (hdig : ∀ x ∈ n, x.isDigit = true) :
    matchAt ('.' :: 'e' :: 'l' :: (n ++ replaceAll r)) =
      some (n ++ r.takeWhile Char.isDigit,
        skipCentos (skipMinor (replaceAll (r.dropWhile Char.isDigit)))) := by
  have hall : ∀ x ∈ n ++ r.takeWhile Char.isDigit, x.isDigit = true := by
    intro x hx
    rcases List.mem_append.1 hx with h | h
    · exact hdig x h
    · exact (List.mem_takeWhile_imp h)
  have hhead : headIsDigit (replaceAll (r.dropWhile Char.isDigit)) = false := by
    rw [headIsDigit_replaceAll]
    exact headIsDigit_dropWhile r
  obtain ⟨h1, h2⟩ := takeWhile_append_digits _ _ hall hhead
  have hstart : startsMatch ('.' :: 'e' :: 'l' :: (n ++ replaceAll r)) = true := by
    cases n with
    | nil => exact absurd rfl hn
    | cons d n2 =>
      have hd := hdig d (List.mem_cons_self _ _)
      simp [startsMatch, headIsDigit, hd]
  have hdrop : List.drop 3 ('.' :: 'e' :: 'l' :: (n ++ replaceAll r)) =
      (n ++ r.takeWhile Char.isDigit) ++ replaceAll (r.dropWhile Char.isDigit) := by
    rw [replaceAll_digits r, List.append_assoc]
    rfl
  unfold matchAt
  rw [if_pos hstart, hdrop, h1, h2]

/-- On a stable text the optional groups take nothing in the second scan. -/
theorem matchAt_replacement (n r : List Char) (hn : n ≠ [])
    (hdig : ∀ x ∈ n, x.isDigit = true)
    (hminor : startsMinor (r.dropWhile Char.isDigit) = false)
    (hcentos : centosLit.isPrefixOf (r.dropWhile Char.isDigit) = false) :
    matchAt ('.' :: 'e' :: 'l' :: (n ++ replaceAll r)) =
      some (n ++ r.takeWhile Char.isDigit, replaceAll (r.dropWhile Char.isDigit)) := by
  have hm : skipMinor (replaceAll (r.dropWhile Char.isDigit)) =
      replaceAll (r.dropWhile Char.isDigit) := by
    simp [skipMinor, startsMinor_replaceAll, hminor]
  have hc : skipCentos (replaceAll (r.dropWhile Char.isDigit)) =
      replaceAll (r.dropWhile Char.isDigit) := by
    simp [skipCentos, centos_replaceAll, hcentos]
  rw [matchAt_rescan n r hn hdig, hm, hc]

/-- Group 1 of a match is a non-empty text of digits. -/
theorem matchAt_digits (s n r : List Char) (h : matchAt s = some (n, r)) :
    n ≠ [] ∧ ∀ x ∈ n, x.isDigit = true := by
  obtain ⟨hs, hn, -⟩ := matchAt_some s n r h
  obtain ⟨c1, d, t2, heq, -, hd⟩ := startsMatch_shape s hs
  constructor
  · rw [hn, heq]
    simp [List.takeWhile_cons_of_pos hd]
  · intro x hx
    rw [hn] at hx
    exact List.mem_takeWhile_imp hx

/-- The scan of a stable text is a fixed point of the scan. -/
theorem replaceAll_idem (k : Nat) : ∀ s : List Char, s.length ≤ k → stable s = true →
    replaceAll (replaceAll s) = replaceAll s := by
  induction k with
  | zero =>
    intro s hk _
    have : s = [] := List.length_eq_zero.1 (Nat.le_zero.1 hk)
    subst this
    rfl
  | succ k ih =>
    intro s hk hst
    cases s with
    | nil => rfl
    | cons c t =>
      simp only [List.length_cons, Nat.add_le_add_iff_right] at hk
      cases hm : matchAt (c :: t) with
      | none =>
        have hs := startsMatch_cons_replaceAll c t ((matchAt_none _).1 hm)
        have ht : stable t = true := by
          simp only [stable, Bool.and_eq_true] at hst
          exact hst.2
        rw [replaceAll_cons_none c t hm, replaceAll_cons_none c _ ((matchAt_none _).2 hs),
          ih t hk ht]
      | some nr =>
        obtain ⟨n, r⟩ := nr
        have hat : stableAt (c :: t) = true := by
          simp only [stable, Bool.and_eq_true] at hst
          exact hst.1
        simp only [stableAt, hm, Bool.and_eq_true, Bool.not_eq_true'] at hat
        obtain ⟨hne, hdig⟩ := matchAt_digits _ n r hm
        have hsuf : r.dropWhile Char.isDigit <:+ c :: t :=
          (List.dropWhile_suffix _).trans
            ((matchAt_suffix _ n r hm).trans (List.drop_suffix 4 _))
        have hlen : (r.dropWhile Char.isDigit).length ≤ k := by
          have h1 := (List.dropWhile_suffix (l := r) Char.isDigit).length_le
          have h2 := matchAt_length _ n r hm
          simp only [List.length_cons] at h2
          omega
        rw [replaceAll_cons_some c t n r hm,
          replaceAll_cons_some _ _ _ _ (matchAt_replacement n r hne hdig hat.1 hat.2),
          ih _ hlen (stable_suffix _ _ hst hsuf), List.append_assoc, ← replaceAll_digits r]

/-- A match is at least as long as the replacement written for it. -/
theorem matchAt_length_le (s n r : List Char) (h : matchAt s = some (n, r)) :
    3 + n.length + r.length ≤ s.length := by
  obtain ⟨hs, hn, hr⟩ := matchAt_some s n r h
  obtain ⟨c1, d, t2, heq, -, -⟩ := startsMatch_shape s hs
  subst heq
  simp only [List.drop_succ_cons, List.drop_zero] at hn hr
  have h1 : r <:+ (d :: t2).dropWhile Char.isDigit := by
    rw [hr]
    exact (skipCentos_suffix _).trans (skipMinor_suffix _)
  have h2 := h1.length_le
  have h3 : n.length + ((d :: t2).dropWhile Char.isDigit).length = (d :: t2).length := by
    rw [hn, ← List.length_append, List.takeWhile_append_dropWhile]
  simp only [List.length_cons] at h3 ⊢
  omega

/-- The scan never makes a text longer. -/
theorem replaceAll_length_le (k : Nat) : ∀ s : List Char, s.length ≤ k →
    (replaceAll s).length ≤ s.length := by
  induction k with
  | zero =>
    intro s hk
    have : s = [] := List.length_eq_zero.1 (Nat.le_zero.1 hk)
    subst this
    exact le_refl _
  | succ k ih =>
    intro s hk
    cases s with
    | nil => exact le_refl _
    | cons c t =>
      simp only [List.length_cons, Nat.add_le_add_iff_right] at hk
      cases hm : matchAt (c :: t) with
      | none =>
        rw [replaceAll_cons_none c t hm]
        have := ih t hk
        simp only [List.length_cons]
        omega
      | some nr =>
        obtain ⟨n, r⟩ := nr
        have h1 := matchAt_length_le _ n r hm
        have h2 := matchAt_length _ n r hm
        simp only [List.length_cons] at h1 h2
        have h3 := ih r (by omega)
        rw [replaceAll_cons_some c t n r hm]
        simp only [List.length_cons, List.length_append]
        omega

theorem stableAt_of_ne_dot (c : Char) (t : List Char) (h : c ≠ '.') :
    stableAt (c :: t) = true := by
  simp [stableAt, (matchAt_none _).2 (startsMatch_of_ne_dot c t h)]

/-- No match starts in a text without a dot. -/
theorem stable_append_nodot (a b : List Char) (ha : ∀ x ∈ a, x ≠ '.') :
    stable (a ++ b) = stable b := by
  induction a with
  | nil => rfl
  | cons x a ih =>
    rw [List.cons_append, stable, stableAt_of_ne_dot x _ (ha x (List.mem_cons_self _ _)),
      ih (fun y hy => ha y (List.mem_cons_of_mem _ hy))]
    rfl

/-- No match starts in the literal `.centos`. -/
theorem stable_centos (b : List Char) : stable (centosLit ++ b) = stable b := by
  have h1 : stableAt ('.' :: (['c', 'e', 'n', 't', 'o', 's'] ++ b)) = true := by
    simp [stableAt, matchAt, startsMatch]
  have h2 := stable_append_nodot ['c', 'e', 'n', 't', 'o', 's'] b (by decide)
  show stable ('.' :: (['c', 'e', 'n', 't', 'o', 's'] ++ b)) = stable b
  rw [stable, h1, h2]
  rfl

theorem stable_dropWhile (s : List Char) : stable (s.dropWhile Char.isDigit) = stable s := by
  have h := stable_append_nodot (s.takeWhile Char.isDigit) (s.dropWhile Char.isDigit)
    (fun x hx => isDigit_ne_dot x (List.mem_takeWhile_imp hx))
  rw [List.takeWhile_append_dropWhile] at h
  exact h.symm

theorem startsMinor_shape (s : List Char) (h : startsMinor s = true) :
    ∃ t, s = '_' :: t := by
  cases s with
  | nil => simp [startsMinor] at h
  | cons c t =>
    simp only [startsMinor, Bool.and_eq_true, beq_iff_eq] at h
    exact ⟨t, by rw [h.1]⟩

theorem stable_skipMinor (s : List Char) : stable (skipMinor s) = stable s := by
  unfold skipMinor
  split
  · rename_i h
    obtain ⟨t, rfl⟩ := startsMinor_shape s h
    rw [List.drop_succ_cons, List.drop_zero, stable_dropWhile]
    exact (stable_append_nodot ['_'] t (by decide)).symm
  · rfl

theorem stable_skipCentos (s : List Char) : stable (skipCentos s) = stable s := by
  unfold skipCentos
  split
  · rename_i h
    obtain ⟨b, rfl⟩ := List.isPrefixOf_iff_prefix.1 h
    rw [List.drop_left, stable_centos]
  · rfl

/-- No match starts inside a match, nor in the digits right after it. -/
theorem stable_cons_some (c : Char) (t n r : List Char)
    (h : matchAt (c :: t) = some (n, r)) :
    stable t = stable (r.dropWhile Char.isDigit) := by
  obtain ⟨hs, -, hr⟩ := matchAt_some _ n r h
  obtain ⟨c1, d, t2, heq, hc1, -⟩ := startsMatch_shape _ hs
  rw [heq] at hr
  simp only [List.drop_succ_cons, List.drop_zero] at hr
  have ht : t = [c1, 'l'] ++ (d :: t2) := by
    injection heq with _ h2
  have hdot : ∀ x ∈ [c1, 'l'], x ≠ '.' := by
    rcases hc1 with rfl | rfl <;> decide
  rw [ht, stable_append_nodot _ _ hdot, stable_dropWhile, hr, stable_skipCentos,
    stable_skipMinor, stable_dropWhile]

theorem skipMinor_length_lt (s : List Char) (h : startsMinor s = true) :
    (skipMinor s).length < s.length := by
  obtain ⟨t, rfl⟩ := startsMinor_shape s h
  have h1 := (List.dropWhile_suffix (l := t) Char.isDigit).length_le
  simp only [skipMinor, h, if_true, List.drop_succ_cons, List.drop_zero, List.length_cons]
  omega

theorem skipCentos_length_lt (s : List Char) (h : centosLit.isPrefixOf s = true) :
    (skipCentos s).length < s.length := by
  obtain ⟨b, rfl⟩ := List.isPrefixOf_iff_prefix.1 h
  simp only [skipCentos, h, if_true, List.drop_left, List.length_append]
  simp [centosLit]

/-- The scan of a text that is not stable is not a fixed point: the second scan
makes it shorter. -/
theorem replaceAll_shrinks (k : Nat) : ∀ s : List Char, s.length ≤ k → stable s = false →
    (replaceAll (replaceAll s)).length < (replaceAll s).length := by
  induction k with
  | zero =>
    intro s hk hst
    have : s = [] := List.length_eq_zero.1 (Nat.le_zero.1 hk)
    subst this
    simp [stable] at hst
  | succ k ih =>
    intro s hk hst
    cases s with
    | nil => simp [stable] at hst
    | cons c t =>
      simp only [List.length_cons, Nat.add_le_add_iff_right] at hk
      cases hm : matchAt (c :: t) with
      | none =>
        have hs := startsMatch_cons_replaceAll c t ((matchAt_none _).1 hm)
        have ht : stable t = false := by
          have hat : stableAt (c :: t) = true := by simp [stableAt, hm]
          simpa [stable, hat] using hst
        have := ih t hk ht
        rw [replaceAll_cons_none c t hm, replaceAll_cons_none c _ ((matchAt_none _).2 hs)]
        simp only [List.length_cons]
        omega
      | some nr =>
        obtain ⟨n, r⟩ := nr
        obtain ⟨hne, hdig⟩ := matchAt_digits _ n r hm
        have hlen : (r.dropWhile Char.isDigit).length ≤ k := by
          have h1 := (List.dropWhile_suffix (l := r) Char.isDigit).length_le
          have h2 := matchAt_length _ n r hm
          simp only [List.length_cons] at h2
          omega
        have hfirst : replaceAll (c :: t) = '.' :: 'e' :: 'l' ::
            ((n ++ r.takeWhile Char.isDigit) ++ replaceAll (r.dropWhile Char.isDigit)) := by
          rw [replaceAll_cons_some c t n r hm, List.append_assoc, ← replaceAll_digits r]
        by_cases hat : stableAt (c :: t) = true
        · have hr : stable (r.dropWhile Char.isDigit) = false := by
            rw [← stable_cons_some c t n r hm]
            simpa [stable, hat] using hst
          simp only [stableAt, hm, Bool.and_eq_true, Bool.not_eq_true'] at hat
          have := ih _ hlen hr
          rw [replaceAll_cons_some c t n r hm,
            replaceAll_cons_some _ _ _ _ (matchAt_replacement n r hne hdig hat.1 hat.2),
            ← replaceAll_cons_some c t n r hm, hfirst]
          simp only [List.length_cons, List.length_append]
          omega
        · have hsk : (skipCentos (skipMinor (replaceAll (r.dropWhile Char.isDigit)))).length <
              (replaceAll (r.dropWhile Char.isDigit)).length := by
            have h1 := (skipCentos_suffix
              (skipMinor (replaceAll (r.dropWhile Char.isDigit)))).length_le
            have h2 := (skipMinor_suffix (replaceAll (r.dropWhile Char.isDigit))).length_le
            by_cases hmin : startsMinor (r.dropWhile Char.isDigit) = true
            · have := skipMinor_length_lt (replaceAll (r.dropWhile Char.isDigit))
                (by rw [startsMinor_replaceAll]; exact hmin)
              omega
            · have hcen : centosLit.isPrefixOf (r.dropWhile Char.isDigit) = true := by
                simp only [stableAt, hm] at hat
                simpa [hmin] using hat
              have hsm : skipMinor (replaceAll (r.dropWhile Char.isDigit)) =
                  replaceAll (r.dropWhile Char.isDigit) := by
                simp [skipMinor, startsMinor_replaceAll, hmin]
              rw [hsm]
              exact skipCentos_length_lt _ (by rw [centos_replaceAll]; exact hcen)
          have hle := replaceAll_length_le _
            (skipCentos (skipMinor (replaceAll (r.dropWhile Char.isDigit)))) (le_refl _)
          rw [replaceAll_cons_some c t n r hm,
            replaceAll_cons_some _ _ _ _ (matchAt_rescan n r hne hdig),
            ← replaceAll_cons_some c t n r hm, hfirst]
          simp only [List.length_cons, List.length_append]
          omega

/-- C10, as the code has it: `centOSVersionToRHEL` leaves its own result
unchanged exactly for the version texts in which no match of the release-suffix
pattern is followed, past any further digits, by an underscore and a digit or by
`.centos`. -/
theorem centOSVersionToRHEL_idempotent (v : String) :
    centOSVersionToRHEL (centOSVersionToRHEL v) = centOSVersionToRHEL v ↔
      stable v.data = true := by
  constructor
  · intro h
    by_contra hst
    have hlt := replaceAll_shrinks v.data.length v.data (le_refl _) (by simpa using hst)
    have hd := congrArg (fun x => x.data.length) h
    simp only [centOSVersionToRHEL] at hd
    omega
  · intro h
    simp only [centOSVersionToRHEL]
    rw [replaceAll_idem v.data.length v.data (le_refl _) h]

/-- The version 1.2-3.el8_4.centos is stable, and normalising it twice gives
what normalising it once gives. -/
theorem centOSVersionToRHEL_idempotent_witness :
    stable "1.2-3.el8_4.centos".data = true ∧
    centOSVersionToRHEL (centOSVersionToRHEL "1.2-3.el8_4.centos") =
      centOSVersionToRHEL "1.2-3.el8_4.centos" :=
  ⟨by decide, (centOSVersionToRHEL_idempotent "1.2-3.el8_4.centos").2 (by decide)⟩

/-- C10 fails as stated: 1.2-3.el8_4_5 normalises to 1.2-3.el8_5, which
normalises to 1.2-3.el8. -/
theorem centOSVersionToRHEL_not_idempotent :
    centOSVersionToRHEL "1.2-3.el8_4_5" = "1.2-3.el8_5" ∧
    centOSVersionToRHEL (centOSVersionToRHEL "1.2-3.el8_4_5") = "1.2-3.el8" ∧
    centOSVersionToRHEL (centOSVersionToRHEL "1.2-3.el8_4_5") ≠
      centOSVersionToRHEL "1.2-3.el8_4_5" := by
  refine ⟨by decide, by decide, by decide⟩

/-! ## Claims on normalisation, overwriting and the candidate version -/

/-- Where the pattern does not match, it does not match when a text starting
with a dot is put after the text. -/
theorem startsMatch_append_dot (c : Char) (p s : List Char)
    (h : startsMatch (c :: p) = false) : startsMatch ((c :: p) ++ '.' :: s) = false := by
  match p, h with
  | [], _ =>
    match s with
    | [] => rfl
    | [_] => simp [startsMatch, headIsDigit]
    | _ :: _ :: _ => simp [startsMatch]
  | [c1], _ =>
    match s with
    | [] => simp [startsMatch]
    | _ :: _ => simp [startsMatch]
  | [c1, c2], _ =>
    have hd : Char.isDigit '.' = false := by decide
    simp [startsMatch, headIsDigit, hd]
  | c1 :: c2 :: d :: t, h => simpa [startsMatch, headIsDigit] using h

/-- A text without a match is copied when a text starting with a dot follows. -/
theorem replaceAll_append_noMatch (p s : List Char) (h : hasMatch p = false) :
    replaceAll (p ++ '.' :: s) = p ++ replaceAll ('.' :: s) := by
  induction p with
  | nil => rfl
  | cons c p ih =>
    simp only [hasMatch, Bool.or_eq_false_iff] at h
    have h1 := startsMatch_append_dot c p s h.1
    rw [List.cons_append] at h1 ⊢
    rw [replaceAll_cons_none c _ ((matchAt_none _).2 h1), ih h.2]
    rfl

/-- The replacement of a release suffix at the end of a text: `.el`, the digits
of the major release, and a rest that the optional groups take whole. -/
theorem replaceAll_release (n rest : List Char) (hn : n ≠ [])
    (hdig : ∀ x ∈ n, x.isDigit = true) (hrest : headIsDigit rest = false)
    (hskip : skipCentos (skipMinor rest) = []) :
    replaceAll ('.' :: 'e' :: 'l' :: (n ++ rest)) = '.' :: 'e' :: 'l' :: n := by
  obtain ⟨h1, h2⟩ := takeWhile_append_digits n rest hdig hrest
  have hstart : startsMatch ('.' :: 'e' :: 'l' :: (n ++ rest)) = true := by
    cases n with
    | nil => exact absurd rfl hn
    | cons d n2 =>
      have hd := hdig d (List.mem_cons_self _ _)
      simp [startsMatch, headIsDigit, hd]
  have hm : matchAt ('.' :: 'e' :: 'l' :: (n ++ rest)) = some (n, []) := by
    unfold matchAt
    rw [if_pos hstart]
    simp only [List.drop_succ_cons, List.drop_zero, h1, h2, hskip]
  rw [replaceAll_cons_some _ _ n [] hm, replaceAll_nil, List.append_nil]

/-- The optional group `_\d+` takes an underscore and digits whole. -/
theorem skipMinor_minor (m rest : List Char) (hm : m ≠ [])
    (hdig : ∀ x ∈ m, x.isDigit = true) (hrest : headIsDigit rest = false) :
    skipMinor ('_' :: (m ++ rest)) = rest := by
  obtain ⟨-, h2⟩ := takeWhile_append_digits m rest hdig hrest
  have hstart : startsMinor ('_' :: (m ++ rest)) = true := by
    cases m with
    | nil => exact absurd rfl hm
    | cons d m2 =>
      have hd := hdig d (List.mem_cons_self _ _)
      simp [startsMinor, headIsDigit, hd]
  simp only [skipMinor, hstart, if_true, List.drop_succ_cons, List.drop_zero, h2]

/-- The four forms of a release suffix on the characters of the texts. -/
theorem replaceAll_four_forms (p n m : List Char) (hp : hasMatch p = false)
    (hn : n ≠ []) (hnd : ∀ x ∈ n, x.isDigit = true)
    (hm : m ≠ []) (hmd : ∀ x ∈ m, x.isDigit = true) :
    replaceAll (p ++ '.' :: 'e' :: 'l' :: (n ++ '_' :: (m ++ centosLit))) =
        p ++ '.' :: 'e' :: 'l' :: n ∧
    replaceAll (p ++ '.' :: 'e' :: 'l' :: (n ++ centosLit)) = p ++ '.' :: 'e' :: 'l' :: n ∧
    replaceAll (p ++ '.' :: 'e' :: 'l' :: (n ++ '_' :: (m ++ []))) =
        p ++ '.' :: 'e' :: 'l' :: n ∧
    replaceAll (p ++ '.' :: 'e' :: 'l' :: (n ++ [])) = p ++ '.' :: 'e' :: 'l' :: n := by
  have hc : skipCentos centosLit = [] := by decide
  refine ⟨?_, ?_, ?_, ?_⟩
  · rw [replaceAll_append_noMatch p _ hp, replaceAll_release n _ hn hnd (by rfl)]
    rw [skipMinor_minor m centosLit hm hmd (by rfl), hc]
  · rw [replaceAll_append_noMatch p _ hp, replaceAll_release n _ hn hnd (by rfl)]
    have : skipMinor centosLit = centosLit := by decide
    rw [this, hc]
  · rw [replaceAll_append_noMatch p _ hp, replaceAll_release n _ hn hnd (by rfl)]
    rw [skipMinor_minor m [] hm hmd (by rfl)]
    rfl
  · rw [replaceAll_append_noMatch p _ hp, replaceAll_release n _ hn hnd (by rfl)]
    rfl

/-- For RedHat and CentOS `lessThan` reads the installed version only through
its normal form. -/
theorem lessThan_of_same_normal_form (deps : Deps) (family a b : String) (q : Package)
    (hfam : family = RedHat ∨ family = CentOS)
    (h : centOSVersionToRHEL a = centOSVersionToRHEL b) :
    lessThan deps family a q = lessThan deps family b q := by
  rcases hfam with rfl | rfl <;> simp [lessThan, RedHat, CentOS, Debian, Ubuntu, Raspbian,
    Alpine, Oracle, SUSEEnterpriseServer, Amazon, h]

/-- C11: for a text `p` without a match of the release-suffix pattern and
non-empty texts of digits `N` and `M`, `centOSVersionToRHEL` maps each of
`p.elN_M.centos`, `p.elN.centos`, `p.elN_M` and `p.elN` to `p.elN`, so that for
RedHat and CentOS `lessThan` gives the same answer on the CentOS rebuild text as
on the RHEL text. -/
theorem centOSVersionToRHEL_release_forms (p N M : String)
    (hp : hasMatch p.data = false)
    (hN : N.data ≠ []) (hNd : ∀ x ∈ N.data, x.isDigit = true)
    (hM : M.data ≠ []) (hMd : ∀ x ∈ M.data, x.isDigit = true) :
    centOSVersionToRHEL (p ++ ".el" ++ N ++ "_" ++ M ++ ".centos") = p ++ ".el" ++ N ∧
    centOSVersionToRHEL (p ++ ".el" ++ N ++ ".centos") = p ++ ".el" ++ N ∧
    centOSVersionToRHEL (p ++ ".el" ++ N ++ "_" ++ M) = p ++ ".el" ++ N ∧
    centOSVersionToRHEL (p ++ ".el" ++ N) = p ++ ".el" ++ N ∧
    ∀ (deps : Deps) (family : String) (q : Package), family = RedHat ∨ family = CentOS →
      lessThan deps family (p ++ ".el" ++ N ++ "_" ++ M ++ ".centos") q =
        lessThan deps family (p ++ ".el" ++ N) q := by
  obtain ⟨h1, h2, h3, h4⟩ := replaceAll_four_forms p.data N.data M.data hp hN hNd hM hMd
  have e1 : centOSVersionToRHEL (p ++ ".el" ++ N ++ "_" ++ M ++ ".centos") = p ++ ".el" ++ N := by
    apply String.ext
    simp only [centOSVersionToRHEL, String.data_append]
    simpa [centosLit] using h1
  have e2 : centOSVersionToRHEL (p ++ ".el" ++ N ++ ".centos") = p ++ ".el" ++ N := by
    apply String.ext
    simp only [centOSVersionToRHEL, String.data_append]
    simpa [centosLit] using h2
  have e3 : centOSVersionToRHEL (p ++ ".el" ++ N ++ "_" ++ M) = p ++ ".el" ++ N := by
    apply String.ext
    simp only [centOSVersionToRHEL, String.data_append]
    simpa using h3
  have e4 : centOSVersionToRHEL (p ++ ".el" ++ N) = p ++ ".el" ++ N := by
    apply String.ext
    simp only [centOSVersionToRHEL, String.data_append]
    simpa using h4
  exact ⟨e1, e2, e3, e4, fun deps family q hfam =>
    lessThan_of_same_normal_form deps family _ _ q hfam (e1.trans e4.symm)⟩

/-- The forms of C11 on the version 1.2-3 at release 8, minor release 4. -/
theorem centOSVersionToRHEL_release_forms_witness :
    centOSVersionToRHEL ("1.2-3" ++ ".el" ++ "8" ++ "_" ++ "4" ++ ".centos") =
        "1.2-3" ++ ".el" ++ "8" ∧
    centOSVersionToRHEL "1.2-3.el8_4.centos" = "1.2-3.el8" ∧
    centOSVersionToRHEL "1.2-3.el8" = "1.2-3.el8" :=
  ⟨(centOSVersionToRHEL_release_forms "1.2-3" "8" "4" (by decide) (by decide) (by decide)
      (by decide) (by decide)).1, by decide, by decide⟩

/-- C12, as the code has it: for a definition with a non-empty identifier, after
two calls of `upsert` for that definition and one package name, the status that
the first entry of the identifier stores for the package is the status of the
second call, whatever the two statuses are. -/
theorem upsert_last_wins (e : ovalResult) (d : Definition) (p : String) (s1 s2 : fixStat)
    (hid : d.DefinitionID ≠ "") :
    ∃ x, firstEntry (upsert (upsert e d p s1).2 d p s2).2.entries d.DefinitionID = some x ∧
      mapGet x.binpkgFixstat p = some s2 :=
  upsert_first_holds (upsert e d p s1).2 d p s2 hid

/-- An explicit fixed version upserted after a not-fixed-yet status is the one
stored. -/
theorem upsert_last_wins_witness :
    ∃ x, firstEntry (upsert (upsert ⟨[]⟩ ⟨"RHSA-2021:1585", "glibc", []⟩ "glibc"
          ⟨true, "", false, ""⟩).2
        ⟨"RHSA-2021:1585", "glibc", []⟩ "glibc" ⟨false, "2.28-155.el8", false, ""⟩).2.entries
        "RHSA-2021:1585" = some x ∧
      mapGet x.binpkgFixstat "glibc" = some ⟨false, "2.28-155.el8", false, ""⟩ :=
  upsert_last_wins ⟨[]⟩ ⟨"RHSA-2021:1585", "glibc", []⟩ "glibc"
    ⟨true, "", false, ""⟩ ⟨false, "2.28-155.el8", false, ""⟩ (by decide)

/-- C12 fails as stated: when the status with the explicit fixed version is
upserted first and the not-fixed-yet status second, the entry stores the
not-fixed-yet status. -/
theorem upsert_unfixed_overwrites_fixed :
    (upsert (upsert ⟨[]⟩ ⟨"RHSA-2021:1585", "glibc", []⟩ "glibc"
        ⟨false, "2.28-155.el8", false, ""⟩).2
      ⟨"RHSA-2021:1585", "glibc", []⟩ "glibc" ⟨true, "", false, ""⟩).2 =
    ⟨[⟨⟨"RHSA-2021:1585", "glibc", []⟩, [("glibc", ⟨true, "", false, ""⟩)]⟩]⟩ := by
  decide

/-- C20: every request that `getDefsByPackNameViaHTTP` builds for a binary
package has newVersionRelease equal to versionRelease; so for CentOS, Oracle and
Alpine, such a request with a non-empty installed version, and a definition
whose first applicable record is not flagged NotFixedYet and lies above the
installed version, `isOvalDefAffected` returns affected, notFixedYet true, and
the version of the record. -/
theorem viaHTTP_candidate_is_installed (deps : Deps) (r : models.ScanResult)
    (d : Definition) (req : request) (family : String) (running : Kernel)
    (enabledMods : List String) (p : Package)
    (hreq : req ∈ viaHTTPRequests r)
    (hbin : req.isSrcPack = false)
    (hver : req.versionRelease ≠ "")
    (hfam : family = CentOS ∨ family = Oracle ∨ family = Alpine)
    (hfirst : d.AffectedPacks.find? (passesChecks deps req family running enabledMods) = some p)
    (hnfy : p.NotFixedYet = false)
    (hless : lessThan deps family req.versionRelease p = .ok true) :
    req.newVersionRelease = req.versionRelease ∧
    isOvalDefAffected deps d req family running enabledMods = (true, true, p.Version) := by
  have hnew : req.newVersionRelease = req.versionRelease := by
    simp only [viaHTTPRequests, List.mem_append, List.mem_map] at hreq
    rcases hreq with ⟨pack, -, rfl⟩ | ⟨pack, -, rfl⟩
    · rfl
    · simp at hbin
  refine ⟨hnew, ?_⟩
  obtain ⟨rest, hrest⟩ := loop_reaches_first deps _ p req family running enabledMods hfirst
  have hp := passes_of_find deps _ p req family running enabledMods hfirst
  rw [isOvalDefAffected, hrest, loop_cons_pass deps p rest req family running enabledMods hp]
  have hfam2 : ¬ (family = RedHat ∨ family = Amazon ∨ family = SUSEEnterpriseServer ∨
      family = Debian ∨ family = Ubuntu ∨ family = Raspbian) := by
    rcases hfam with rfl | rfl | rfl <;> decide
  have hne : ¬ req.newVersionRelease = "" := by rw [hnew]; exact hver
  simp only [hnfy, hless, hbin, hfam2, hne, if_true, if_false, Bool.false_eq_true]
  rw [hnew, hless]

/-- A CentOS host with openssl 1.2-3.el8 whose update 1.2-5.el8 is known to the
scan: the request of the HTTP strategy carries the installed version as
candidate, and the record at 1.2-4.el8 is reported as not fixed yet. -/
theorem viaHTTP_candidate_is_installed_witness :
    (⟨"openssl", "1.2-3.el8", "1.2-3.el8", "x86_64", [], false, ""⟩ : request).newVersionRelease
      = "1.2-3.el8" ∧
    isOvalDefAffected sampleDeps
      ⟨"RHSA-2021:0001", "openssl", [⟨"openssl", "1.2-4.el8", "", false, ""⟩]⟩
      ⟨"openssl", "1.2-3.el8", "1.2-3.el8", "x86_64", [], false, ""⟩
      "centos" ⟨"4.18.0-240.el8.x86_64", "", false⟩ [] = (true, true, "1.2-4.el8") :=
  viaHTTP_candidate_is_installed sampleDeps
    sampleCentOSHost
    ⟨"RHSA-2021:0001", "openssl", [⟨"openssl", "1.2-4.el8", "", false, ""⟩]⟩
    ⟨"openssl", "1.2-3.el8", "1.2-3.el8", "x86_64", [], false, ""⟩
    "centos" ⟨"4.18.0-240.el8.x86_64", "", false⟩ [] ⟨"openssl", "1.2-4.el8", "", false, ""⟩
    (by decide) rfl (by decide) (Or.inl rfl) (by decide) rfl rfl

/-! ## Claims on the two fetch strategies and on `httpGet` -/

/-- The collector loop on as many events as it has turns, none of them the
deadline: the responses are aggregated, the errors are counted. -/
theorem collectLoop_messages (deps : Deps) (r : models.ScanResult) (events : List event) :
    ∀ (n : Nat) (rel : ovalResult) (errs : List String), events.length = n →
      (∀ e ∈ events, e ≠ event.timeout) →
      collectLoop deps r n events rel errs =
        ((responsesOf events).foldl (collectResponse deps r) rel,
          if errs ++ errorsOf events = [] then none
          else some (fetchError.failed (errs ++ errorsOf events).length)) := by
  induction events with
  | nil =>
    intro n rel errs hn _
    subst hn
    cases errs <;> simp [collectLoop, responsesOf, errorsOf]
  | cons e es ih =>
    intro n rel errs hn hno
    subst hn
    have hno2 : ∀ x ∈ es, x ≠ event.timeout := fun x hx => hno x (List.mem_cons_of_mem _ hx)
    cases e with
    | res x =>
      simp only [List.length_cons, collectLoop, responsesOf, errorsOf, List.foldl_cons]
      exact ih _ _ _ rfl hno2
    | err m =>
      simp only [List.length_cons, collectLoop, responsesOf, errorsOf]
      rw [ih _ _ _ rfl hno2, List.append_assoc]
      rfl
    | timeout => exact absurd rfl (hno _ (List.mem_cons_self _ _))

theorem mem_errorsOf (events : List event) (m : String) :
    m ∈ errorsOf events ↔ event.err m ∈ events := by
  induction events with
  | nil => simp [errorsOf]
  | cons e es ih =>
    cases e <;> simp [errorsOf, ih]

/-- On the messages of the workers, as many as there are requests and the
deadline not firing, `getDefsByPackNameViaHTTP` returns an error exactly when
one of the messages is an error; that error keeps the number of the errors
received, whatever their texts; and the aggregation returned is the aggregation
of the responses alone. -/
theorem getDefsByPackNameViaHTTP_collects (deps : Deps) (r : models.ScanResult)
    (events : List event)
    (hlen : events.length = r.Packages.length + r.SrcPackages.length)
    (hno : ∀ e ∈ events, e ≠ event.timeout) :
    ((getDefsByPackNameViaHTTP deps r events).2 ≠ none ↔ ∃ m, event.err m ∈ events) ∧
    ((∃ m, event.err m ∈ events) →
      (getDefsByPackNameViaHTTP deps r events).2 =
        some (fetchError.failed (errorsOf events).length)) ∧
    (getDefsByPackNameViaHTTP deps r events).1 = aggregate deps r (responsesOf events) := by
  have h := collectLoop_messages deps r events _ ⟨[]⟩ [] hlen hno
  have hex : (∃ m, event.err m ∈ events) ↔ errorsOf events ≠ [] := by
    constructor
    · rintro ⟨m, hm⟩ hnil
      have := (mem_errorsOf events m).2 hm
      rw [hnil] at this
      cases this
    · intro hne
      cases hl : errorsOf events with
      | nil => exact absurd hl hne
      | cons m ms =>
        exact ⟨m, (mem_errorsOf events m).1 (by rw [hl]; exact List.mem_cons_self _ _)⟩
  simp only [getDefsByPackNameViaHTTP, h, List.nil_append, aggregate]
  refine ⟨?_, ?_, trivial⟩
  · rw [hex]
    by_cases hn : errorsOf events = [] <;> simp [hn]
  · intro hm
    have hn := hex.1 hm
    simp [hn]

/-- C14 fails on the code: a RedHat host with the packages openssl and glibc,
the query for openssl answered with one definition, the query for glibc ended by
an error. Whether that error is the one of the exhausted retries or the one of
a body that does not decode, `getDefsByPackNameViaHTTP` returns the aggregation
of the response for openssl and the same error, which keeps that one error was
received and not its text. -/
theorem getDefsByPackNameViaHTTP_drops_messages :
    getDefsByPackNameViaHTTP sampleDeps sampleRedHatHost
        [event.res ⟨⟨"openssl", "1.2-3.el8", "1.2-3.el8", "x86_64", [], false, ""⟩,
            [⟨"RHSA-2021:0001", "openssl", [⟨"openssl", "1.2-4.el8", "", false, ""⟩]⟩]⟩,
          event.err "HRetry count exceeded"] =
      (⟨[⟨⟨"RHSA-2021:0001", "openssl", [⟨"openssl", "1.2-4.el8", "", false, ""⟩]⟩,
          [("openssl", ⟨false, "1.2-4.el8", false, ""⟩)]⟩]⟩,
        some (fetchError.failed 1)) ∧
    getDefsByPackNameViaHTTP sampleDeps sampleRedHatHost
        [event.res ⟨⟨"openssl", "1.2-3.el8", "1.2-3.el8", "x86_64", [], false, ""⟩,
            [⟨"RHSA-2021:0001", "openssl", [⟨"openssl", "1.2-4.el8", "", false, ""⟩]⟩]⟩,
          event.err "Failed to Unmarshal. body: oops, err: invalid character"] =
      (⟨[⟨⟨"RHSA-2021:0001", "openssl", [⟨"openssl", "1.2-4.el8", "", false, ""⟩]⟩,
          [("openssl", ⟨false, "1.2-4.el8", false, ""⟩)]⟩]⟩,
        some (fetchError.failed 1)) := by
  refine ⟨by decide, by decide⟩

/-- C13 fails on the code: a CentOS host with openssl 1.2-3.el8 installed and
the update 1.2-5.el8 known, both sources returning one definition that fixes
openssl in 1.2-4.el8. The two strategies return no error; the HTTP strategy
stores notFixedYet true for openssl, the local-database strategy stores
false. -/
theorem strategies_differ :
    getDefsByPackNameViaHTTP sampleDeps
      sampleCentOSHost
      ((viaHTTPRequests sampleCentOSHost).map
        (fun req => event.res ⟨req,
          [⟨"RHSA-2021:0001", "openssl", [⟨"openssl", "1.2-4.el8", "", false, ""⟩]⟩]⟩)) =
      (⟨[⟨⟨"RHSA-2021:0001", "openssl", [⟨"openssl", "1.2-4.el8", "", false, ""⟩]⟩,
          [("openssl", ⟨true, "1.2-4.el8", false, ""⟩)]⟩]⟩, none) ∧
    getDefsByPackNameFromOvalDB sampleDeps
      (fun _ _ _ _ =>
        .ok [⟨"RHSA-2021:0001", "openssl", [⟨"openssl", "1.2-4.el8", "", false, ""⟩]⟩])
      sampleCentOSHost =
      (⟨[⟨⟨"RHSA-2021:0001", "openssl", [⟨"openssl", "1.2-4.el8", "", false, ""⟩]⟩,
          [("openssl", ⟨false, "1.2-4.el8", false, ""⟩)]⟩]⟩, none) := by
  refine ⟨by decide, by decide⟩

/-- C15: with a backoff policy that allows three calls, `httpGet` makes at most
three attempts and sends one message. When an attempt among the first three
succeeds after failures only, it is the last attempt made, and the message is
the response with the request and the decoded definitions, or the error of the
decoding. When the first three attempts fail, the message is the error of the
exhausted retries. -/
theorem httpGet_spec (Unmarshal : String → Except String (List Definition))
    (outcome : Nat → getOutcome) (patience : Nat) (req : request) (hp : 3 ≤ patience) :
    (httpGet Unmarshal outcome patience req).2 ≤ 3 ∧
    (httpGet Unmarshal outcome patience req).1.length = 1 ∧
    (∀ i, i < 3 → (∀ j, j < i → getFailed (outcome j) = true) →
      getFailed (outcome i) = false →
      (httpGet Unmarshal outcome patience req).2 = i + 1 ∧
      (httpGet Unmarshal outcome patience req).1 =
        [match Unmarshal (outcome i).body with
          | .ok defs => event.res ⟨req, defs⟩
          | .error err => event.err ("Failed to Unmarshal. body: " ++ (outcome i).body ++
              ", err: " ++ err)]) ∧
    ((∀ j, j < 3 → getFailed (outcome j) = true) →
      (httpGet Unmarshal outcome patience req).2 = 3 ∧
      (httpGet Unmarshal outcome patience req).1 = [event.err "HRetry count exceeded"]) := by
  obtain ⟨k, rfl⟩ : ∃ k, patience = k + 3 := ⟨patience - 3, by omega⟩
  by_cases h0 : getFailed (outcome 0) = true
  · by_cases h1 : getFailed (outcome 1) = true
    · by_cases h2 : getFailed (outcome 2) = true
      · refine ⟨?_, ?_, ?_, ?_⟩
        · simp [httpGet, retryNotify, h0, h1, h2]
        · simp [httpGet, retryNotify, h0, h1, h2]
        · intro i hi _ hok
          interval_cases i <;> simp_all
        · intro _
          simp [httpGet, retryNotify, h0, h1, h2]
      · have hh : (httpGet Unmarshal outcome (k + 3) req) =
            ([match Unmarshal (outcome 2).body with
              | .ok defs => event.res ⟨req, defs⟩
              | .error err => event.err ("Failed to Unmarshal. body: " ++ (outcome 2).body ++
                  ", err: " ++ err)], 3) := by
          simp only [httpGet, retryNotify, h0, h1, h2]
          cases hu : Unmarshal (outcome 2).body <;> simp [hu]
        rw [hh]
        refine ⟨le_refl _, rfl, ?_, ?_⟩
        · intro i hi hprev hok
          interval_cases i
          · simp_all
          · simp_all
          · exact ⟨rfl, rfl⟩
        · intro hall
          exact absurd (hall 2 (by omega)) h2
    · have hh : (httpGet Unmarshal outcome (k + 3) req) =
          ([match Unmarshal (outcome 1).body with
            | .ok defs => event.res ⟨req, defs⟩
            | .error err => event.err ("Failed to Unmarshal. body: " ++ (outcome 1).body ++
                ", err: " ++ err)], 2) := by
        simp only [httpGet, retryNotify, h0, h1]
        cases hu : Unmarshal (outcome 1).body <;> simp [hu]
      rw [hh]
      refine ⟨by omega, rfl, ?_, ?_⟩
      · intro i hi hprev hok
        interval_cases i
        · simp_all
        · exact ⟨rfl, rfl⟩
        · exact absurd (hprev 1 (by omega)) h1
      · intro hall
        exact absurd (hall 1 (by omega)) h1
  · have hh : (httpGet Unmarshal outcome (k + 3) req) =
        ([match Unmarshal (outcome 0).body with
          | .ok defs => event.res ⟨req, defs⟩
          | .error err => event.err ("Failed to Unmarshal. body: " ++ (outcome 0).body ++
              ", err: " ++ err)], 1) := by
      simp only [httpGet, retryNotify, h0]
      cases hu : Unmarshal (outcome 0).body <;> simp [hu]
    rw [hh]
    refine ⟨by omega, rfl, ?_, ?_⟩
    · intro i hi hprev hok
      interval_cases i
      · exact ⟨rfl, rfl⟩
      · exact absurd (hprev 0 (by omega)) h0
      · exact absurd (hprev 0 (by omega)) h0
    · intro hall
      exact absurd (hall 0 (by omega)) h0

/-- A first attempt that times out, a second that is answered with status 200
and a body that decodes to one definition: two attempts, one response. -/
theorem httpGet_spec_witness :
    httpGet (fun b => if b = "[d]" then .ok [⟨"RHSA-2021:0001", "openssl", []⟩]
        else .error "invalid character")
      (fun i => if i = 0 then ⟨["timeout"], none, ""⟩ else ⟨[], some 200, "[d]"⟩) 3
      ⟨"openssl", "1.2-3.el8", "1.2-3.el8", "x86_64", [], false, ""⟩ =
    ([event.res ⟨⟨"openssl", "1.2-3.el8", "1.2-3.el8", "x86_64", [], false, ""⟩,
        [⟨"RHSA-2021:0001", "openssl", []⟩]⟩], 2) ∧
    (httpGet (fun b => if b = "[d]" then .ok [⟨"RHSA-2021:0001", "openssl", []⟩]
        else .error "invalid character")
      (fun i => if i = 0 then ⟨["timeout"], none, ""⟩ else ⟨[], some 200, "[d]"⟩) 3
      ⟨"openssl", "1.2-3.el8", "1.2-3.el8", "x86_64", [], false, ""⟩).1.length = 1 :=
  ⟨by decide,
    (httpGet_spec (fun b => if b = "[d]" then .ok [⟨"RHSA-2021:0001", "openssl", []⟩]
        else .error "invalid character")
      (fun i => if i = 0 then ⟨["timeout"], none, ""⟩ else ⟨[], some 200, "[d]"⟩) 3
      ⟨"openssl", "1.2-3.el8", "1.2-3.el8", "x86_64", [], false, ""⟩ (le_refl _)).2.1⟩

end Oval

namespace Detector

open Oval

/-! ## Claims on `DetectPkgCves` and `Detect` -/

/-- C16: on a scan result with an empty release `DetectPkgCves` returns an error
exactly when the result is neither reused as it is nor of the pseudo family, and
it runs no detection; on a scan result with a release it runs the OVAL
detection first, runs the gost detection exactly when the OVAL detection
succeeds, and returns an error exactly when one of the two fails. -/
theorem DetectPkgCves_release (env : pkgEnv) (r : models.ScanResult) :
    (r.Release = "" →
      ((DetectPkgCves env r).err ≠ none ↔
        (env.reuseScannedCves r = false ∧ r.Family ≠ ServerTypePseudo)) ∧
      (DetectPkgCves env r).ran = []) ∧
    (r.Release ≠ "" →
      ((detectPkgsCvesWithOval env.oval r).2 ≠ none →
        (DetectPkgCves env r).ran = [detection.oval] ∧ (DetectPkgCves env r).err ≠ none) ∧
      ((detectPkgsCvesWithOval env.oval r).2 = none →
        (DetectPkgCves env r).ran = [detection.oval, detection.gost] ∧
        ((DetectPkgCves env r).err ≠ none ↔
          (detectPkgsCvesWithGost env (detectPkgsCvesWithOval env.oval r).1).2 ≠ none))) := by
  constructor
  · intro hrel
    by_cases hreuse : env.reuseScannedCves r = true
    · simp [DetectPkgCves, hrel, hreuse]
    · by_cases hfam : r.Family = ServerTypePseudo
      · simp [DetectPkgCves, hrel, hreuse, hfam]
      · simp [DetectPkgCves, hrel, hreuse, hfam]
  · intro hrel
    constructor
    · intro hoval
      rcases ho : detectPkgsCvesWithOval env.oval r with ⟨r1, e1⟩
      rw [ho] at hoval
      cases e1 with
      | none => exact absurd rfl hoval
      | some err => simp [DetectPkgCves, hrel, ho]
    · intro hoval
      rcases ho : detectPkgsCvesWithOval env.oval r with ⟨r1, e1⟩
      rw [ho] at hoval
      cases e1 with
      | some err => cases hoval
      | none =>
        rcases hg : detectPkgsCvesWithGost env r1 with ⟨r2, e2⟩
        cases e2 <;> simp [DetectPkgCves, hrel, ho, hg]

/-- A pseudo host without a release is skipped without an error and without a
detection; a host of an unknown family without a release is an error. -/
theorem DetectPkgCves_release_witness :
    (DetectPkgCves samplePkgEnv { ServerName := "web01", Family := "pseudo" }).err = none ∧
    (DetectPkgCves samplePkgEnv { ServerName := "web01", Family := "pseudo" }).ran = [] ∧
    (DetectPkgCves samplePkgEnv { ServerName := "web01", Family := "centos" }).err ≠ none :=
  ⟨by decide,
    ((DetectPkgCves_release samplePkgEnv { ServerName := "web01", Family := "pseudo" }).1 rfl).2,
    by decide⟩

/-- The first loop of `Detect` stops with the error of the first scan result on
which a step fails. -/
theorem detectLoop_error (env : detectEnv) (pre post out : List models.ScanResult)
    (r : models.ScanResult) (e : String)
    (hpre : detectLoop env pre = .ok out)
    (hneed : (!env.Conf.RefreshCve && !env.needToRefreshCve r) = false)
    (hfail : detectResult env r = .error e) :
    detectLoop env (pre ++ r :: post) = .error e := by
  induction pre generalizing out with
  | nil => simp [detectLoop, hneed, hfail]
  | cons x xs ih =>
    rw [detectLoop] at hpre
    rw [List.cons_append, detectLoop]
    by_cases hskip : (!env.Conf.RefreshCve && !env.needToRefreshCve x) = true
    · rw [if_pos hskip] at hpre ⊢
      cases hx : detectLoop env xs with
      | error err => simp [hx] at hpre
      | ok o => rw [ih o hx]
    · rw [if_neg hskip] at hpre ⊢
      cases hd : detectResult env x with
      | error err => simp [hd] at hpre
      | ok x1 =>
        cases hx : detectLoop env xs with
        | error err => simp [hd, hx] at hpre
        | ok o => simp only [ih o hx]

/-- C18, as the code has it: when the steps succeed on the scan results before
one scan result of the batch and a step fails on that one, `Detect` returns the
error of that step and no scan result at all, whatever scan results follow. -/
theorem Detect_aborts_batch (env : detectEnv) (pre post out : List models.ScanResult)
    (r : models.ScanResult) (e : String)
    (hpre : detectLoop env pre = .ok out)
    (hneed : (!env.Conf.RefreshCve && !env.needToRefreshCve r) = false)
    (hfail : detectResult env r = .error e) :
    Detect env (pre ++ r :: post) = .error e := by
  simp only [Detect, detectLoop_error env pre post out r e hpre hneed hfail]

/-- A batch of three hosts in which the library detection fails on the second:
`Detect` returns the error. -/
theorem Detect_aborts_batch_witness :
    Detect sampleDetectEnv
      ([{ ServerName := "web01", Family := "pseudo" }] ++
        { ServerName := "web02", Family := "pseudo" } ::
        [{ ServerName := "web03", Family := "pseudo" }]) =
      .error "Failed to fill with Library dependency: trivy DB is not found" :=
  Detect_aborts_batch sampleDetectEnv [{ ServerName := "web01", Family := "pseudo" }]
    [{ ServerName := "web03", Family := "pseudo" }]
    [{ ServerName := "web01", Family := "pseudo", ReportedBy := "reporter",
       ReportedAt := 1620000000, ReportedVersion := "v0.15.9", ReportedRevision := "build-1" }]
    { ServerName := "web02", Family := "pseudo" }
    "Failed to fill with Library dependency: trivy DB is not found" rfl rfl rfl

/-- C18 fails as stated: in a batch of three hosts the library detection fails on
the second host only; processed alone, the first and the third host are
returned, but on the batch `Detect` returns the error and none of them. -/
theorem Detect_returns_no_result :
    Detect sampleDetectEnv [{ ServerName := "web01", Family := "pseudo" }] =
      .ok [{ ServerName := "web01", Family := "pseudo", ReportedBy := "reporter",
             ReportedAt := 1620000000, ReportedVersion := "v0.15.9",
             ReportedRevision := "build-1" }] ∧
    Detect sampleDetectEnv [{ ServerName := "web03", Family := "pseudo" }] =
      .ok [{ ServerName := "web03", Family := "pseudo", ReportedBy := "reporter",
             ReportedAt := 1620000000, ReportedVersion := "v0.15.9",
             ReportedRevision := "build-1" }] ∧
    Detect sampleDetectEnv
      [{ ServerName := "web01", Family := "pseudo" }, { ServerName := "web02", Family := "pseudo" },
        { ServerName := "web03", Family := "pseudo" }] =
      .error "Failed to fill with Library dependency: trivy DB is not found" := by
  refine ⟨rfl, rfl, rfl⟩

/-! ## Claims on the enrichment and on the CPE detection -/

theorem goMapGet_goMapSet {α : Type} (m : List (String × α)) (k n : String) (v : α) :
    goMapGet (goMapSet m k v) n = if k = n then some v else goMapGet m n := by
  induction m with
  | nil => simp [goMapSet, goMapGet]
  | cons a t ih =>
    obtain ⟨k0, v0⟩ := a
    by_cases h : k0 = k
    · subst h
      by_cases hn : k0 = n <;> simp [goMapSet, goMapGet, hn]
    · by_cases hn : k0 = n
      · subst hn
        have h2 : ¬ k = k0 := fun hk => h hk.symm
        simp [goMapSet, goMapGet, h, h2]
      · simp [goMapSet, goMapGet, h, hn, ih]

theorem enriched_refl (env : cveEnv) (ds : List CveDetail) (v : models.VulnInfo) :
    enriched env ds v v :=
  ⟨rfl, rfl, rfl, rfl, rfl, rfl, List.prefix_refl _, List.prefix_refl _, fun _ _ => rfl,
    Or.inl rfl, fun _ => rfl⟩

/-- The contents are written at the types of the converted contents only. -/
theorem setContents_frame (env : cveEnv) (d : CveDetail)
    (m : List (String × models.CveContent)) (k : String) (hk : k ∉ contentTypes env d) :
    goMapGet (setContents env m
      [(env.ConvertNvdJSONToModel d.CveID d.NvdJSON).1, env.ConvertJvnToModel d.CveID d.Jvn]) k =
      goMapGet m k := by
  simp only [contentTypes] at hk
  simp only [setContents, List.foldl]
  cases h1 : (env.ConvertNvdJSONToModel d.CveID d.NvdJSON).1 with
  | none =>
    cases h2 : env.ConvertJvnToModel d.CveID d.Jvn with
    | none => rfl
    | some c2 =>
      have hc2 : ¬ c2.Type_ = k := by
        intro h
        apply hk
        simp [h1, h2, h]
      by_cases he : env.Empty c2 = true <;> simp [he, goMapGet_goMapSet, hc2]
  | some c1 =>
    have hc1 : ¬ c1.Type_ = k := by
      intro h
      apply hk
      simp [h1, h]
    cases h2 : env.ConvertJvnToModel d.CveID d.Jvn with
    | none =>
      by_cases he : env.Empty c1 = true <;> simp [he, goMapGet_goMapSet, hc1]
    | some c2 =>
      have hc2 : ¬ c2.Type_ = k := by
        intro h
        apply hk
        simp [h1, h2, h]
      by_cases he1 : env.Empty c1 = true <;> by_cases he2 : env.Empty c2 = true <;>
        simp [he1, he2, goMapGet_goMapSet, hc1, hc2]

/-- The enrichment by one more detail of the identifier. -/
theorem enriched_step (env : cveEnv) (ds : List CveDetail) (v v1 : models.VulnInfo)
    (d : CveDetail) (h : enriched env ds v v1) (hd : d ∈ ds) (hid : v1.CveID = d.CveID) :
    enriched env ds v (enrich env d v1) := by
  obtain ⟨h1, h2, h3, h4, h5, h6, h7, h8, h9, h10, -⟩ := h
  have hdv : d.CveID = v.CveID := by rw [← hid, h1]
  refine ⟨h1, h2, h3, h4, h5, h6, ?_, ?_, ?_, ?_, ?_⟩
  · exact h7.trans (List.prefix_append _ _)
  · exact h8.trans (List.prefix_append _ _)
  · intro k hk
    have := setContents_frame env d v1.CveContents k (hk d hd hdv)
    simp only [enrich]
    rw [this]
    exact h9 k hk
  · exact Or.inr ⟨d, hd, hdv, rfl⟩
  · intro hall
    exact absurd hdv (hall d hd)

/-- The loop over the map for one detail keeps the keys and enriches. -/
theorem fillDetail_enriched (env : cveEnv) (ds : List CveDetail) (d : CveDetail) (hd : d ∈ ds)
    (l0 l : List (String × models.VulnInfo))
    (h : List.Forall₂ (fun kv kv2 => kv2.1 = kv.1 ∧ enriched env ds kv.2 kv2.2) l0 l) :
    List.Forall₂ (fun kv kv2 => kv2.1 = kv.1 ∧ enriched env ds kv.2 kv2.2) l0
      (fillDetail env d l) := by
  induction h with
  | nil => exact List.Forall₂.nil
  | @cons a b l0 l hab _ ih =>
    obtain ⟨k, v⟩ := b
    simp only [fillDetail]
    split
    · rename_i hid
      exact List.Forall₂.cons ⟨hab.1, enriched_step env ds a.2 v d hab.2 hd hid⟩ ‹_›
    · exact List.Forall₂.cons hab ih

theorem fillDetails_enriched (env : cveEnv) (ds sub : List CveDetail)
    (hsub : ∀ d ∈ sub, d ∈ ds) (l0 : List (String × models.VulnInfo)) :
    ∀ l : List (String × models.VulnInfo),
      List.Forall₂ (fun kv kv2 => kv2.1 = kv.1 ∧ enriched env ds kv.2 kv2.2) l0 l →
      List.Forall₂ (fun kv kv2 => kv2.1 = kv.1 ∧ enriched env ds kv.2 kv2.2) l0
        (sub.foldl (fun cves d => fillDetail env d cves) l) := by
  induction sub with
  | nil => intro l h; exact h
  | cons d sub ih =>
    intro l h
    exact ih (fun x hx => hsub x (List.mem_cons_of_mem _ hx)) _
      (fillDetail_enriched env ds d (hsub d (List.mem_cons_self _ _)) l0 l h)

/-- C19, as the code has it: when the fetch of the details fails,
`fillCvesWithNvdJvn` returns the error and leaves the scan result as it is. When
it succeeds, there is no error, only `ScannedCves` changes, its keys stay in
place, and every `VulnInfo` is enriched: contents written at the types of the
converted contents only, exploits and mitigations appended, the alerts replaced
by those of a fetched detail of the identifier, every other field kept, and
nothing changed when no fetched detail has the identifier. -/
theorem fillCvesWithNvdJvn_enriches (env : cveEnv) (r : models.ScanResult) :
    (∀ err, env.FetchCveDetails (r.ScannedCves.map (fun kv => kv.2.CveID)) = .error err →
      fillCvesWithNvdJvn env r = (r, some err)) ∧
    (∀ ds, env.FetchCveDetails (r.ScannedCves.map (fun kv => kv.2.CveID)) = .ok ds →
      (fillCvesWithNvdJvn env r).2 = none ∧
      (fillCvesWithNvdJvn env r).1 =
        { r with ScannedCves := (fillCvesWithNvdJvn env r).1.ScannedCves } ∧
      List.Forall₂ (fun kv kv2 => kv2.1 = kv.1 ∧ enriched env ds kv.2 kv2.2)
        r.ScannedCves (fillCvesWithNvdJvn env r).1.ScannedCves) := by
  constructor
  · intro err h
    simp [fillCvesWithNvdJvn, h]
  · intro ds h
    refine ⟨by simp [fillCvesWithNvdJvn, h], by simp [fillCvesWithNvdJvn, h], ?_⟩
    simp only [fillCvesWithNvdJvn, h]
    apply fillDetails_enriched env ds ds (fun d hd => hd)
    exact List.forall₂_same.2 (fun kv _ => ⟨rfl, enriched_refl env ds kv.2⟩)

/-- A `VulnInfo` found by a CPE name, enriched from a detail with an NVD record:
the CPE names and the confidences are kept, a content of type `nvd` is
written. -/
theorem fillCvesWithNvdJvn_enriches_witness :
    (fillCvesWithNvdJvn
      { sampleCveEnv with
        FetchCveDetails := fun _ =>
          .ok [{ CveID := "CVE-2021-3449", NvdJSON := some { Summary := "NULL pointer" } }] }
      { ServerName := "web01",
        ScannedCves := [("CVE-2021-3449",
          { CveID := "CVE-2021-3449", CpeURIs := ["cpe:/a:openssl:openssl:1.1.1"],
            Confidences := [models.CpeNameMatch] })] }).2 = none ∧
    (fillCvesWithNvdJvn
      { sampleCveEnv with
        FetchCveDetails := fun _ =>
          .ok [{ CveID := "CVE-2021-3449", NvdJSON := some { Summary := "NULL pointer" } }] }
      { ServerName := "web01",
        ScannedCves := [("CVE-2021-3449",
          { CveID := "CVE-2021-3449", CpeURIs := ["cpe:/a:openssl:openssl:1.1.1"],
            Confidences := [models.CpeNameMatch] })] }).1.ScannedCves =
      [("CVE-2021-3449",
        { CveID := "CVE-2021-3449", CpeURIs := ["cpe:/a:openssl:openssl:1.1.1"],
          Confidences := [models.CpeNameMatch],
          CveContents := [("nvd",
            { Type_ := "nvd", CveID := "CVE-2021-3449", Summary := "NULL pointer" })] })] :=
  ⟨((fillCvesWithNvdJvn_enriches
      { sampleCveEnv with
        FetchCveDetails := fun _ =>
          .ok [{ CveID := "CVE-2021-3449", NvdJSON := some { Summary := "NULL pointer" } }] }
      { ServerName := "web01",
        ScannedCves := [("CVE-2021-3449",
          { CveID := "CVE-2021-3449", CpeURIs := ["cpe:/a:openssl:openssl:1.1.1"],
            Confidences := [models.CpeNameMatch] })] }).2 _ rfl).1, by decide⟩

/-- C19 fails as stated: a `VulnInfo` whose alerts are populated loses them when
the fetched detail of its identifier has no alert, all other fields being
kept. -/
theorem fillCvesWithNvdJvn_overwrites_alerts :
    (fillCvesWithNvdJvn sampleCveEnv
      { ServerName := "web01",
        ScannedCves := [("CVE-2021-3449",
          { CveID := "CVE-2021-3449", CpeURIs := ["cpe:/a:openssl:openssl:1.1.1"],
            AlertDict := { En := [⟨"https://us-cert.cisa.gov/ncas/alerts/aa21-001a",
              "AA21-001A", "us"⟩] } })] }).1.ScannedCves =
      [("CVE-2021-3449",
        { CveID := "CVE-2021-3449", CpeURIs := ["cpe:/a:openssl:openssl:1.1.1"],
          AlertDict := { En := [] } })] := by
  decide

/-! ## Lemmas on `DetectCpeURIsCves` -/

theorem AppendIfMissing_extends (l : List String) (s : String) : l <+: AppendIfMissing l s := by
  unfold AppendIfMissing
  split
  · exact List.prefix_refl _
  · exact List.prefix_append _ _

theorem AppendIfMissing_mem (l : List String) (s : String) : s ∈ AppendIfMissing l s := by
  unfold AppendIfMissing
  split
  · assumption
  · simp

/-- `AppendIfMissing` adds no text that is there, and adds a text once. -/
theorem AppendIfMissing_count (l : List String) (s n : String) :
    (AppendIfMissing l s).count n = l.count n ∨
      (n ∉ l ∧ (AppendIfMissing l s).count n = 1) := by
  unfold AppendIfMissing
  split
  · exact Or.inl rfl
  · rename_i hs
    by_cases hn : n = s
    · subst hn
      right
      refine ⟨hs, ?_⟩
      rw [List.count_append, List.count_eq_zero_of_not_mem hs]
      simp
    · left
      have hsn : ¬ s = n := fun h => hn h.symm
      rw [List.count_append]
      simp [List.count_cons, hsn]

theorem AppendIfMissing_nodup (l : List String) (s : String) (h : l.Nodup) :
    (AppendIfMissing l s).Nodup := by
  unfold AppendIfMissing
  split
  · exact h
  · rename_i hs
    rw [List.nodup_append]
    refine ⟨h, List.nodup_singleton _, ?_⟩
    intro a ha hb
    rw [List.mem_singleton.1 hb] at ha
    exact hs ha

theorem ConfidencesAppendIfMissing_cases (cs : List models.Confidence) (c : models.Confidence) :
    (c ∈ cs ∧ ConfidencesAppendIfMissing cs c = cs) ∨
      (c ∉ cs ∧ ConfidencesAppendIfMissing cs c = cs ++ [c]) := by
  unfold ConfidencesAppendIfMissing
  by_cases h : c ∈ cs
  · exact Or.inl ⟨h, by simp [h]⟩
  · exact Or.inr ⟨h, by simp [h]⟩

theorem ConfidencesAppendIfMissing_mem (cs : List models.Confidence) (c : models.Confidence) :
    c ∈ ConfidencesAppendIfMissing cs c := by
  rcases ConfidencesAppendIfMissing_cases cs c with ⟨h, he⟩ | ⟨_, he⟩
  · rw [he]; exact h
  · rw [he]; simp

theorem grown_refl (v : models.VulnInfo) : grown v v :=
  ⟨rfl, List.prefix_refl _, Or.inl rfl, fun _ => Or.inl rfl⟩

/-- The update of a `VulnInfo` that is there keeps it grown. -/
theorem grown_step (v0 v : models.VulnInfo) (name : String) (h : grown v0 v) :
    grown v0 { v with
      CpeURIs := AppendIfMissing v.CpeURIs name
      Confidences := ConfidencesAppendIfMissing v.Confidences models.CpeNameMatch } := by
  obtain ⟨h1, h2, h3, h4⟩ := h
  refine ⟨?_, h2.trans (AppendIfMissing_extends _ _), ?_, ?_⟩
  · cases v0
    cases v
    simp only [models.VulnInfo.mk.injEq] at h1 ⊢
    simp_all
  · rcases ConfidencesAppendIfMissing_cases v.Confidences models.CpeNameMatch with
      ⟨hm, he⟩ | ⟨hm, he⟩
    · rcases h3 with h3 | ⟨hn, h3⟩
      · exact Or.inl (he.trans h3)
      · exact Or.inr ⟨hn, he.trans h3⟩
    · rcases h3 with h3 | ⟨hn, h3⟩
      · have hm0 : models.CpeNameMatch ∉ v0.Confidences := h3 ▸ hm
        exact Or.inr ⟨hm0, he.trans (by rw [h3])⟩
      · exact absurd (by rw [h3]; simp) hm
  · intro n
    show (AppendIfMissing v.CpeURIs name).count n = v0.CpeURIs.count n ∨
      (n ∉ v0.CpeURIs ∧ (AppendIfMissing v.CpeURIs name).count n = 1)
    rcases AppendIfMissing_count v.CpeURIs name n with hc | ⟨hn, hc⟩
    · rcases h4 n with h0 | ⟨hn0, h0⟩
      · left; rw [hc, h0]
      · right; exact ⟨hn0, by rw [hc, h0]⟩
    · rcases h4 n with h0 | ⟨hn0, h0⟩
      · right
        refine ⟨?_, hc⟩
        intro hmem
        have : v0.CpeURIs.count n = 0 := by
          rw [← h0]; exact List.count_eq_zero_of_not_mem hn
        exact absurd hmem (List.count_eq_zero.1 this)
      · have : v.CpeURIs.count n = 0 := List.count_eq_zero_of_not_mem hn
        omega

theorem fresh_new (id name : String) :
    fresh id { CveID := id, CpeURIs := [name], Confidences := [models.CpeNameMatch] } :=
  ⟨rfl, by simp, List.nodup_singleton _⟩

/-- The update of a fresh `VulnInfo` keeps it fresh. -/
theorem fresh_step (id : String) (v : models.VulnInfo) (name : String) (h : fresh id v) :
    fresh id { v with
      CpeURIs := AppendIfMissing v.CpeURIs name
      Confidences := ConfidencesAppendIfMissing v.Confidences models.CpeNameMatch } := by
  obtain ⟨h1, h2, h3⟩ := h
  have hc : v.Confidences = [models.CpeNameMatch] := by rw [h1]
  have hcc : ConfidencesAppendIfMissing v.Confidences models.CpeNameMatch =
      [models.CpeNameMatch] := by
    rw [hc]
    simp [ConfidencesAppendIfMissing]
  refine ⟨?_, ?_, AppendIfMissing_nodup _ _ h3⟩
  · rw [hcc]
    cases v
    simp only [models.VulnInfo.mk.injEq] at h1 ⊢
    simp_all
  · intro hnil
    have := AppendIfMissing_mem v.CpeURIs name
    simp only [] at hnil
    rw [hnil] at this
    cases this

/-- The map after the loop body of `DetectCpeURIsCves`. -/
theorem cpeDetail_get (name : String) (cves : List (String × models.VulnInfo))
    (detail : CveDetail) (id : String) :
    goMapGet (cpeDetail name cves detail) id =
      if detail.CveID = id then
        some (match goMapGet cves detail.CveID with
          | some val =>
            { val with
              CpeURIs := AppendIfMissing val.CpeURIs name
              Confidences := ConfidencesAppendIfMissing val.Confidences models.CpeNameMatch }
          | none =>
            { CveID := detail.CveID, CpeURIs := [name], Confidences := [models.CpeNameMatch] })
      else goMapGet cves id := by
  unfold cpeDetail
  cases goMapGet cves detail.CveID <;> simp only [goMapGet_goMapSet]

theorem cpeExtends_refl (cves : List (String × models.VulnInfo)) : cpeExtends cves cves := by
  intro id
  refine ⟨fun v0 h => ⟨v0, h, grown_refl v0⟩, fun h v hv => ?_⟩
  rw [h] at hv
  cases hv

theorem cpeExtends_step (cves0 cves : List (String × models.VulnInfo)) (name : String)
    (detail : CveDetail) (h : cpeExtends cves0 cves) :
    cpeExtends cves0 (cpeDetail name cves detail) := by
  intro id
  by_cases hid : detail.CveID = id
  · subst hid
    rw [cpeDetail_get, if_pos rfl]
    constructor
    · intro v0 hv0
      obtain ⟨v, hv, hg⟩ := (h detail.CveID).1 v0 hv0
      rw [hv]
      exact ⟨_, rfl, grown_step v0 v name hg⟩
    · intro hnone v2 hv2
      cases hc : goMapGet cves detail.CveID with
      | none =>
        rw [hc] at hv2
        simp only [Option.some.injEq] at hv2
        rw [← hv2]
        exact fresh_new _ _
      | some v =>
        rw [hc] at hv2
        simp only [Option.some.injEq] at hv2
        rw [← hv2]
        exact fresh_step _ v name ((h detail.CveID).2 hnone v hc)
  · rw [cpeDetail_get, if_neg hid]
    exact h id

theorem cpeExtends_details (cves0 : List (String × models.VulnInfo)) (name : String)
    (details : List CveDetail) :
    ∀ cves : List (String × models.VulnInfo), cpeExtends cves0 cves →
      cpeExtends cves0 (details.foldl (cpeDetail name) cves) := by
  induction details with
  | nil => intro cves h; exact h
  | cons d ds ih =>
    intro cves h
    exact ih _ (cpeExtends_step cves0 cves name d h)

theorem cpeExtends_loop (fetch : String → Except String (List CveDetail))
    (cves0 : List (String × models.VulnInfo)) (names : List String) :
    ∀ (cves cves2 : List (String × models.VulnInfo)) (err : Option String),
      cpeExtends cves0 cves → cpeLoop fetch names cves = (cves2, err) →
      cpeExtends cves0 cves2 := by
  induction names with
  | nil =>
    intro cves cves2 err h hl
    simp only [cpeLoop, Prod.mk.injEq] at hl
    rw [← hl.1]
    exact h
  | cons n rest ih =>
    intro cves cves2 err h hl
    simp only [cpeLoop] at hl
    cases hf : fetch n with
    | error e =>
      rw [hf] at hl
      simp only [Prod.mk.injEq] at hl
      rw [← hl.1]
      exact h
    | ok ds =>
      rw [hf] at hl
      exact ih _ cves2 err (cpeExtends_details cves0 n ds cves h) hl

/-- A `VulnInfo` that holds a CPE name and `CpeNameMatch` still does after
further steps. -/
theorem holds_keep (cves cves2 : List (String × models.VulnInfo)) (id name : String)
    (h : ∃ v, goMapGet cves id = some v ∧ name ∈ v.CpeURIs ∧
      models.CpeNameMatch ∈ v.Confidences)
    (hext : cpeExtends cves cves2) :
    ∃ v, goMapGet cves2 id = some v ∧ name ∈ v.CpeURIs ∧
      models.CpeNameMatch ∈ v.Confidences := by
  obtain ⟨v, hv, hn, hc⟩ := h
  obtain ⟨v2, hv2, -, hp, hconf, -⟩ := (hext id).1 v hv
  refine ⟨v2, hv2, hp.subset hn, ?_⟩
  rcases hconf with he | ⟨_, he⟩
  · rw [he]; exact hc
  · rw [he]; simp

theorem holds_details (name : String) (details : List CveDetail) (d : CveDetail)
    (hd : d ∈ details) :
    ∀ cves : List (String × models.VulnInfo),
      ∃ v, goMapGet (details.foldl (cpeDetail name) cves) d.CveID = some v ∧
        name ∈ v.CpeURIs ∧ models.CpeNameMatch ∈ v.Confidences := by
  induction details with
  | nil => cases hd
  | cons x xs ih =>
    intro cves
    rw [List.foldl_cons]
    rcases List.mem_cons.1 hd with rfl | hmem
    · apply holds_keep (cpeDetail name cves d) _ d.CveID name
      · rw [cpeDetail_get, if_pos rfl]
        refine ⟨_, rfl, ?_⟩
        cases goMapGet cves d.CveID with
        | none => simp
        | some val =>
          exact ⟨AppendIfMissing_mem _ _, ConfidencesAppendIfMissing_mem _ _⟩
      · exact cpeExtends_details _ name xs _ (cpeExtends_refl _)
    · exact ih hmem _

theorem holds_loop (fetch : String → Except String (List CveDetail)) (names : List String) :
    ∀ (cves cves2 : List (String × models.VulnInfo)),
      cpeLoop fetch names cves = (cves2, none) →
      ∀ name ∈ names, ∀ ds, fetch name = .ok ds → ∀ d ∈ ds,
        ∃ v, goMapGet cves2 d.CveID = some v ∧ name ∈ v.CpeURIs ∧
          models.CpeNameMatch ∈ v.Confidences := by
  induction names with
  | nil => intro _ _ _ name hn; cases hn
  | cons n rest ih =>
    intro cves cves2 hl name hn ds hds d hd
    simp only [cpeLoop] at hl
    cases hf : fetch n with
    | error e =>
      rw [hf] at hl
      simp at hl
    | ok dsn =>
      rw [hf] at hl
      by_cases hname : name = n
      · subst hname
        have heq : dsn = ds := by
          rw [hf] at hds
          exact Except.ok.inj hds
        rw [← heq] at hd
        exact holds_keep _ cves2 d.CveID name (holds_details name dsn d hd cves)
          (cpeExtends_loop fetch _ rest _ cves2 none (cpeExtends_refl _) hl)
      · rcases List.mem_cons.1 hn with h | h
        · exact absurd h hname
        · exact ih _ cves2 hl name h ds hds d hd

theorem untouched_details (name id : String) (details : List CveDetail)
    (h : ∀ d ∈ details, d.CveID ≠ id) :
    ∀ cves : List (String × models.VulnInfo),
      goMapGet (details.foldl (cpeDetail name) cves) id = goMapGet cves id := by
  induction details with
  | nil => intro cves; rfl
  | cons x xs ih =>
    intro cves
    rw [List.foldl_cons, ih (fun d hd => h d (List.mem_cons_of_mem _ hd)), cpeDetail_get,
      if_neg (h x (List.mem_cons_self _ _))]

theorem untouched_loop (fetch : String → Except String (List CveDetail)) (id : String)
    (names : List String)
    (h : ∀ name ∈ names, ∀ ds, fetch name = .ok ds → ∀ d ∈ ds, d.CveID ≠ id) :
    ∀ (cves cves2 : List (String × models.VulnInfo)) (err : Option String),
      cpeLoop fetch names cves = (cves2, err) → goMapGet cves2 id = goMapGet cves id := by
  induction names with
  | nil =>
    intro cves cves2 err hl
    simp only [cpeLoop, Prod.mk.injEq] at hl
    rw [← hl.1]
  | cons n rest ih =>
    intro cves cves2 err hl
    simp only [cpeLoop] at hl
    cases hf : fetch n with
    | error e =>
      rw [hf] at hl
      simp only [Prod.mk.injEq] at hl
      rw [← hl.1]
    | ok ds =>
      rw [hf] at hl
      rw [ih (fun name hn => h name (List.mem_cons_of_mem _ hn)) _ cves2 err hl]
      exact untouched_details n id ds (h n (List.mem_cons_self _ _) ds hf) cves

/-- C17: the loop body of `DetectCpeURIsCves`, at every state of the map: an
identifier that is absent is inserted as a `VulnInfo` with the identifier, the
CPE name as its one CPE name and `CpeNameMatch` as its one confidence; an
identifier that is present gets the name appended unless it is there, has
`CpeNameMatch` among its confidences and keeps its other fields; the other
identifiers are as before. After a successful call only `ScannedCves` differs;
every identifier returned for a configured name is there with that name and
`CpeNameMatch`; a `VulnInfo` that was there before is grown, one that was not is
fresh; and an identifier that no query returned is as before. -/
theorem DetectCpeURIsCves_spec (driverIsNil IsFetchViaHTTP : Bool)
    (fetch : String → Except String (List CveDetail))
    (r r2 : models.ScanResult) (cpeURIs : List String)
    (h : DetectCpeURIsCves driverIsNil IsFetchViaHTTP fetch r cpeURIs = (r2, none)) :
    (∀ (name : String) (cves : List (String × models.VulnInfo)) (detail : CveDetail),
      (goMapGet cves detail.CveID = none →
        goMapGet (cpeDetail name cves detail) detail.CveID =
          some { CveID := detail.CveID, CpeURIs := [name],
                 Confidences := [models.CpeNameMatch] }) ∧
      (∀ val, goMapGet cves detail.CveID = some val →
        goMapGet (cpeDetail name cves detail) detail.CveID =
          some { val with
            CpeURIs := if name ∈ val.CpeURIs then val.CpeURIs else val.CpeURIs ++ [name]
            Confidences := ConfidencesAppendIfMissing val.Confidences models.CpeNameMatch } ∧
        models.CpeNameMatch ∈
          ConfidencesAppendIfMissing val.Confidences models.CpeNameMatch) ∧
      (∀ id, id ≠ detail.CveID →
        goMapGet (cpeDetail name cves detail) id = goMapGet cves id)) ∧
    r2 = { r with ScannedCves := r2.ScannedCves } ∧
    (∀ name ∈ cpeURIs, ∀ ds, fetch name = .ok ds → ∀ d ∈ ds,
      ∃ v, goMapGet r2.ScannedCves d.CveID = some v ∧ name ∈ v.CpeURIs ∧
        models.CpeNameMatch ∈ v.Confidences) ∧
    (∀ id v0, goMapGet r.ScannedCves id = some v0 →
      ∃ v, goMapGet r2.ScannedCves id = some v ∧ grown v0 v) ∧
    (∀ id v, goMapGet r.ScannedCves id = none → goMapGet r2.ScannedCves id = some v →
      fresh id v) ∧
    (∀ id, (∀ name ∈ cpeURIs, ∀ ds, fetch name = .ok ds → ∀ d ∈ ds, d.CveID ≠ id) →
      goMapGet r2.ScannedCves id = goMapGet r.ScannedCves id) := by
  have hloop : cpeLoop fetch cpeURIs r.ScannedCves = (r2.ScannedCves, none) ∧
      r2 = { r with ScannedCves := r2.ScannedCves } := by
    unfold DetectCpeURIsCves at h
    split at h
    · simp at h
    · rcases hc : cpeLoop fetch cpeURIs r.ScannedCves with ⟨cves, err⟩
      rw [hc] at h
      simp only [Prod.mk.injEq] at h
      obtain ⟨h1, h2⟩ := h
      subst h1
      exact ⟨by rw [h2], rfl⟩
  obtain ⟨hl, hr⟩ := hloop
  have hext := cpeExtends_loop fetch r.ScannedCves cpeURIs _ _ none (cpeExtends_refl _) hl
  refine ⟨?_, hr, holds_loop fetch cpeURIs _ _ hl, fun id v0 hv0 => (hext id).1 v0 hv0,
    fun id v hnone hv => (hext id).2 hnone v hv,
    fun id hid => untouched_loop fetch id cpeURIs hid _ _ none hl⟩
  intro name cves detail
  refine ⟨?_, ?_, ?_⟩
  · intro hnone
    rw [cpeDetail_get, if_pos rfl, hnone]
  · intro val hval
    refine ⟨?_, ConfidencesAppendIfMissing_mem _ _⟩
    rw [cpeDetail_get, if_pos rfl, hval]
    rfl
  · intro id hid
    rw [cpeDetail_get, if_neg (fun h => hid h.symm)]

/-- Two configured CPE names whose queries both return CVE-2021-3449, on a scan
result that holds CVE-2020-1971 from another source: the new identifier is
inserted with the first name and gets the second appended, the old one is kept
as it is. -/
theorem DetectCpeURIsCves_spec_witness :
    (DetectCpeURIsCves false false
      (fun _ => .ok [{ CveID := "CVE-2021-3449" }])
      { ServerName := "web01",
        ScannedCves := [("CVE-2020-1971", { CveID := "CVE-2020-1971" })] }
      ["cpe:/a:openssl:openssl:1.1.1", "cpe:/a:openssl:openssl:1.1.1j"]).1.ScannedCves =
      [("CVE-2020-1971", { CveID := "CVE-2020-1971" }),
       ("CVE-2021-3449",
        { CveID := "CVE-2021-3449",
          CpeURIs := ["cpe:/a:openssl:openssl:1.1.1", "cpe:/a:openssl:openssl:1.1.1j"],
          Confidences := [models.CpeNameMatch] })] ∧
    goMapGet (DetectCpeURIsCves false false
      (fun _ => .ok [{ CveID := "CVE-2021-3449" }])
      { ServerName := "web01",
        ScannedCves := [("CVE-2020-1971", { CveID := "CVE-2020-1971" })] }
      ["cpe:/a:openssl:openssl:1.1.1", "cpe:/a:openssl:openssl:1.1.1j"]).1.ScannedCves
      "CVE-2020-1971" =
    goMapGet [("CVE-2020-1971", ({ CveID := "CVE-2020-1971" } : models.VulnInfo))]
      "CVE-2020-1971" :=
  ⟨by decide,
    (DetectCpeURIsCves_spec false false (fun _ => .ok [{ CveID := "CVE-2021-3449" }])
      { ServerName := "web01",
        ScannedCves := [("CVE-2020-1971", { CveID := "CVE-2020-1971" })] }
      _ ["cpe:/a:openssl:openssl:1.1.1", "cpe:/a:openssl:openssl:1.1.1j"] rfl).2.2.2.2.2
      "CVE-2020-1971" (by
        intro name _ ds hds d hd
        simp only [Except.ok.injEq] at hds
        subst hds
        simp only [List.mem_singleton] at hd
        subst hd
        decide)⟩

end Detector
